import Mathlib

/-!
# ST7789 display driver: transfer and rasterisation engine

A shallow embedding of `src/ST7789/st7789.c`.

* C unsigned 16-bit values are natural numbers below `2^16`; C `int`
  expressions are computed in `Int` and narrowed with `u16` / `i16` exactly
  where the C code stores them into a 16-bit object.
* The SPI bus is an explicit state `Bus` that is threaded through every
  function; the elements clocked out are appended to `Bus.trace`.
* Loops that the C code can spin in for ever are modelled with fuel and
  return `Option`; `none` means that the loop has not left after the fuel
  that every leaving run needs.
-/

namespace ST7789

/-! ## Build-time configuration -/

/-- Constants of the header `st7789.h`, which is not part of the sources at
hand: panel geometry, the coordinate shifts, the opcodes used by the drawing
code, the MADCTL flag masks, and the `USE_DMA` build switch.  They are
parameters of the whole development. -/
structure Panel where
  WIDTH : Nat
  HEIGHT : Nat
  X_SHIFT : Nat
  Y_SHIFT : Nat
  CASET : Nat
  RASET : Nat
  RAMWR : Nat
  MADCTL : Nat
  MADCTL_MY : Nat
  MADCTL_MX : Nat
  MADCTL_MV : Nat
  MADCTL_RGB : Nat
  USE_DMA : Bool
  deriving DecidableEq, Repr

/-! ## Machine integers -/

/-- Conversion of a C `int` value to `uint16_t`. -/
def u16 (z : Int) : Nat := (z % 65536).toNat

/-- Conversion of a C `int` value to `int16_t` (two's complement wrap, as
the ARM compilers do). -/
def i16 (z : Int) : Int := (z + 32768) % 65536 - 32768

/-! ## Bus model -/

/-- One element clocked out on the SPI bus: the level of the data/command
line while it was sent, the frame width, and the value. -/
structure BusItem where
  dc : Bool
  wide : Bool
  val : Nat
  deriving DecidableEq, Repr

/-- A command byte (D/C low, 8-bit frame). -/
def BusItem.cmd (v : Nat) : BusItem := ⟨false, false, v⟩

/-- A data byte (D/C high, 8-bit frame). -/
def BusItem.byte (v : Nat) : BusItem := ⟨true, false, v⟩

/-- A 16-bit data element, i.e. one colour sample (D/C high, 16-bit frame). -/
def BusItem.sample (v : Nat) : BusItem := ⟨true, true, v⟩

/-- Transport state: `is16` is `ST7789_SPI_PORT.Init.DataSize`, `memInc` and
`dmaHalf` are the DMA channel's `MemInc` and data alignment, `dc` and `cs`
are the two control lines, `trace` is everything sent so far, and `xfers`
lists the `Size` argument of every HAL transmit call made so far. -/
structure Bus where
  is16 : Bool
  memInc : Bool
  dmaHalf : Bool
  dc : Bool
  cs : Bool
  trace : List BusItem
  xfers : List Nat
  deriving DecidableEq, Repr

/-- `#define mode_16bit 1`, st7789.c line 5. -/
def mode_16bit : Bool := true

/-- `#define mode_8bit 0`, st7789.c line 6. -/
def mode_8bit : Bool := false

/-- `#define DMA_min_Sz 16`, st7789.c line 23. -/
def DMA_min_Sz : Nat := 16

/-- `#define mem_increase 1`, st7789.c line 24. -/
def mem_increase : Bool := true

/-- `#define mem_fixed 0`, st7789.c line 25. -/
def mem_fixed : Bool := false

/-- Byte at address `a` of a memory object (0 outside the object). -/
def rd8 (mem : List Nat) (a : Nat) : Nat := (mem[a]?).getD 0

/-- Little-endian half-word at byte address `a` of a memory object. -/
def rd16 (mem : List Nat) (a : Nat) : Nat := rd8 mem a + 256 * rd8 mem (a + 1)

/-- Memory image of a `uint16_t` array (little-endian, as on the Cortex-M). -/
def bytesOf16 : List Nat → List Nat
  | [] => []
  | w :: ws => (w % 256) :: (w / 256 % 256) :: bytesOf16 ws

/-- The vendor library call `HAL_SPI_Transmit(&port, buff, Size, timeout)`
(STM32 HAL, not code of this repository), by its contract: it sends `Size`
elements read upwards from byte `off` of the object `mem`; an element is one
byte in 8-bit mode and one little-endian half-word in 16-bit mode. -/
def HAL_SPI_Transmit (mem : List Nat) (off size : Nat) (s : Bus) : Bus :=
  { s with xfers := s.xfers ++ [size],
           trace := s.trace ++ (List.range size).map (fun i =>
      if s.is16 then BusItem.mk s.dc true (rd16 mem (off + 2 * i))
      else BusItem.mk s.dc false (rd8 mem (off + i))) }

/-- The vendor library call `HAL_SPI_Transmit_DMA(&port, buff, Size)` followed
by the wait for completion: as `HAL_SPI_Transmit`, but the memory address
advances only when `MemInc` is enabled, and memory is read with the DMA
alignment. -/
def HAL_SPI_Transmit_DMA (mem : List Nat) (off size : Nat) (s : Bus) : Bus :=
  { s with xfers := s.xfers ++ [size],
           trace := s.trace ++ (List.range size).map (fun i =>
      let v := if s.dmaHalf then rd16 mem (off + (if s.memInc then 2 * i else 0))
               else rd8 mem (off + (if s.memInc then i else 0))
      BusItem.mk s.dc s.is16 (if s.is16 then v else v % 256)) }

/-- Modelled from the spec: the chip-select macro `ST7789_Select` of the
absent header asserts the chip-select line (section 6). -/
def ST7789_Select (s : Bus) : Bus := { s with cs := true }

/-- Modelled from the spec: the chip-select macro `ST7789_UnSelect` of the
absent header releases the chip-select line (section 6). -/
def ST7789_UnSelect (s : Bus) : Bus := { s with cs := false }

/-- Modelled from the spec: the macro `ST7789_DC_Set` of the absent header
puts the command/data line to "data" (section 6). -/
def ST7789_DC_Set (s : Bus) : Bus := { s with dc := true }

/-- Modelled from the spec: the macro `ST7789_DC_Clr` of the absent header
puts the command/data line to "command" (section 6). -/
def ST7789_DC_Clr (s : Bus) : Bus := { s with dc := false }

/-- `setSPI_Size`, st7789.c lines 12-20. -/
def setSPI_Size (is16Bit : Bool) (s : Bus) : Bus := { s with is16 := is16Bit }

/-- `setDMAMemMode`, st7789.c lines 32-52. -/
def setDMAMemMode (memInc is16Bit : Bool) (s : Bus) : Bus :=
  { setSPI_Size is16Bit s with memInc := memInc, dmaHalf := is16Bit }

/-- `ST7789_WriteCommand`, st7789.c lines 60-66 (`cmd` is a `uint8_t`). -/
def ST7789_WriteCommand (cmd : Nat) (s : Bus) : Bus :=
  ST7789_UnSelect (HAL_SPI_Transmit [cmd % 256] 0 1 (ST7789_DC_Clr (ST7789_Select s)))

/-- The `while (buff_size > 0)` loop of `ST7789_WriteData`, lines 81-98.
`off` is the byte pointer `buff`; note `buff += chunk_size` on a
`uint8_t *`. -/
def WriteData_loop (p : Panel) (mem : List Nat) : Nat → Nat → Nat → Bus → Bus
  | 0, _, _, s => s
  | fuel + 1, off, buff_size, s =>
    if buff_size > 0 then
      let chunk_size := if buff_size > 65535 then 65535 else buff_size
      let s1 :=
        if p.USE_DMA then
          if DMA_min_Sz ≤ buff_size then HAL_SPI_Transmit_DMA mem off chunk_size s
          else HAL_SPI_Transmit mem off chunk_size s
        else HAL_SPI_Transmit mem off chunk_size s
      WriteData_loop p mem fuel (off + chunk_size) (buff_size - chunk_size) s1
    else s

/-- `ST7789_WriteData`, st7789.c lines 74-101.  Every round of the loop
removes at least one element, so `buff_size` rounds of fuel are enough. -/
def ST7789_WriteData (p : Panel) (mem : List Nat) (off buff_size : Nat) (s : Bus) : Bus :=
  ST7789_UnSelect (WriteData_loop p mem buff_size off buff_size (ST7789_DC_Set (ST7789_Select s)))

/-- `ST7789_WriteSmallData`, st7789.c lines 107-113. -/
def ST7789_WriteSmallData (data : Nat) (s : Bus) : Bus :=
  ST7789_UnSelect (HAL_SPI_Transmit [data % 256] 0 1 (ST7789_DC_Set (ST7789_Select s)))

/-- `ST7789_SetRotation`, st7789.c lines 120-139. -/
def ST7789_SetRotation (p : Panel) (m : Nat) (s : Bus) : Bus :=
  let s := ST7789_WriteCommand p.MADCTL s
  match m with
  | 0 => ST7789_WriteSmallData (p.MADCTL_MX ||| p.MADCTL_MY ||| p.MADCTL_RGB) s
  | 1 => ST7789_WriteSmallData (p.MADCTL_MY ||| p.MADCTL_MV ||| p.MADCTL_RGB) s
  | 2 => ST7789_WriteSmallData p.MADCTL_RGB s
  | 3 => ST7789_WriteSmallData (p.MADCTL_MX ||| p.MADCTL_MV ||| p.MADCTL_RGB) s
  | _ => s

/-- `ST7789_SetAddressWindow`, st7789.c lines 146-166. -/
def ST7789_SetAddressWindow (p : Panel) (x0 y0 x1 y1 : Nat) (s : Bus) : Bus :=
  let x_start := u16 ((x0 : Int) + p.X_SHIFT)
  let x_end := u16 ((x1 : Int) + p.X_SHIFT)
  let y_start := u16 ((y0 : Int) + p.Y_SHIFT)
  let y_end := u16 ((y1 : Int) + p.Y_SHIFT)
  let s := ST7789_WriteCommand p.CASET s
  let s := ST7789_WriteData p [x_start / 256 % 256, x_start % 256, x_end / 256 % 256, x_end % 256] 0 4 s
  let s := ST7789_WriteCommand p.RASET s
  let s := ST7789_WriteData p [y_start / 256 % 256, y_start % 256, y_end / 256 % 256, y_end % 256] 0 4 s
  ST7789_WriteCommand p.RAMWR s

/-- `ST7789_DrawPixel`, st7789.c lines 242-256. -/
def ST7789_DrawPixel (p : Panel) (x y color : Nat) (s : Bus) : Bus :=
  if x ≥ p.WIDTH ∨ y ≥ p.HEIGHT then s
  else
    let s := ST7789_SetAddressWindow p x y x y s
    let s := ST7789_Select (ST7789_DC_Set s)
    ST7789_UnSelect (HAL_SPI_Transmit [color / 256 % 256, color % 256] 0 2 s)

/-- The loop `while (pixels >= blockSz)` of `ST7789_Fill`, lines 293-296.
Returns the remaining `pixels`, or `none` when the fuel is used up. -/
def Fill_blocks (p : Panel) (fill : List Nat) (blockSz : Nat) : Nat → Nat → Bus → Option (Nat × Bus)
  | 0, _, _ => none
  | fuel + 1, pixels, s =>
    if pixels ≥ blockSz then
      Fill_blocks p fill blockSz fuel (pixels - blockSz) (ST7789_WriteData p fill 0 blockSz s)
    else some (pixels, s)

/-- `ST7789_Fill`, st7789.c lines 265-304.  With `blockSz >= 1` the block
loop runs at most `pixels` times, so `pixels + 1` rounds of fuel let every
leaving run leave.  The memory image of `fill` holds the `blockSz` entries
the code writes; the entries it leaves unwritten are never sent. -/
def ST7789_Fill (p : Panel) (xSta ySta xEnd yEnd color : Nat) (s : Bus) : Option Bus :=
  let pixels := u16 (((xEnd : Int) - xSta + 1) * ((yEnd : Int) - ySta + 1))
  if xEnd ≥ p.WIDTH ∨ yEnd ≥ p.HEIGHT then some s
  else
    let s := ST7789_SetAddressWindow p xSta ySta xEnd yEnd s
    if p.USE_DMA ∧ DMA_min_Sz ≤ pixels then
      let s := setDMAMemMode mem_fixed mode_16bit s
      let s := ST7789_WriteData p (bytesOf16 [color]) 0 pixels s
      some (setSPI_Size mode_8bit s)
    else
      let s := setSPI_Size mode_16bit s
      let blockSz := if pixels < 64 then pixels else 64
      let fill := bytesOf16 (List.replicate blockSz color)
      match Fill_blocks p fill blockSz (pixels + 1) pixels s with
      | none => none
      | some (pixels, s) =>
        let s := if pixels ≠ 0 then ST7789_WriteData p fill 0 pixels s else s
        some (setSPI_Size mode_8bit s)

/-- `ST7789_DrawImage`, st7789.c lines 314-332; `data` is the caller's
array of 16-bit samples. -/
def ST7789_DrawImage (p : Panel) (x y w h : Nat) (data : List Nat) (s : Bus) : Bus :=
  if x ≥ p.WIDTH ∨ y ≥ p.HEIGHT then s
  else if (x : Int) + w - 1 ≥ p.WIDTH then s
  else if (y : Int) + h - 1 ≥ p.HEIGHT then s
  else
    let s := ST7789_SetAddressWindow p x y (u16 ((x : Int) + w - 1)) (u16 ((y : Int) + h - 1)) s
    let s := if p.USE_DMA then setDMAMemMode mem_increase mode_16bit s
             else setSPI_Size mode_16bit s
    let s := ST7789_WriteData p (bytesOf16 data) 0 (w * h) s
    setSPI_Size mode_8bit s

/-- `ST7789_DrawHLine`, st7789.c lines 358-365. -/
def ST7789_DrawHLine (p : Panel) (x0 x1 y color : Nat) (s : Bus) : Option Bus :=
  if x1 < x0 then ST7789_Fill p x1 y x0 y color s
  else ST7789_Fill p x0 y x1 y color s

/-- `ST7789_DrawVLine`, st7789.c lines 374-381. -/
def ST7789_DrawVLine (p : Panel) (x y0 y1 color : Nat) (s : Bus) : Option Bus :=
  if y1 < y0 then ST7789_Fill p x y1 x y0 color s
  else ST7789_Fill p x y0 x y1 color s

/-- Modelled from the spec: the macro `ABS` of the absent header, the
absolute value of a C `int` expression (section 4.3 writes it as bars). -/
def ABS (z : Int) : Int := if z > 0 then z else -z

/-- The `for (; x0<=x1; x0++)` loop of `ST7789_DrawLine`, lines 434-445;
`x0`, `y0` are `uint16_t`, `err` is `int16_t`.  Returns `none` when the fuel
is used up. -/
def DrawLine_loop (p : Panel) (steep : Bool) (x1 : Nat) (dx dy ystep : Int) (color : Nat) :
    Nat → Nat → Nat → Int → Bus → Option Bus
  | 0, _, _, _, _ => none
  | fuel + 1, x0, y0, err, s =>
    if x0 ≤ x1 then
      let s := if steep then ST7789_DrawPixel p y0 x0 color s
               else ST7789_DrawPixel p x0 y0 color s
      let err := i16 (err - dy)
      if err < 0 then
        DrawLine_loop p steep x1 dx dy ystep color fuel (u16 ((x0 : Int) + 1))
          (u16 ((y0 : Int) + ystep)) (i16 (err + dx)) s
      else
        DrawLine_loop p steep x1 dx dy ystep color fuel (u16 ((x0 : Int) + 1)) y0 err s
    else some s

/-- The part of `ST7789_DrawLine` after the two axis-aligned cases, lines
400-446.  A run that leaves the loop has `x1 <= 65534`, hence makes at most
65535 rounds and one last test. -/
def DrawLine_general (p : Panel) (x0 y0 x1 y1 color : Nat) (s : Bus) : Option Bus :=
  let steep : Bool := decide (ABS ((y1 : Int) - y0) > ABS ((x1 : Int) - x0))
  let (x0, y0, x1, y1) := if steep then (y0, x0, y1, x1) else (x0, y0, x1, y1)
  let (x0, y0, x1, y1) := if x0 > x1 then (x1, y1, x0, y0) else (x0, y0, x1, y1)
  let dx := i16 ((x1 : Int) - x0)
  let dy := i16 (ABS ((y1 : Int) - y0))
  let err := i16 (Int.tdiv dx 2)
  let ystep : Int := if y0 < y1 then 1 else -1
  DrawLine_loop p steep x1 dx dy ystep color 65536 x0 y0 err s

/-- `ST7789_DrawLine`, st7789.c lines 390-446. -/
def ST7789_DrawLine (p : Panel) (x0 y0 x1 y1 color : Nat) (s : Bus) : Option Bus :=
  if x0 = x1 then ST7789_DrawVLine p x0 y0 y1 color s
  else if y0 = y1 then ST7789_DrawHLine p x0 x1 y0 color s
  else DrawLine_general p x0 y0 x1 y1 color s

/-- `ST7789_DrawRectangle`, st7789.c lines 454-461. -/
def ST7789_DrawRectangle (p : Panel) (x1 y1 x2 y2 color : Nat) (s : Bus) : Option Bus :=
  (ST7789_DrawHLine p x1 x2 y1 color s).bind fun s =>
  (ST7789_DrawHLine p x1 x2 y2 color s).bind fun s =>
  (ST7789_DrawVLine p x1 y1 y2 color s).bind fun s =>
  ST7789_DrawVLine p x2 y1 y2 color s

/-- The `while (x < y)` loop of `ST7789_DrawCircle`, lines 483-502; all of
`f`, `ddF_x`, `ddF_y`, `x`, `y` are `int16_t`.  Returns `none` when the fuel
is used up. -/
def DrawCircle_loop (p : Panel) (x0 y0 color : Nat) :
    Nat → Int → Int → Int → Int → Int → Bus → Option Bus
  | 0, _, _, _, _, _, _ => none
  | fuel + 1, f, ddF_x, ddF_y, x, y, s =>
    if x < y then
      let y1 := if f ≥ 0 then i16 (y - 1) else y
      let ddF_y1 := if f ≥ 0 then i16 (ddF_y + 2) else ddF_y
      let f1 := if f ≥ 0 then i16 (f + ddF_y1) else f
      let x1 := i16 (x + 1)
      let ddF_x1 := i16 (ddF_x + 2)
      let f2 := i16 (f1 + ddF_x1)
      let s := ST7789_DrawPixel p (u16 (x0 + x1)) (u16 (y0 + y1)) color s
      let s := ST7789_DrawPixel p (u16 (x0 - x1)) (u16 (y0 + y1)) color s
      let s := ST7789_DrawPixel p (u16 (x0 + x1)) (u16 (y0 - y1)) color s
      let s := ST7789_DrawPixel p (u16 (x0 - x1)) (u16 (y0 - y1)) color s
      let s := ST7789_DrawPixel p (u16 (x0 + y1)) (u16 (y0 + x1)) color s
      let s := ST7789_DrawPixel p (u16 (x0 - y1)) (u16 (y0 + x1)) color s
      let s := ST7789_DrawPixel p (u16 (x0 + y1)) (u16 (y0 - x1)) color s
      let s := ST7789_DrawPixel p (u16 (x0 - y1)) (u16 (y0 - x1)) color s
      DrawCircle_loop p x0 y0 color fuel f2 ddF_x1 ddF_y1 x1 y1 s
    else some s

/-- `ST7789_DrawCircle`, st7789.c lines 470-503 (`r` is a `uint8_t`).  Every
round makes `y - x` smaller, so the loop makes at most `r` rounds and one
last test. -/
def ST7789_DrawCircle (p : Panel) (x0 y0 r color : Nat) (s : Bus) : Option Bus :=
  let f := i16 (1 - (r : Int))
  let ddF_x : Int := 1
  let ddF_y := i16 (-2 * (r : Int))
  let x : Int := 0
  let y := i16 (r : Int)
  let s := ST7789_DrawPixel p x0 (u16 ((y0 : Int) + r)) color s
  let s := ST7789_DrawPixel p x0 (u16 ((y0 : Int) - r)) color s
  let s := ST7789_DrawPixel p (u16 ((x0 : Int) + r)) y0 color s
  let s := ST7789_DrawPixel p (u16 ((x0 : Int) - r)) y0 color s
  DrawCircle_loop p x0 y0 color (r + 1) f ddF_x ddF_y x y s

/-- The type `FontDef` of fonts.h: cell width and height (`uint8_t`) and the
table of row words (`uint16_t`). -/
structure FontDef where
  width : Nat
  height : Nat
  data : List Nat
  deriving DecidableEq, Repr

/-- The read `font.data[(ch - 32) * font.height + i]` of `ST7789_WriteChar`;
a read outside the table gives 0. -/
def fontRow (font : FontDef) (ch i : Nat) : Nat :=
  let idx : Int := ((ch : Int) - 32) * font.height + i
  if idx < 0 then 0 else font.data.getD idx.toNat 0

/-- `ST7789_WriteChar`, st7789.c lines 525-549; `b` is a `uint32_t`. -/
def ST7789_WriteChar (p : Panel) (x y ch : Nat) (font : FontDef) (color bgcolor : Nat)
    (s : Bus) : Bus :=
  let foreColor := [color / 256 % 256, color % 256]
  let bgColor := [bgcolor / 256 % 256, bgcolor % 256]
  let s := ST7789_SetAddressWindow p x y (u16 ((x : Int) + font.width - 1))
    (u16 ((y : Int) + font.height - 1)) s
  let s := ST7789_DC_Set (ST7789_Select s)
  let s := (List.range font.height).foldl (fun s i =>
    let b := fontRow font ch i
    (List.range font.width).foldl (fun s j =>
      if ((b <<< j) % 4294967296) &&& 0x8000 ≠ 0 then HAL_SPI_Transmit foreColor 0 2 s
      else HAL_SPI_Transmit bgColor 0 2 s) s) s
  ST7789_UnSelect s

/-- `ST7789_WriteString`, st7789.c lines 560-580; `str` holds the characters
before the terminating NUL. -/
def ST7789_WriteString (p : Panel) (font : FontDef) (color bgcolor : Nat) :
    List Nat → Nat → Nat → Bus → Bus
  | [], _, _, s => s
  | ch :: rest, x, y, s =>
    if (x : Int) + font.width ≥ p.WIDTH then
      let y := u16 ((y : Int) + font.height)
      if (y : Int) + font.height ≥ p.HEIGHT then s
      else if ch = 32 then ST7789_WriteString p font color bgcolor rest 0 y s
      else
        ST7789_WriteString p font color bgcolor rest (u16 ((0 : Int) + font.width)) y
          (ST7789_WriteChar p 0 y ch font color bgcolor s)
    else
      ST7789_WriteString p font color bgcolor rest (u16 ((x : Int) + font.width)) y
        (ST7789_WriteChar p x y ch font color bgcolor s)

/-- `ST7789_DrawTriangle`, st7789.c lines 589-595. -/
def ST7789_DrawTriangle (p : Panel) (x1 y1 x2 y2 x3 y3 color : Nat) (s : Bus) : Option Bus :=
  (ST7789_DrawLine p x1 y1 x2 y2 color s).bind fun s =>
  (ST7789_DrawLine p x2 y2 x3 y3 color s).bind fun s =>
  ST7789_DrawLine p x3 y3 x1 y1 color s

/-- The `for (curpixel = 0; curpixel <= numpixels; curpixel++)` loop of
`ST7789_DrawFilledTriangle`, lines 649-660; every variable is an `int16_t`.
Returns `none` when the fuel is used up or a line does not return. -/
def DrawFilledTriangle_loop (p : Panel) (x3 y3 color : Nat)
    (xinc1 xinc2 yinc1 yinc2 den numadd numpixels : Int) :
    Nat → Int → Int → Int → Int → Bus → Option Bus
  | 0, _, _, _, _, _ => none
  | fuel + 1, curpixel, x, y, num, s =>
    if curpixel ≤ numpixels then
      (ST7789_DrawLine p (u16 x) (u16 y) x3 y3 color s).bind fun s =>
        let num1 := i16 (num + numadd)
        let num2 := if num1 ≥ den then i16 (num1 - den) else num1
        let xa := if num1 ≥ den then i16 (x + xinc1) else x
        let ya := if num1 ≥ den then i16 (y + yinc1) else y
        DrawFilledTriangle_loop p x3 y3 color xinc1 xinc2 yinc1 yinc2 den numadd numpixels
          fuel (i16 (curpixel + 1)) (i16 (xa + xinc2)) (i16 (ya + yinc2)) num2 s
    else some s

/-- `ST7789_DrawFilledTriangle`, st7789.c lines 603-661.  A run that leaves
the loop has `numpixels <= 32766`, hence makes at most 32767 rounds and one
last test. -/
def ST7789_DrawFilledTriangle (p : Panel) (x1 y1 x2 y2 x3 y3 color : Nat) (s : Bus) :
    Option Bus :=
  let deltax := i16 (ABS ((x2 : Int) - x1))
  let deltay := i16 (ABS ((y2 : Int) - y1))
  let x := i16 (x1 : Int)
  let y := i16 (y1 : Int)
  let xinc : Int := if x2 ≥ x1 then 1 else -1
  let yinc : Int := if y2 ≥ y1 then 1 else -1
  if deltax ≥ deltay then
    DrawFilledTriangle_loop p x3 y3 color 0 xinc yinc 0 deltax deltay deltax
      32768 0 x y (i16 (Int.tdiv deltax 2)) s
  else
    DrawFilledTriangle_loop p x3 y3 color xinc 0 0 yinc deltay deltax deltay
      32768 0 x y (i16 (Int.tdiv deltay 2)) s

/-- The `while (x < y)` loop of `ST7789_DrawFilledCircle`, lines 684-698.
Returns `none` when the fuel is used up or a span does not return. -/
def DrawFilledCircle_loop (p : Panel) (x0 y0 : Int) (color : Nat) :
    Nat → Int → Int → Int → Int → Int → Bus → Option Bus
  | 0, _, _, _, _, _, _ => none
  | fuel + 1, f, ddF_x, ddF_y, x, y, s =>
    if x < y then
      let y1 := if f ≥ 0 then i16 (y - 1) else y
      let ddF_y1 := if f ≥ 0 then i16 (ddF_y + 2) else ddF_y
      let f1 := if f ≥ 0 then i16 (f + ddF_y1) else f
      let x1 := i16 (x + 1)
      let ddF_x1 := i16 (ddF_x + 2)
      let f2 := i16 (f1 + ddF_x1)
      (ST7789_DrawHLine p (u16 (x0 - x1)) (u16 (x0 + x1)) (u16 (y0 + y1)) color s).bind fun s =>
      (ST7789_DrawHLine p (u16 (x0 + x1)) (u16 (x0 - x1)) (u16 (y0 - y1)) color s).bind fun s =>
      (ST7789_DrawHLine p (u16 (x0 + y1)) (u16 (x0 - y1)) (u16 (y0 + x1)) color s).bind fun s =>
      (ST7789_DrawHLine p (u16 (x0 + y1)) (u16 (x0 - y1)) (u16 (y0 - x1)) color s).bind fun s =>
      DrawFilledCircle_loop p x0 y0 color fuel f2 ddF_x1 ddF_y1 x1 y1 s
    else some s

/-- `ST7789_DrawFilledCircle`, st7789.c lines 670-699; `x0`, `y0`, `r` are
`int16_t`.  Every round makes `y - x` smaller, so the loop makes at most
`r` rounds and one last test. -/
def ST7789_DrawFilledCircle (p : Panel) (x0 y0 r : Int) (color : Nat) (s : Bus) : Option Bus :=
  let s := ST7789_Select s
  let f := i16 (1 - r)
  let ddF_x : Int := 1
  let ddF_y := i16 (-2 * r)
  let x : Int := 0
  let y := r
  let s := ST7789_DrawPixel p (u16 x0) (u16 (y0 + r)) color s
  let s := ST7789_DrawPixel p (u16 x0) (u16 (y0 - r)) color s
  let s := ST7789_DrawPixel p (u16 (x0 + r)) (u16 y0) color s
  let s := ST7789_DrawPixel p (u16 (x0 - r)) (u16 y0) color s
  (ST7789_DrawHLine p (u16 (x0 - r)) (u16 (x0 + r)) (u16 y0) color s).bind fun s =>
  DrawFilledCircle_loop p x0 y0 color (r.toNat + 1) f ddF_x ddF_y x y s

/-! ## Reference descriptions used by the statements -/

/-- The window sequence as section 4.2 of the specification words it: the
column-address command and the big-endian start/end pair, the row-address
command and its pair, then the command that begins the memory write. -/
def windowItems (p : Panel) (x0 y0 x1 y1 : Nat) : List BusItem :=
  [BusItem.cmd (p.CASET % 256),
   BusItem.byte (u16 ((x0 : Int) + p.X_SHIFT) / 256),
   BusItem.byte (u16 ((x0 : Int) + p.X_SHIFT) % 256),
   BusItem.byte (u16 ((x1 : Int) + p.X_SHIFT) / 256),
   BusItem.byte (u16 ((x1 : Int) + p.X_SHIFT) % 256),
   BusItem.cmd (p.RASET % 256),
   BusItem.byte (u16 ((y0 : Int) + p.Y_SHIFT) / 256),
   BusItem.byte (u16 ((y0 : Int) + p.Y_SHIFT) % 256),
   BusItem.byte (u16 ((y1 : Int) + p.Y_SHIFT) / 256),
   BusItem.byte (u16 ((y1 : Int) + p.Y_SHIFT) % 256),
   BusItem.cmd (p.RAMWR % 256)]

/-- What a call has put on the bus: the part of the trace of `s1` that
follows the trace of the state `s` the call started from. -/
def emitted (s s1 : Bus) : List BusItem := s1.trace.drop s.trace.length

/-- A sequence of `ST7789_DrawPixel` calls with one colour, in list order. -/
def drawPixels (p : Panel) (color : Nat) (pts : List (Nat × Nat)) (s : Bus) : Bus :=
  pts.foldl (fun s q => ST7789_DrawPixel p q.1 q.2 color s) s

/-! ## Concrete configurations for the worked inputs -/

/-- A 240x320 panel (the full frame memory of the controller) with the
opcodes and MADCTL masks of the ST7789 command table, blocking build. -/
def panel240x320 : Panel :=
  ⟨240, 320, 0, 0, 0x2A, 0x2B, 0x2C, 0x36, 0x80, 0x40, 0x20, 0x00, false⟩

/-- The same panel in the `USE_DMA` build. -/
def panel240x320dma : Panel := { panel240x320 with USE_DMA := true }

/-- A 240x240 panel, blocking build. -/
def panel240x240 : Panel := { panel240x320 with HEIGHT := 240 }

/-- The bus between two calls: 8-bit words, both control lines released,
nothing sent yet. -/
def idleBus : Bus := ⟨false, true, false, false, false, [], []⟩

/-- The 5x7 test font used for the worked inputs: every row word is
`0xA800`, i.e. columns 0, 2 and 4 are set. -/
def stripeFont : FontDef := ⟨5, 7, List.replicate (7 * 96) 0xA800⟩

/-- A 240x320 test image for the worked inputs: sample number `i` has the
value `i mod 2^16`. -/
def rampImage : List Nat := (List.range 76800).map (fun i => i % 65536)

/-! ## The display controller, as the specification describes it -/

/-- The receiving side of the bus, the display controller.  It is hardware,
not code of this repository, and is described here after sections 4.2 and 6
of the specification: a command byte selects an opcode;
the column-address and row-address commands each take a four-byte big-endian
(start, end) pair; after the command that begins the memory write every
colour sample goes to the cursor, which starts at the window's first cell and
moves in row-major order, wrapping at the window's width and height.  `pix`
lists the cells written, oldest first, as (column, row, colour) in frame
memory coordinates. -/
structure Gram where
  op : Nat
  args : List Nat
  xs : Nat
  xe : Nat
  ys : Nat
  ye : Nat
  cx : Nat
  cy : Nat
  pix : List (Nat × Nat × Nat)
  deriving DecidableEq, Repr

/-- The controller after reset, before any command. -/
def Gram.reset : Gram := ⟨0, [], 0, 0, 0, 0, 0, 0, []⟩

/-- One colour sample is stored at the cursor and the cursor moves on
(specification, section 4.2: "row-major order across the window, wrapping at
window width"). -/
def Gram.put (g : Gram) (colour : Nat) : Gram :=
  { g with
    args := [],
    pix := g.pix ++ [(g.cx, g.cy, colour)],
    cx := if g.cx < g.xe then g.cx + 1 else g.xs,
    cy := if g.cx < g.xe then g.cy else if g.cy < g.ye then g.cy + 1 else g.ys }

/-- The controller takes one bus element.  A data element in 8-bit frames is
one byte of a colour sample, high byte first; a 16-bit frame is one colour
sample. -/
def Gram.step (p : Panel) (g : Gram) (it : BusItem) : Gram :=
  if it.dc = false then
    if it.val = p.RAMWR % 256 then { g with op := it.val, args := [], cx := g.xs, cy := g.ys }
    else { g with op := it.val, args := [] }
  else if g.op = p.CASET % 256 then
    match g.args with
    | [a, b, c] =>
      { g with args := g.args ++ [it.val], xs := 256 * a + b, xe := 256 * c + it.val }
    | _ => { g with args := g.args ++ [it.val] }
  else if g.op = p.RASET % 256 then
    match g.args with
    | [a, b, c] =>
      { g with args := g.args ++ [it.val], ys := 256 * a + b, ye := 256 * c + it.val }
    | _ => { g with args := g.args ++ [it.val] }
  else if g.op = p.RAMWR % 256 then
    if it.wide then g.put it.val
    else
      match g.args with
      | [hi] => g.put (256 * hi + it.val)
      | _ => { g with args := [it.val] }
  else g

/-- The cells of the panel that a sequence of bus elements writes, oldest
first, as (x, y, colour) in panel coordinates, i.e. frame memory coordinates
less the panel shift (specification, section 4.2: "applies a fixed
panel-specific coordinate offset"). -/
def painted (p : Panel) (items : List BusItem) : List (Nat × Nat × Nat) :=
  ((items.foldl (Gram.step p) Gram.reset).pix).map
    (fun q => (q.1 - p.X_SHIFT, q.2.1 - p.Y_SHIFT, q.2.2))

/-- A configuration that the controller model can read back: every shifted
coordinate and every row or column length of the panel fits a `uint16_t`,
and the three opcodes of the window sequence are three different bytes. -/
def Panel.wf (p : Panel) : Prop :=
  p.WIDTH + p.X_SHIFT ≤ 65535 ∧ p.HEIGHT + p.Y_SHIFT ≤ 65535 ∧
  p.CASET % 256 ≠ p.RASET % 256 ∧ p.CASET % 256 ≠ p.RAMWR % 256 ∧
  p.RASET % 256 ≠ p.RAMWR % 256

instance (p : Panel) : Decidable p.wf := by
  unfold Panel.wf
  infer_instance

/-- The transfer lengths that section 3 of the specification words for a
request of `n` elements ("capped at 65535 elements; longer requests are split
into successive chunks"): full chunks of 65535, then the rest if there is
one. -/
def chunkSizes (n : Nat) : List Nat :=
  List.replicate (n / 65535) 65535 ++ (if n % 65535 = 0 then [] else [n % 65535])

/-- The `ST7789_WriteChar` calls that `ST7789_WriteString` makes, in order, as
(x, y, character): the control flow of st7789.c lines 562-579 with the
drawing left out.  `WriteString_eq_calls` ties it to `ST7789_WriteString`. -/
def WriteString_calls (p : Panel) (font : FontDef) : List Nat → Nat → Nat → List (Nat × Nat × Nat)
  | [], _, _ => []
  | ch :: rest, x, y =>
    if (x : Int) + font.width ≥ p.WIDTH then
      let y := u16 ((y : Int) + font.height)
      if (y : Int) + font.height ≥ p.HEIGHT then []
      else if ch = 32 then WriteString_calls p font rest 0 y
      else (0, y, ch) :: WriteString_calls p font rest (u16 ((0 : Int) + font.width)) y
    else (x, y, ch) :: WriteString_calls p font rest (u16 ((x : Int) + font.width)) y

/-- A 10x18 test font for the worked inputs: every row word is `0xAAC0`. -/
def font10x18 : FontDef := ⟨10, 18, List.replicate (18 * 96) 0xAAC0⟩

/-- A point given by its major and minor coordinate: a steep line has the y
axis as its major axis (`ST7789_DrawPixel(y0, x0, color)` at line 436),
any other line the x axis (line 438). -/
def linePoint (steep : Bool) (a b : Nat) : Nat × Nat := if steep then (b, a) else (a, b)

/-- The closed form of the reference sequence: the number of minor-axis steps
taken before pixel number `k` of a line with major extent `dx` and minor
extent `dy`, floor((k*dy + dx - 1 - floor(dx/2)) / dx). -/
def bresenhamSteps (dx dy k : Nat) : Nat := (k * dy + dx - 1 - dx / 2) / dx

/-- The reference sequence of a line in (major, minor) coordinates from
(a0,b0), `dx + 1` pixels long, the minor coordinate moving towards `b1`. -/
def bresenhamPoints (steep : Bool) (a0 b0 b1 dx dy : Nat) : List (Nat × Nat) :=
  (List.range (dx + 1)).map (fun k =>
    linePoint steep (a0 + k)
      (if b0 < b1 then b0 + bresenhamSteps dx dy k else b0 - bresenhamSteps dx dy k))

/-- The reference sequence between two points given in (major, minor)
coordinates: the one with the smaller major coordinate comes first. -/
def bresenhamOrdered (steep : Bool) (a0 b0 a1 b1 : Nat) : List (Nat × Nat) :=
  if a0 < a1 then bresenhamPoints steep a0 b0 b1 (a1 - a0) (Int.natAbs ((b1 : Int) - b0))
  else bresenhamPoints steep a1 b1 b0 (a0 - a1) (Int.natAbs ((b0 : Int) - b1))

/-- The reference sequence of a general line between two endpoints: the
major axis is y when `|y1-y0| > |x1-x0|` and x otherwise. -/
def bresenhamLine (x0 y0 x1 y1 : Nat) : List (Nat × Nat) :=
  if Int.natAbs ((y1 : Int) - y0) > Int.natAbs ((x1 : Int) - x0) then
    bresenhamOrdered true y0 x0 y1 x1
  else bresenhamOrdered false x0 y0 x1 y1

/-- A sequence of `ST7789_DrawLine` calls with one colour from the listed
start points to one fixed end point (x3,y3), in list order; `none` when one
of the lines does not return. -/
def drawLinesTo (p : Panel) (x3 y3 color : Nat) : List (Nat × Nat) → Bus → Option Bus
  | [], s => some s
  | q :: t, s => (ST7789_DrawLine p q.1 q.2 x3 y3 color s).bind (drawLinesTo p x3 y3 color t)

/-- The number of times `num >= den` has held after k rounds of the loop of
`ST7789_DrawFilledTriangle` (lines 652-657), `num` starting from `den / 2`. -/
def walkCarry (den numadd k : Nat) : Nat := (den / 2 + k * numadd) / den

/-- The start points of the lines of `ST7789_DrawFilledTriangle`: with
`dx = |x2-x1|` and `dy = |y2-y1|`, point k is k steps from (x1,y1) towards
(x2,y2) along the longer axis and `floor((den/2 + k*numadd) / den)` steps
along the other one, `den` being the longer and `numadd` the shorter of dx
and dy. -/
def walkStarts (x1 y1 x2 y2 : Nat) : List (Nat × Nat) :=
  let dx := Int.natAbs ((x2 : Int) - x1)
  let dy := Int.natAbs ((y2 : Int) - y1)
  (List.range (max dx dy + 1)).map (fun k =>
    (if dx ≥ dy then (if x1 ≤ x2 then x1 + k else x1 - k)
     else (if x1 ≤ x2 then x1 + (dy / 2 + k * dx) / dy else x1 - (dy / 2 + k * dx) / dy),
     if dx ≥ dy then
       (if y1 ≤ y2 then y1 + (dx / 2 + k * dy) / dx else y1 - (dx / 2 + k * dy) / dx)
     else (if y1 ≤ y2 then y1 + k else y1 - k)))

/-- The five `int16_t` variables of `ST7789_DrawCircle`. -/
structure CircleVars where
  f : Int
  ddF_x : Int
  ddF_y : Int
  x : Int
  y : Int

/-- The variables of `ST7789_DrawCircle` before the loop, lines 472-476. -/
def DrawCircle_init (r : Nat) : CircleVars :=
  ⟨i16 (1 - (r : Int)), 1, i16 (-2 * (r : Int)), 0, i16 (r : Int)⟩

/-- The assignments of one round of the loop of `ST7789_DrawCircle`, lines
484-491, as in `DrawCircle_loop`. -/
def DrawCircle_step (v : CircleVars) : CircleVars :=
  let y1 := if v.f ≥ 0 then i16 (v.y - 1) else v.y
  let ddF_y1 := if v.f ≥ 0 then i16 (v.ddF_y + 2) else v.ddF_y
  let f1 := if v.f ≥ 0 then i16 (v.f + ddF_y1) else v.f
  let x1 := i16 (v.x + 1)
  let ddF_x1 := i16 (v.ddF_x + 2)
  let f2 := i16 (f1 + ddF_x1)
  ⟨f2, ddF_x1, ddF_y1, x1, y1⟩

/-- The variables after each round the loop `while (x < y)` makes, in order;
the list ends where the loop leaves or the fuel is used up. -/
def DrawCircle_rounds : Nat → CircleVars → List CircleVars
  | 0, _ => []
  | fuel + 1, v =>
    if v.x < v.y then DrawCircle_step v :: DrawCircle_rounds fuel (DrawCircle_step v) else []

/-- The offsets from the centre of the eight `ST7789_DrawPixel` calls of one
round, lines 493-501, in the order of the calls. -/
def eightOffsets (x y : Int) : List (Int × Int) :=
  [(x, y), (-x, y), (x, -y), (-x, -y), (y, x), (-y, x), (y, -x), (-y, -x)]

/-- The offsets from the centre of every `ST7789_DrawPixel` call of
`ST7789_DrawCircle`: the four calls of lines 478-481, then eight per round. -/
def circleOffsets (r : Nat) : List (Int × Int) :=
  [(0, (r : Int)), (0, -(r : Int)), ((r : Int), 0), (-(r : Int), 0)] ++
    (DrawCircle_rounds (r + 1) (DrawCircle_init r)).flatMap (fun v => eightOffsets v.x v.y)

/-- A value that an `int16_t` holds without wrapping. -/
def fits16 (z : Int) : Prop := -32768 ≤ z ∧ z ≤ 32767

instance (z : Int) : Decidable (fits16 z) := by
  unfold fits16
  exact inferInstance

/-- Every value that one round of the loop of `ST7789_DrawCircle` assigns to
an `int16_t` variable (lines 485-491) is held without wrapping. -/
def DrawCircle_step_fits (v : CircleVars) : Prop :=
  (v.f ≥ 0 → fits16 (v.y - 1) ∧ fits16 (v.ddF_y + 2) ∧ fits16 (v.f + (v.ddF_y + 2))) ∧
  fits16 (v.x + 1) ∧ fits16 (v.ddF_x + 2) ∧
  fits16 ((if v.f ≥ 0 then v.f + (v.ddF_y + 2) else v.f) + (v.ddF_x + 2))

instance (v : CircleVars) : Decidable (DrawCircle_step_fits v) := by
  unfold DrawCircle_step_fits
  exact inferInstance

/-- The invariant of the loop of `ST7789_DrawCircle` for radius r: the two
increments follow x and y, the point stays in the first octant up to one
step, and `f - 2x + y - 1` is the error `x*x + y*y - r*r` of the point, which
stays between -y and r. -/
def CircleInv (r : Nat) (v : CircleVars) : Prop :=
  v.ddF_x = 2 * v.x + 1 ∧ v.ddF_y = -2 * v.y ∧ 0 ≤ v.x ∧ v.x ≤ r ∧ 0 ≤ v.y ∧ v.y ≤ r ∧
  -v.y ≤ v.f - 2 * v.x + v.y - 1 ∧ v.f - 2 * v.x + v.y - 1 ≤ r ∧
  (v.x < v.y → v.f - 2 * v.x + v.y - 1 ≤ v.y) ∧
  v.f - 2 * v.x + v.y - 1 = v.x * v.x + v.y * v.y - (r : Int) * r

/-- The cells (x, y, colour) of the span that `ST7789_DrawHLine(xa, xb, y)`
fills inside the panel: row y from the smaller to the larger of xa, xb. -/
def spanCells (xa xb y c : Nat) : List (Nat × Nat × Nat) :=
  (List.range (max xa xb - min xa xb + 1)).map (fun k => (min xa xb + k, y, c))

/-- The cells of the four spans of one round of `ST7789_DrawFilledCircle`,
lines 694-697, for the round's `x`, `y`, in the order of the calls. -/
def roundSpanCells (x0 y0 : Nat) (x y : Int) (c : Nat) : List (Nat × Nat × Nat) :=
  spanCells (u16 ((x0 : Int) - x)) (u16 ((x0 : Int) + x)) (u16 ((y0 : Int) + y)) c ++
  spanCells (u16 ((x0 : Int) + x)) (u16 ((x0 : Int) - x)) (u16 ((y0 : Int) - y)) c ++
  spanCells (u16 ((x0 : Int) + y)) (u16 ((x0 : Int) - y)) (u16 ((y0 : Int) + x)) c ++
  spanCells (u16 ((x0 : Int) + y)) (u16 ((x0 : Int) - y)) (u16 ((y0 : Int) - x)) c

/-- The cells written by `ST7789_DrawFilledCircle` for a circle inside the
panel, in the order of writing: the four seed pixels of lines 677-680, the
centre span of line 681, then four spans per round of the loop. -/
def filledCircleCells (x0 y0 r c : Nat) : List (Nat × Nat × Nat) :=
  [(x0, u16 ((y0 : Int) + r), c), (x0, u16 ((y0 : Int) - r), c),
   (u16 ((x0 : Int) + r), y0, c), (u16 ((x0 : Int) - r), y0, c)] ++
  spanCells (u16 ((x0 : Int) - r)) (u16 ((x0 : Int) + r)) y0 c ++
  (DrawCircle_rounds (r + 1) (DrawCircle_init r)).flatMap
    (fun w => roundSpanCells x0 y0 w.x w.y c)

/-- A piece of trace that, whatever the controller has received before,
writes the cells `C` (panel coordinates) and nothing else. -/
def Paints (p : Panel) (U : List BusItem) (C : List (Nat × Nat × Nat)) : Prop :=
  ∀ g : Gram, (U.foldl (Gram.step p) g).pix =
    g.pix ++ C.map (fun q => (q.1 + p.X_SHIFT, q.2.1 + p.Y_SHIFT, q.2.2))

/-- From bus state `s` to bus state `s1` the cells `C` have been written, and
the bus is back in 8-bit mode. -/
def PaintsFrom (p : Panel) (s s1 : Bus) (C : List (Nat × Nat × Nat)) : Prop :=
  s1.is16 = false ∧ ∃ U, s1.trace = s.trace ++ U ∧ Paints p U C

/-- The characters that the loop of `ST7789_WriteString` (st7789.c lines
562-579) consumes, in order, each with the cursor (x, y) the loop has when its
body begins for that character, as (character, x, y): the control flow of the
loop with the drawing left out.  The list ends at the end of the string or
where the loop leaves at the `break` of line 567. -/
def WriteString_steps (p : Panel) (font : FontDef) : List Nat → Nat → Nat → List (Nat × Nat × Nat)
  | [], _, _ => []
  | ch :: rest, x, y =>
    if (x : Int) + font.width ≥ p.WIDTH then
      let y1 := u16 ((y : Int) + font.height)
      if (y1 : Int) + font.height ≥ p.HEIGHT then []
      else if ch = 32 then (ch, x, y) :: WriteString_steps p font rest 0 y1
      else (ch, x, y) :: WriteString_steps p font rest (u16 ((0 : Int) + font.width)) y1
    else (ch, x, y) :: WriteString_steps p font rest (u16 ((x : Int) + font.width)) y

/-! ## Lemmas -/

theorem u16_lt (z : Int) : u16 z < 65536 := by
  unfold u16; omega

theorem WriteCommand_eq (c : Nat) (s : Bus) (h : s.is16 = false) :
    ST7789_WriteCommand c s =
      { s with dc := false, cs := false, trace := s.trace ++ [BusItem.cmd (c % 256)],
               xfers := s.xfers ++ [1] } := by
  simp [ST7789_WriteCommand, HAL_SPI_Transmit, ST7789_UnSelect, ST7789_DC_Clr, ST7789_Select,
    h, BusItem.cmd, rd8, List.range_succ]

theorem WriteSmallData_eq (c : Nat) (s : Bus) (h : s.is16 = false) :
    ST7789_WriteSmallData c s =
      { s with dc := true, cs := false, trace := s.trace ++ [BusItem.byte (c % 256)],
               xfers := s.xfers ++ [1] } := by
  simp [ST7789_WriteSmallData, HAL_SPI_Transmit, ST7789_UnSelect, ST7789_DC_Set, ST7789_Select,
    h, BusItem.byte, rd8, List.range_succ]

theorem WriteData_four (p : Panel) (a b c d : Nat) (s : Bus) (h : s.is16 = false) :
    ST7789_WriteData p [a, b, c, d] 0 4 s =
      { s with dc := true, cs := false,
               trace := s.trace ++ [BusItem.byte a, BusItem.byte b, BusItem.byte c, BusItem.byte d],
               xfers := s.xfers ++ [4] } := by
  cases hp : p.USE_DMA <;>
  simp [ST7789_WriteData, WriteData_loop, HAL_SPI_Transmit, ST7789_UnSelect, ST7789_DC_Set,
    ST7789_Select, h, hp, BusItem.byte, rd8, List.range_succ, DMA_min_Sz]

theorem SetAddressWindow_eq (p : Panel) (x0 y0 x1 y1 : Nat) (s : Bus) (h : s.is16 = false) :
    ST7789_SetAddressWindow p x0 y0 x1 y1 s =
      { s with dc := false, cs := false, trace := s.trace ++ windowItems p x0 y0 x1 y1,
               xfers := s.xfers ++ [1, 4, 1, 4, 1] } := by
  have e : ∀ z : Int, u16 z / 256 % 256 = u16 z / 256 := fun z => by
    have := u16_lt z; omega
  simp [ST7789_SetAddressWindow, WriteCommand_eq, WriteData_four, h, windowItems, e]

theorem rd8_bytesOf16_even (l : List Nat) (i : Nat) :
    rd8 (bytesOf16 l) (2 * i) = (l[i]?).getD 0 % 256 := by
  induction l generalizing i with
  | nil => simp [bytesOf16, rd8]
  | cons w ws ih =>
    cases i with
    | zero => simp [bytesOf16, rd8]
    | succ j =>
      have e : 2 * (j + 1) = 2 * j + 1 + 1 := by ring
      have := ih j
      simp only [rd8] at this
      simp [bytesOf16, rd8, e, this]

theorem rd8_bytesOf16_odd (l : List Nat) (i : Nat) :
    rd8 (bytesOf16 l) (2 * i + 1) = (l[i]?).getD 0 / 256 % 256 := by
  induction l generalizing i with
  | nil => simp [bytesOf16, rd8]
  | cons w ws ih =>
    cases i with
    | zero => simp [bytesOf16, rd8]
    | succ j =>
      have e : 2 * (j + 1) + 1 = (2 * j + 1) + 1 + 1 := by ring
      have := ih j
      simp only [rd8] at this
      simp [bytesOf16, rd8, e, this]

theorem rd16_bytesOf16 (l : List Nat) (i : Nat) :
    rd16 (bytesOf16 l) (2 * i) = (l[i]?).getD 0 % 65536 := by
  unfold rd16
  rw [rd8_bytesOf16_even, rd8_bytesOf16_odd]
  omega

theorem WriteData_loop_zero (p : Panel) (mem : List Nat) (fuel off : Nat) (s : Bus) :
    WriteData_loop p mem fuel off 0 s = s := by
  cases fuel <;> simp [WriteData_loop]

theorem WriteData_one_chunk (p : Panel) (mem : List Nat) (off n : Nat) (s : Bus)
    (h0 : 0 < n) (h1 : n ≤ 65535) :
    ST7789_WriteData p mem off n s =
      ST7789_UnSelect
        ((if p.USE_DMA = true ∧ DMA_min_Sz ≤ n then HAL_SPI_Transmit_DMA mem off n
          else HAL_SPI_Transmit mem off n) (ST7789_DC_Set (ST7789_Select s))) := by
  obtain ⟨m, rfl⟩ : ∃ m, n = m + 1 := ⟨n - 1, by omega⟩
  have h2 : ¬ (m + 1 > 65535) := by omega
  unfold ST7789_WriteData
  simp only [WriteData_loop, h0, h2, if_true, if_false, Nat.sub_self, WriteData_loop_zero]
  by_cases hd : p.USE_DMA = true <;> by_cases hs : DMA_min_Sz ≤ m + 1 <;> simp [hd, hs]

theorem map_range_const {α : Type} (n : Nat) (f : Nat → α) (a : α)
    (h : ∀ i, i < n → f i = a) : (List.range n).map f = List.replicate n a := by
  apply List.ext_getElem
  · simp
  · intro i h1 h2
    simp at h1
    simp [h i h1]

theorem WriteData_fill_blocking (p : Panel) (b n color : Nat) (s : Bus)
    (h16 : s.is16 = true) (hc : color < 65536) (h0 : 0 < n) (hnb : n ≤ b) (hb : b ≤ 64)
    (hblk : p.USE_DMA = false ∨ n < DMA_min_Sz) :
    ST7789_WriteData p (bytesOf16 (List.replicate b color)) 0 n s =
      { s with dc := true, cs := false,
               trace := s.trace ++ List.replicate n (BusItem.sample color),
               xfers := s.xfers ++ [n] } := by
  rw [WriteData_one_chunk p _ 0 n s h0 (by omega)]
  have hcond : ¬ (p.USE_DMA = true ∧ DMA_min_Sz ≤ n) := by
    rcases hblk with h | h
    · simp [h]
    · omega
  simp only [hcond, if_false]
  have hm : (List.range n).map (fun i =>
      BusItem.mk true true (rd16 (bytesOf16 (List.replicate b color)) (0 + 2 * i)))
      = List.replicate n (BusItem.sample color) := by
    apply map_range_const
    intro i hi
    have hib : i < b := by omega
    have : ((List.replicate b color)[i]?).getD 0 = color := by
      simp [List.getElem?_replicate, hib]
    simp [rd16_bytesOf16, this, BusItem.sample, Nat.mod_eq_of_lt hc]
  simp only [Nat.zero_add] at hm
  simp [HAL_SPI_Transmit, ST7789_UnSelect, ST7789_DC_Set, ST7789_Select, h16, hm]

theorem Fill_blocks_zero (p : Panel) (fill : List Nat) (fuel pixels : Nat) (s : Bus) :
    Fill_blocks p fill 0 fuel pixels s = none := by
  induction fuel generalizing pixels s with
  | zero => simp [Fill_blocks]
  | succ k ih => simp [Fill_blocks, ih]

theorem Fill_blocks_spec (p : Panel) (b color : Nat) (hc : color < 65536) (hb0 : 0 < b)
    (hb : b ≤ 64) (hblk : p.USE_DMA = false ∨ b < DMA_min_Sz) :
    ∀ (fuel pixels : Nat) (s : Bus), s.is16 = true → s.cs = false → pixels < fuel →
      ∃ s1, Fill_blocks p (bytesOf16 (List.replicate b color)) b fuel pixels s
              = some (pixels % b, s1) ∧
            s1.is16 = true ∧ s1.cs = false ∧
            s1.dc = (if b ≤ pixels then true else s.dc) ∧
            s1.trace = s.trace ++ List.replicate (pixels - pixels % b) (BusItem.sample color) := by
  intro fuel
  induction fuel with
  | zero => intro pixels s _ _ h; omega
  | succ k ih =>
    intro pixels s h16 hcs hf
    by_cases hge : pixels ≥ b
    · have hblk2 : p.USE_DMA = false ∨ b < DMA_min_Sz := hblk
      rw [Fill_blocks, if_pos hge, WriteData_fill_blocking p b b color s h16 hc hb0 le_rfl hb hblk2]
      obtain ⟨s1, e1, e2, e3, e4, e5⟩ := ih (pixels - b)
        { s with dc := true, cs := false,
                 trace := s.trace ++ List.replicate b (BusItem.sample color),
                 xfers := s.xfers ++ [b] } h16 rfl (by omega)
      have hm : (pixels - b) % b = pixels % b := by
        conv_rhs => rw [← Nat.sub_add_cancel hge]
        simp
      refine ⟨s1, ?_, e2, e3, ?_, ?_⟩
      · rw [e1, hm]
      · rw [if_pos hge]
        by_cases h2 : b ≤ pixels - b
        · simpa [h2] using e4
        · simpa [h2] using e4
      · rw [e5, hm]
        simp only [List.append_assoc, List.append_cancel_left_eq]
        rw [← List.replicate_add]
        congr 1
        have := Nat.mod_le pixels b
        have := Nat.mod_lt pixels hb0
        have : pixels % b ≤ pixels - b := by rw [← hm]; exact Nat.mod_le _ _
        omega
    · have hlt : pixels < b := by omega
      refine ⟨s, ?_, h16, hcs, ?_, ?_⟩
      · rw [Fill_blocks, if_neg hge, Nat.mod_eq_of_lt hlt]
      · simp [hge]
      · simp [Nat.mod_eq_of_lt hlt]

theorem WriteData_fill_dma (p : Panel) (n color : Nat) (s : Bus)
    (hd : p.USE_DMA = true) (hc : color < 65536) (h0 : DMA_min_Sz ≤ n) (h1 : n ≤ 65535) :
    ST7789_WriteData p (bytesOf16 [color]) 0 n (setDMAMemMode mem_fixed mode_16bit s) =
      { s with is16 := true, memInc := false, dmaHalf := true, dc := true, cs := false,
               trace := s.trace ++ List.replicate n (BusItem.sample color),
               xfers := s.xfers ++ [n] } := by
  have hpos : 0 < n := by unfold DMA_min_Sz at h0; omega
  rw [WriteData_one_chunk p _ 0 n _ hpos h1]
  simp only [hd, h0, and_self, if_true]
  have hm : (List.range n).map (fun _ : Nat =>
      BusItem.mk true true (rd16 (bytesOf16 [color]) 0)) = List.replicate n (BusItem.sample color) := by
    apply map_range_const
    intro i _
    have := rd16_bytesOf16 [color] 0
    simp only [Nat.mul_zero] at this
    simp [this, BusItem.sample, Nat.mod_eq_of_lt hc]
  simp [HAL_SPI_Transmit_DMA, ST7789_UnSelect, ST7789_DC_Set, ST7789_Select, setDMAMemMode,
    setSPI_Size, mem_fixed, mode_16bit, hm]

/-- Every call of `ST7789_Fill` that passes the guard and whose 16-bit count
`pixels` is not zero returns, in either build, after the window sequence and
exactly `pixels` samples of the colour, with the word size back at 8 bit. -/
theorem Fill_spec (p : Panel) (xSta ySta xEnd yEnd color : Nat) (s : Bus)
    (hx : xEnd < p.WIDTH) (hy : yEnd < p.HEIGHT) (h8 : s.is16 = false) (hc : color < 65536)
    (hpx : u16 (((xEnd : Int) - xSta + 1) * ((yEnd : Int) - ySta + 1)) ≠ 0) :
    ∃ s1, ST7789_Fill p xSta ySta xEnd yEnd color s = some s1 ∧
      s1.is16 = false ∧ s1.cs = false ∧ s1.dc = true ∧
      s1.trace = s.trace ++ windowItems p xSta ySta xEnd yEnd ++
        List.replicate (u16 (((xEnd : Int) - xSta + 1) * ((yEnd : Int) - ySta + 1)))
          (BusItem.sample color) := by
  generalize hpix : u16 (((xEnd : Int) - xSta + 1) * ((yEnd : Int) - ySta + 1)) = pixels at hpx
  have hlt : pixels < 65536 := by rw [← hpix]; exact u16_lt _
  have hguard : ¬ (xEnd ≥ p.WIDTH ∨ yEnd ≥ p.HEIGHT) := by omega
  unfold ST7789_Fill
  simp only [hpix, hguard, if_false]
  rw [SetAddressWindow_eq p xSta ySta xEnd yEnd s h8]
  by_cases hdma : p.USE_DMA = true ∧ DMA_min_Sz ≤ pixels
  · rw [if_pos hdma, WriteData_fill_dma p pixels color _ hdma.1 hc hdma.2 (by omega)]
    exact ⟨_, rfl, by simp [setSPI_Size, mode_8bit], by simp [setSPI_Size],
      by simp [setSPI_Size], by simp [setSPI_Size]⟩
  · rw [if_neg hdma]
    set b := (if pixels < 64 then pixels else 64) with hb
    have hb0 : 0 < b := by rw [hb]; split <;> omega
    have hb64 : b ≤ 64 := by rw [hb]; split <;> omega
    have hbp : b ≤ pixels := by rw [hb]; split <;> omega
    have hblk : p.USE_DMA = false ∨ b < DMA_min_Sz := by
      by_cases h : p.USE_DMA = true
      · right
        have : ¬ DMA_min_Sz ≤ pixels := fun h2 => hdma ⟨h, h2⟩
        rw [hb]; unfold DMA_min_Sz at *; split <;> omega
      · left; simpa using h
    obtain ⟨s1, e1, e2, e3, e4, e5⟩ := Fill_blocks_spec p b color hc hb0 hb64 hblk (pixels + 1) pixels
      (setSPI_Size mode_16bit ⟨s.is16, s.memInc, s.dmaHalf, false, false,
        s.trace ++ windowItems p xSta ySta xEnd yEnd, s.xfers ++ [1, 4, 1, 4, 1]⟩)
      (by simp [setSPI_Size, mode_16bit]) (by simp [setSPI_Size]) (by omega)
    rw [e1]
    simp only [if_pos hbp] at e4
    have hr : pixels % b < b := Nat.mod_lt _ hb0
    by_cases hrem : pixels % b = 0
    · refine ⟨_, rfl, ?_, ?_, ?_, ?_⟩
      · simp [hrem, setSPI_Size, mode_8bit]
      · simp [hrem, setSPI_Size, e3]
      · simp [hrem, setSPI_Size, e4]
      · simp [hrem, setSPI_Size, e5]
    · have hblk2 : p.USE_DMA = false ∨ pixels % b < DMA_min_Sz := by
        rcases hblk with h | h
        · exact Or.inl h
        · right; omega
      refine ⟨_, rfl, ?_, ?_, ?_, ?_⟩
      · simp [hrem, setSPI_Size, mode_8bit]
      · simp only [hrem, ne_eq, not_false_eq_true, if_true]
        rw [WriteData_fill_blocking p b (pixels % b) color s1 e2 hc (by omega) (by omega) hb64 hblk2]
        simp [setSPI_Size]
      · simp only [hrem, ne_eq, not_false_eq_true, if_true]
        rw [WriteData_fill_blocking p b (pixels % b) color s1 e2 hc (by omega) (by omega) hb64 hblk2]
        simp [setSPI_Size]
      · simp only [hrem, ne_eq, not_false_eq_true, if_true]
        rw [WriteData_fill_blocking p b (pixels % b) color s1 e2 hc (by omega) (by omega) hb64 hblk2]
        simp only [setSPI_Size, e5, List.append_assoc, List.append_cancel_left_eq]
        rw [← List.replicate_add]
        congr 1
        have := Nat.mod_le pixels b
        omega

theorem Fill_rejected (p : Panel) (xSta ySta xEnd yEnd color : Nat) (s : Bus)
    (h : xEnd ≥ p.WIDTH ∨ yEnd ≥ p.HEIGHT) :
    ST7789_Fill p xSta ySta xEnd yEnd color s = some s := by
  unfold ST7789_Fill
  simp [h]

/-! ### The word size across the operations -/

theorem HAL_SPI_Transmit_is16 (mem : List Nat) (off n : Nat) (s : Bus) :
    (HAL_SPI_Transmit mem off n s).is16 = s.is16 := rfl

theorem HAL_SPI_Transmit_DMA_is16 (mem : List Nat) (off n : Nat) (s : Bus) :
    (HAL_SPI_Transmit_DMA mem off n s).is16 = s.is16 := rfl

theorem WriteCommand_is16 (c : Nat) (s : Bus) : (ST7789_WriteCommand c s).is16 = s.is16 := rfl

theorem WriteData_loop_is16 (p : Panel) (mem : List Nat) (fuel off n : Nat) (s : Bus) :
    (WriteData_loop p mem fuel off n s).is16 = s.is16 := by
  induction fuel generalizing off n s with
  | zero => rfl
  | succ k ih =>
    unfold WriteData_loop
    split
    · rw [ih]
      split
      · split
        · exact HAL_SPI_Transmit_DMA_is16 _ _ _ _
        · exact HAL_SPI_Transmit_is16 _ _ _ _
      · exact HAL_SPI_Transmit_is16 _ _ _ _
    · rfl

theorem WriteData_is16 (p : Panel) (mem : List Nat) (off n : Nat) (s : Bus) :
    (ST7789_WriteData p mem off n s).is16 = s.is16 := by
  unfold ST7789_WriteData
  show (WriteData_loop p mem n off n _).is16 = s.is16
  rw [WriteData_loop_is16]
  rfl

theorem SetAddressWindow_is16 (p : Panel) (x0 y0 x1 y1 : Nat) (s : Bus) :
    (ST7789_SetAddressWindow p x0 y0 x1 y1 s).is16 = s.is16 := by
  simp only [ST7789_SetAddressWindow, WriteCommand_is16, WriteData_is16]

theorem DrawPixel_is16 (p : Panel) (x y color : Nat) (s : Bus) :
    (ST7789_DrawPixel p x y color s).is16 = s.is16 := by
  unfold ST7789_DrawPixel
  split
  · rfl
  · show (ST7789_SetAddressWindow p x y x y s).is16 = s.is16
    exact SetAddressWindow_is16 _ _ _ _ _ _

theorem Fill_is16 (p : Panel) (xSta ySta xEnd yEnd color : Nat) (s s1 : Bus)
    (h8 : s.is16 = false) (h : ST7789_Fill p xSta ySta xEnd yEnd color s = some s1) :
    s1.is16 = false := by
  unfold ST7789_Fill at h
  simp only at h
  split at h
  · simp only [Option.some.injEq] at h
    rw [← h]; exact h8
  · split at h
    · simp only [Option.some.injEq] at h
      rw [← h]; rfl
    · split at h
      · exact absurd h (by simp)
      · simp only [Option.some.injEq] at h
        rw [← h]; rfl

theorem DrawImage_is16 (p : Panel) (x y w h : Nat) (data : List Nat) (s : Bus)
    (h8 : s.is16 = false) : (ST7789_DrawImage p x y w h data s).is16 = false := by
  unfold ST7789_DrawImage
  split
  · exact h8
  · split
    · exact h8
    · split
      · exact h8
      · rfl

theorem DrawHLine_is16 (p : Panel) (x0 x1 y color : Nat) (s s1 : Bus)
    (h8 : s.is16 = false) (h : ST7789_DrawHLine p x0 x1 y color s = some s1) :
    s1.is16 = false := by
  unfold ST7789_DrawHLine at h
  split at h <;> exact Fill_is16 _ _ _ _ _ _ _ _ h8 h

theorem DrawVLine_is16 (p : Panel) (x y0 y1 color : Nat) (s s1 : Bus)
    (h8 : s.is16 = false) (h : ST7789_DrawVLine p x y0 y1 color s = some s1) :
    s1.is16 = false := by
  unfold ST7789_DrawVLine at h
  split at h <;> exact Fill_is16 _ _ _ _ _ _ _ _ h8 h

theorem DrawLine_loop_is16 (p : Panel) (steep : Bool) (x1 : Nat) (dx dy ystep : Int)
    (color : Nat) (fuel x0 y0 : Nat) (err : Int) (s s1 : Bus)
    (h : DrawLine_loop p steep x1 dx dy ystep color fuel x0 y0 err s = some s1) :
    s1.is16 = s.is16 := by
  induction fuel generalizing x0 y0 err s with
  | zero => simp [DrawLine_loop] at h
  | succ k ih =>
    unfold DrawLine_loop at h
    simp only at h
    split at h
    · split at h
      · rw [ih _ _ _ _ h]
        split <;> exact DrawPixel_is16 _ _ _ _ _
      · rw [ih _ _ _ _ h]
        split <;> exact DrawPixel_is16 _ _ _ _ _
    · simp only [Option.some.injEq] at h
      rw [h]

theorem DrawLine_is16 (p : Panel) (x0 y0 x1 y1 color : Nat) (s s1 : Bus)
    (h8 : s.is16 = false) (h : ST7789_DrawLine p x0 y0 x1 y1 color s = some s1) :
    s1.is16 = false := by
  unfold ST7789_DrawLine at h
  split at h
  · exact DrawVLine_is16 _ _ _ _ _ _ _ h8 h
  · split at h
    · exact DrawHLine_is16 _ _ _ _ _ _ _ h8 h
    · unfold DrawLine_general at h
      rw [DrawLine_loop_is16 _ _ _ _ _ _ _ _ _ _ _ _ _ h]
      exact h8

theorem DrawRectangle_is16 (p : Panel) (x1 y1 x2 y2 color : Nat) (s s1 : Bus)
    (h8 : s.is16 = false) (h : ST7789_DrawRectangle p x1 y1 x2 y2 color s = some s1) :
    s1.is16 = false := by
  unfold ST7789_DrawRectangle at h
  simp only [Option.bind_eq_some] at h
  obtain ⟨a, ha, b, hb, c, hc, hd⟩ := h
  have h1 := DrawHLine_is16 _ _ _ _ _ _ _ h8 ha
  have h2 := DrawHLine_is16 _ _ _ _ _ _ _ h1 hb
  have h3 := DrawVLine_is16 _ _ _ _ _ _ _ h2 hc
  exact DrawVLine_is16 _ _ _ _ _ _ _ h3 hd

theorem DrawCircle_loop_is16 (p : Panel) (x0 y0 color fuel : Nat) (f dx dy x y : Int)
    (s s1 : Bus) (h : DrawCircle_loop p x0 y0 color fuel f dx dy x y s = some s1) :
    s1.is16 = s.is16 := by
  induction fuel generalizing f dx dy x y s with
  | zero => simp [DrawCircle_loop] at h
  | succ k ih =>
    unfold DrawCircle_loop at h
    simp only at h
    split at h
    · rw [ih _ _ _ _ _ _ h]
      simp only [DrawPixel_is16]
    · simp only [Option.some.injEq] at h
      rw [h]

theorem DrawCircle_is16 (p : Panel) (x0 y0 r color : Nat) (s s1 : Bus)
    (h8 : s.is16 = false) (h : ST7789_DrawCircle p x0 y0 r color s = some s1) :
    s1.is16 = false := by
  unfold ST7789_DrawCircle at h
  rw [DrawCircle_loop_is16 _ _ _ _ _ _ _ _ _ _ _ _ h]
  simp only [DrawPixel_is16]
  exact h8

theorem foldl_is16 {α : Type} (f : Bus → α → Bus) (hf : ∀ s a, (f s a).is16 = s.is16)
    (l : List α) (s : Bus) : (l.foldl f s).is16 = s.is16 := by
  induction l generalizing s with
  | nil => rfl
  | cons a t ih => rw [List.foldl_cons, ih, hf]

theorem WriteChar_is16 (p : Panel) (x y ch : Nat) (font : FontDef) (color bgcolor : Nat)
    (s : Bus) : (ST7789_WriteChar p x y ch font color bgcolor s).is16 = s.is16 := by
  unfold ST7789_WriteChar
  show Bus.is16 (List.foldl _ _ _) = s.is16
  rw [foldl_is16]
  · show (ST7789_SetAddressWindow p x y _ _ s).is16 = s.is16
    exact SetAddressWindow_is16 _ _ _ _ _ _
  · intro s i
    apply foldl_is16
    intro s j
    split <;> rfl

theorem WriteString_is16 (p : Panel) (font : FontDef) (color bgcolor : Nat) (str : List Nat)
    (x y : Nat) (s : Bus) :
    (ST7789_WriteString p font color bgcolor str x y s).is16 = s.is16 := by
  induction str generalizing x y s with
  | nil => rfl
  | cons ch rest ih =>
    unfold ST7789_WriteString
    simp only
    split
    · split
      · rfl
      · split
        · exact ih _ _ _
        · rw [ih, WriteChar_is16]
    · rw [ih, WriteChar_is16]

theorem DrawTriangle_is16 (p : Panel) (x1 y1 x2 y2 x3 y3 color : Nat) (s s1 : Bus)
    (h8 : s.is16 = false) (h : ST7789_DrawTriangle p x1 y1 x2 y2 x3 y3 color s = some s1) :
    s1.is16 = false := by
  unfold ST7789_DrawTriangle at h
  simp only [Option.bind_eq_some] at h
  obtain ⟨a, ha, b, hb, hc⟩ := h
  have h1 := DrawLine_is16 _ _ _ _ _ _ _ _ h8 ha
  have h2 := DrawLine_is16 _ _ _ _ _ _ _ _ h1 hb
  exact DrawLine_is16 _ _ _ _ _ _ _ _ h2 hc

theorem DrawFilledTriangle_loop_is16 (p : Panel) (x3 y3 color : Nat)
    (xinc1 xinc2 yinc1 yinc2 den numadd numpixels : Int) (fuel : Nat)
    (cur x y num : Int) (s s1 : Bus) (h8 : s.is16 = false)
    (h : DrawFilledTriangle_loop p x3 y3 color xinc1 xinc2 yinc1 yinc2 den numadd numpixels
          fuel cur x y num s = some s1) :
    s1.is16 = false := by
  induction fuel generalizing cur x y num s with
  | zero => simp [DrawFilledTriangle_loop] at h
  | succ k ih =>
    unfold DrawFilledTriangle_loop at h
    split at h
    · simp only [Option.bind_eq_some] at h
      obtain ⟨a, ha, hb⟩ := h
      exact ih _ _ _ _ _ (DrawLine_is16 _ _ _ _ _ _ _ _ h8 ha) hb
    · simp only [Option.some.injEq] at h
      rw [← h]; exact h8

theorem DrawFilledTriangle_is16 (p : Panel) (x1 y1 x2 y2 x3 y3 color : Nat) (s s1 : Bus)
    (h8 : s.is16 = false)
    (h : ST7789_DrawFilledTriangle p x1 y1 x2 y2 x3 y3 color s = some s1) :
    s1.is16 = false := by
  unfold ST7789_DrawFilledTriangle at h
  simp only at h
  split at h <;> exact DrawFilledTriangle_loop_is16 _ _ _ _ _ _ _ _ _ _ _ _ _ _ _ _ _ _ h8 h

theorem DrawFilledCircle_loop_is16 (p : Panel) (x0 y0 : Int) (color fuel : Nat)
    (f dx dy x y : Int) (s s1 : Bus) (h8 : s.is16 = false)
    (h : DrawFilledCircle_loop p x0 y0 color fuel f dx dy x y s = some s1) :
    s1.is16 = false := by
  induction fuel generalizing f dx dy x y s with
  | zero => simp [DrawFilledCircle_loop] at h
  | succ k ih =>
    unfold DrawFilledCircle_loop at h
    simp only at h
    split at h
    · simp only [Option.bind_eq_some] at h
      obtain ⟨a, ha, b, hb, c, hc, d, hd, he⟩ := h
      have h1 := DrawHLine_is16 _ _ _ _ _ _ _ h8 ha
      have h2 := DrawHLine_is16 _ _ _ _ _ _ _ h1 hb
      have h3 := DrawHLine_is16 _ _ _ _ _ _ _ h2 hc
      have h4 := DrawHLine_is16 _ _ _ _ _ _ _ h3 hd
      exact ih _ _ _ _ _ _ h4 he
    · simp only [Option.some.injEq] at h
      rw [← h]; exact h8

theorem DrawFilledCircle_is16 (p : Panel) (x0 y0 r : Int) (color : Nat) (s s1 : Bus)
    (h8 : s.is16 = false) (h : ST7789_DrawFilledCircle p x0 y0 r color s = some s1) :
    s1.is16 = false := by
  unfold ST7789_DrawFilledCircle at h
  simp only [Option.bind_eq_some] at h
  obtain ⟨a, ha, hb⟩ := h
  have h0 : (ST7789_DrawPixel p (u16 (x0 - r)) (u16 y0) color
      (ST7789_DrawPixel p (u16 (x0 + r)) (u16 y0) color
        (ST7789_DrawPixel p (u16 x0) (u16 (y0 - r)) color
          (ST7789_DrawPixel p (u16 x0) (u16 (y0 + r)) color (ST7789_Select s))))).is16 = false := by
    simp only [DrawPixel_is16]
    exact h8
  exact DrawFilledCircle_loop_is16 _ _ _ _ _ _ _ _ _ _ _ _ (DrawHLine_is16 _ _ _ _ _ _ _ h0 ha) hb

theorem emitted_of_append (s s1 : Bus) (l : List BusItem) (h : s1.trace = s.trace ++ l) :
    emitted s s1 = l := by
  unfold emitted
  rw [h, List.drop_left]

theorem emitted_self (s : Bus) : emitted s s = [] := by
  unfold emitted
  simp

theorem u16_natCast_add (a b : Nat) : u16 ((a : Int) + (b : Int)) = (a + b) % 65536 := by
  unfold u16
  omega

theorem exists_of_isSome {o : Option Bus} (h : o.isSome = true) : ∃ s1, o = some s1 := by
  cases o with
  | none => simp at h
  | some a => exact ⟨a, rfl⟩

theorem DrawPixel_eq (p : Panel) (x y color : Nat) (s : Bus) (h8 : s.is16 = false)
    (hx : x < p.WIDTH) (hy : y < p.HEIGHT) :
    ST7789_DrawPixel p x y color s =
      { s with dc := true, cs := false,
               trace := s.trace ++ (windowItems p x y x y ++
                 [BusItem.byte (color / 256 % 256), BusItem.byte (color % 256)]),
               xfers := s.xfers ++ [1, 4, 1, 4, 1, 2] } := by
  have hg : ¬ (x ≥ p.WIDTH ∨ y ≥ p.HEIGHT) := by omega
  unfold ST7789_DrawPixel
  rw [if_neg hg, SetAddressWindow_eq p x y x y s h8]
  simp [HAL_SPI_Transmit, ST7789_UnSelect, ST7789_DC_Set, ST7789_Select, h8, BusItem.byte, rd8,
    List.range_succ]

theorem DrawPixel_rejected (p : Panel) (x y color : Nat) (s : Bus)
    (h : x ≥ p.WIDTH ∨ y ≥ p.HEIGHT) : ST7789_DrawPixel p x y color s = s := by
  unfold ST7789_DrawPixel
  rw [if_pos h]

/-! ### Glyph transfer -/

theorem foldl_trace {α : Type} (f : Bus → α → Bus) (g : α → List BusItem)
    (hf : ∀ s a, s.is16 = false → s.dc = true →
      (f s a).is16 = false ∧ (f s a).dc = true ∧ (f s a).trace = s.trace ++ g a)
    (l : List α) (s : Bus) (h8 : s.is16 = false) (hdc : s.dc = true) :
    (l.foldl f s).is16 = false ∧ (l.foldl f s).dc = true ∧
      (l.foldl f s).trace = s.trace ++ l.flatMap g := by
  induction l generalizing s with
  | nil => simp [h8, hdc]
  | cons a t ih =>
    obtain ⟨h1, h2, h3⟩ := hf s a h8 hdc
    obtain ⟨k1, k2, k3⟩ := ih (f s a) h1 h2
    refine ⟨k1, k2, ?_⟩
    rw [List.foldl_cons, k3, h3, List.flatMap_cons, List.append_assoc]

theorem length_flatMap_const {α β : Type} (g : α → List β) (k : Nat)
    (hg : ∀ a, (g a).length = k) (l : List α) : (l.flatMap g).length = k * l.length := by
  induction l with
  | nil => simp
  | cons a t ih =>
    rw [List.flatMap_cons, List.length_append, ih, hg, List.length_cons]
    ring

theorem HAL_SPI_Transmit_pair (a b : Nat) (s : Bus) (h8 : s.is16 = false) (hdc : s.dc = true) :
    (HAL_SPI_Transmit [a, b] 0 2 s).is16 = false ∧ (HAL_SPI_Transmit [a, b] 0 2 s).dc = true ∧
    (HAL_SPI_Transmit [a, b] 0 2 s).trace = s.trace ++ [BusItem.byte a, BusItem.byte b] := by
  simp [HAL_SPI_Transmit, h8, hdc, BusItem.byte, rd8, List.range_succ]

theorem WriteChar_rows (font : FontDef) (ch color bgcolor : Nat) (S : Bus)
    (h8 : S.is16 = false) (hdc : S.dc = true) :
    ((List.range font.height).foldl (fun s i =>
      let b := fontRow font ch i
      (List.range font.width).foldl (fun s j =>
        if ((b <<< j) % 4294967296) &&& 0x8000 ≠ 0 then
          HAL_SPI_Transmit [color / 256 % 256, color % 256] 0 2 s
        else HAL_SPI_Transmit [bgcolor / 256 % 256, bgcolor % 256] 0 2 s) s) S).trace =
      S.trace ++ (List.range font.height).flatMap (fun i =>
          (List.range font.width).flatMap (fun j =>
            if ((fontRow font ch i <<< j) % 4294967296) &&& 0x8000 ≠ 0 then
              [BusItem.byte (color / 256 % 256), BusItem.byte (color % 256)]
            else [BusItem.byte (bgcolor / 256 % 256), BusItem.byte (bgcolor % 256)])) := by
  refine (foldl_trace _ _ ?_ _ S h8 hdc).2.2
  intro s1 i h1 h2
  refine foldl_trace _ _ ?_ _ s1 h1 h2
  intro s2 j h3 h4
  split
  · exact HAL_SPI_Transmit_pair _ _ s2 h3 h4
  · exact HAL_SPI_Transmit_pair _ _ s2 h3 h4

/-- The elements `ST7789_WriteChar` puts on the bus in 8-bit mode: the window
sequence, then two data bytes for each cell, row by row. -/
theorem WriteChar_trace (p : Panel) (x y ch : Nat) (font : FontDef) (color bgcolor : Nat)
    (s : Bus) (h8 : s.is16 = false) :
    (ST7789_WriteChar p x y ch font color bgcolor s).trace =
      s.trace ++ windowItems p x y (u16 ((x : Int) + font.width - 1))
          (u16 ((y : Int) + font.height - 1)) ++
        (List.range font.height).flatMap (fun i =>
          (List.range font.width).flatMap (fun j =>
            if ((fontRow font ch i <<< j) % 4294967296) &&& 0x8000 ≠ 0 then
              [BusItem.byte (color / 256 % 256), BusItem.byte (color % 256)]
            else [BusItem.byte (bgcolor / 256 % 256), BusItem.byte (bgcolor % 256)])) := by
  unfold ST7789_WriteChar
  rw [SetAddressWindow_eq p x y _ _ s h8]
  exact WriteChar_rows font ch color bgcolor _ h8 rfl

theorem WriteChar_emitted_length (p : Panel) (x y ch : Nat) (font : FontDef)
    (color bgcolor : Nat) (s : Bus) (h8 : s.is16 = false) :
    (emitted s (ST7789_WriteChar p x y ch font color bgcolor s)).length =
      11 + 2 * (font.width * font.height) := by
  rw [emitted_of_append s _ _ (by rw [WriteChar_trace p x y ch font color bgcolor s h8,
    List.append_assoc])]
  rw [List.length_append, length_flatMap_const _ (2 * font.width), List.length_range]
  · simp [windowItems]; ring
  · intro i
    rw [length_flatMap_const _ 2, List.length_range]
    intro j
    split <;> rfl

theorem WriteData_two_chunks (p : Panel) (mem : List Nat) (off n : Nat) (s : Bus)
    (hd : p.USE_DMA = false) (h0 : 65535 < n) (h1 : n ≤ 131070) :
    ST7789_WriteData p mem off n s =
      ST7789_UnSelect
        (HAL_SPI_Transmit mem (off + 65535) (n - 65535)
          (HAL_SPI_Transmit mem off 65535 (ST7789_DC_Set (ST7789_Select s)))) := by
  obtain ⟨m, rfl⟩ : ∃ m, n = m + 2 := ⟨n - 2, by omega⟩
  have a1 : m + 2 > 0 := by omega
  have a2 : m + 2 > 65535 := h0
  have a3 : m + 2 - 65535 > 0 := by omega
  have a4 : ¬ (m + 2 - 65535 > 65535) := by omega
  unfold ST7789_WriteData
  simp only [WriteData_loop, hd, a1, a2, a3, a4, if_true, if_false, Nat.sub_self,
    WriteData_loop_zero, Bool.false_eq_true]

theorem rampImage_getElem? (i : Nat) (h : i < 76800) : rampImage[i]? = some (i % 65536) := by
  simp [rampImage, List.getElem?_map, List.getElem?_range, h]

theorem DrawImage_240x320_general (data : List Nat) :
    (ST7789_DrawImage panel240x320 0 0 240 320 data idleBus).xfers
      = [1, 4, 1, 4, 1, 65535, 11265] ∧
    (emitted idleBus (ST7789_DrawImage panel240x320 0 0 240 320 data idleBus)).length
      = 11 + 240 * 320 ∧
    (emitted idleBus (ST7789_DrawImage panel240x320 0 0 240 320 data idleBus))[11 + 65535]?
      = some (BusItem.sample (rd16 (bytesOf16 data) 65535)) := by
  have hg1 : ¬ ((0 : Nat) ≥ panel240x320.WIDTH ∨ (0 : Nat) ≥ panel240x320.HEIGHT) := by decide
  have hg2 : ¬ (((0 : Nat) : Int) + ((240 : Nat) : Int) - 1 ≥ (panel240x320.WIDTH : Int)) := by
    decide
  have hg3 : ¬ (((0 : Nat) : Int) + ((320 : Nat) : Int) - 1 ≥ (panel240x320.HEIGHT : Int)) := by
    decide
  have hd : panel240x320.USE_DMA = false := rfl
  have e : ST7789_DrawImage panel240x320 0 0 240 320 data idleBus =
      setSPI_Size mode_8bit (ST7789_WriteData panel240x320 (bytesOf16 data) 0 76800
        (setSPI_Size mode_16bit (ST7789_SetAddressWindow panel240x320 0 0 239 319 idleBus))) := by
    unfold ST7789_DrawImage
    rw [if_neg hg1, if_neg hg2, if_neg hg3]
    simp only [hd, Bool.false_eq_true, if_false]
    rfl
  rw [e, SetAddressWindow_eq panel240x320 0 0 239 319 idleBus rfl,
    WriteData_two_chunks panel240x320 _ 0 76800 _ hd (by omega) (by omega)]
  have hw : (windowItems panel240x320 0 0 239 319).length = 11 := rfl
  refine ⟨?_, ?_, ?_⟩
  · simp [HAL_SPI_Transmit, ST7789_UnSelect, ST7789_DC_Set, ST7789_Select, setSPI_Size, idleBus]
  · simp [emitted, HAL_SPI_Transmit, ST7789_UnSelect, ST7789_DC_Set, ST7789_Select, setSPI_Size,
      idleBus, mode_16bit, hw]
  · simp only [emitted, HAL_SPI_Transmit, ST7789_UnSelect, ST7789_DC_Set, ST7789_Select,
      setSPI_Size, idleBus, mode_16bit, List.length_nil, List.drop_zero, List.nil_append,
      if_true, Nat.zero_add]
    rw [List.getElem?_append_right (by simp [hw])]
    simp only [List.length_append, hw, List.length_map, List.length_range]
    rw [show 11 + 65535 - (11 + 65535) = 0 from rfl]
    rw [List.getElem?_map, List.getElem?_range (by omega)]
    simp [BusItem.sample]

theorem rd16_odd (mem : List Nat) (i : Nat) :
    rd16 mem (2 * i + 1) = rd8 mem (2 * i + 1) + 256 * rd8 mem (2 * (i + 1)) := rfl

theorem rampImage_rd16 : rd16 (bytesOf16 rampImage) 65535 = 0x007F := by
  have h := rd16_odd (bytesOf16 rampImage) 32767
  rw [rd8_bytesOf16_odd, rd8_bytesOf16_even, rampImage_getElem? 32767 (by omega),
    rampImage_getElem? (32767 + 1) (by omega)] at h
  exact h

/-! ### Reading the bus back -/

theorem Gram_window (p : Panel) (hp : p.wf) (x0 y0 x1 y1 : Nat) (g : Gram) :
    (windowItems p x0 y0 x1 y1).foldl (Gram.step p) g =
      { op := p.RAMWR % 256, args := [],
        xs := u16 ((x0 : Int) + p.X_SHIFT), xe := u16 ((x1 : Int) + p.X_SHIFT),
        ys := u16 ((y0 : Int) + p.Y_SHIFT), ye := u16 ((y1 : Int) + p.Y_SHIFT),
        cx := u16 ((x0 : Int) + p.X_SHIFT), cy := u16 ((y0 : Int) + p.Y_SHIFT),
        pix := g.pix } := by
  obtain ⟨-, -, h1, h2, h3⟩ := hp
  have e : ∀ v : Nat, 256 * (v / 256) + v % 256 = v := fun v => by omega
  simp [windowItems, Gram.step, BusItem.cmd, BusItem.byte, h1, h2, h3, Ne.symm h1, Ne.symm h2,
    Ne.symm h3, e]

theorem Gram_pixel (p : Panel) (hp : p.wf) (x y hi lo : Nat) (g : Gram) :
    ((windowItems p x y x y ++ [BusItem.byte hi, BusItem.byte lo]).foldl (Gram.step p) g).pix =
      g.pix ++ [(u16 ((x : Int) + p.X_SHIFT), u16 ((y : Int) + p.Y_SHIFT), 256 * hi + lo)] := by
  rw [List.foldl_append, Gram_window p hp]
  obtain ⟨-, -, h1, h2, h3⟩ := hp
  simp [Gram.step, Gram.put, BusItem.byte, Ne.symm h2, Ne.symm h3]

theorem succ_div_mod (n w : Nat) (hw : 0 < w) :
    (n % w + 1 < w → (n + 1) % w = n % w + 1 ∧ (n + 1) / w = n / w) ∧
    (¬ (n % w + 1 < w) → (n + 1) % w = 0 ∧ (n + 1) / w = n / w + 1) := by
  have hm := Nat.mod_lt n hw
  have hd := Nat.div_add_mod n w
  constructor
  · intro h
    have h2 : (n + 1) / w = n / w ∧ (n + 1) % w = n % w + 1 :=
      (Nat.div_mod_unique hw).2 ⟨by omega, h⟩
    exact ⟨h2.2, h2.1⟩
  · intro h
    have h2 : (n + 1) / w = n / w + 1 ∧ (n + 1) % w = 0 :=
      (Nat.div_mod_unique hw).2 ⟨by rw [Nat.mul_add]; omega, hw⟩
    exact ⟨h2.2, h2.1⟩

theorem Gram_samples (p : Panel) (hp : p.wf) (xs xe ys ye : Nat) (hx : xs ≤ xe) (hy : ys ≤ ye)
    (pix0 : List (Nat × Nat × Nat)) (c n : Nat) :
    (List.replicate n (BusItem.sample c)).foldl (Gram.step p)
        ⟨p.RAMWR % 256, [], xs, xe, ys, ye, xs, ys, pix0⟩ =
      ⟨p.RAMWR % 256, [], xs, xe, ys, ye,
        xs + n % (xe - xs + 1), ys + n / (xe - xs + 1) % (ye - ys + 1),
        pix0 ++ (List.range n).map (fun k =>
          (xs + k % (xe - xs + 1), ys + k / (xe - xs + 1) % (ye - ys + 1), c))⟩ := by
  obtain ⟨-, -, h1, h2, h3⟩ := hp
  induction n with
  | zero => simp [Nat.zero_div]
  | succ n ih =>
    rw [List.replicate_succ', List.foldl_append, ih]
    have hw : 0 < xe - xs + 1 := by omega
    have hh : 0 < ye - ys + 1 := by omega
    obtain ⟨a1, a2⟩ := succ_div_mod n (xe - xs + 1) hw
    obtain ⟨b1, b2⟩ := succ_div_mod (n / (xe - xs + 1)) (ye - ys + 1) hh
    have hm := Nat.mod_lt n hw
    have hm2 := Nat.mod_lt (n / (xe - xs + 1)) hh
    simp only [List.foldl_cons, List.foldl_nil, Gram.step, BusItem.sample, Gram.put,
      Bool.true_eq_false, if_false, Ne.symm h2, Ne.symm h3, if_true, List.range_succ,
      List.map_append, List.map_cons, List.map_nil, List.append_assoc]
    by_cases hc : n % (xe - xs + 1) + 1 < xe - xs + 1
    · have hlt : xs + n % (xe - xs + 1) < xe := by omega
      obtain ⟨c1, c2⟩ := a1 hc
      simp only [hlt, if_true, c1, c2]
      rfl
    · have hlt : ¬ (xs + n % (xe - xs + 1) < xe) := by omega
      obtain ⟨c1, c2⟩ := a2 hc
      by_cases hr : n / (xe - xs + 1) % (ye - ys + 1) + 1 < ye - ys + 1
      · have hlt2 : ys + n / (xe - xs + 1) % (ye - ys + 1) < ye := by omega
        obtain ⟨d1, _⟩ := b1 hr
        simp only [hlt, if_false, hlt2, if_true, c1, c2, d1]
        rfl
      · have hlt2 : ¬ (ys + n / (xe - xs + 1) % (ye - ys + 1) < ye) := by omega
        obtain ⟨d1, _⟩ := b2 hr
        simp only [hlt, if_false, hlt2, c1, c2, d1]
        rfl

theorem u16_natCast (a : Nat) (h : a < 65536) : u16 (a : Int) = a := by
  unfold u16
  omega

theorem Fill_painted (p : Panel) (hp : p.wf) (xSta ySta xEnd yEnd c : Nat) (s : Bus)
    (h8 : s.is16 = false) (hc : c < 65536)
    (hx : xSta ≤ xEnd) (hxe : xEnd < p.WIDTH) (hy : ySta ≤ yEnd) (hye : yEnd < p.HEIGHT)
    (hn : (xEnd - xSta + 1) * (yEnd - ySta + 1) ≤ 65535) :
    ∃ s1, ST7789_Fill p xSta ySta xEnd yEnd c s = some s1 ∧ s1.is16 = false ∧
      emitted s s1 = windowItems p xSta ySta xEnd yEnd ++
        List.replicate ((xEnd - xSta + 1) * (yEnd - ySta + 1)) (BusItem.sample c) ∧
      painted p (emitted s s1) =
        (List.range ((xEnd - xSta + 1) * (yEnd - ySta + 1))).map
          (fun k => (xSta + k % (xEnd - xSta + 1), ySta + k / (xEnd - xSta + 1), c)) := by
  have hpos : 0 < (xEnd - xSta + 1) * (yEnd - ySta + 1) := Nat.mul_pos (by omega) (by omega)
  have hpix : u16 (((xEnd : Int) - xSta + 1) * ((yEnd : Int) - ySta + 1)) =
      (xEnd - xSta + 1) * (yEnd - ySta + 1) := by
    have e1 : (xEnd : Int) - xSta + 1 = ((xEnd - xSta + 1 : Nat) : Int) := by omega
    have e2 : (yEnd : Int) - ySta + 1 = ((yEnd - ySta + 1 : Nat) : Int) := by omega
    rw [e1, e2, ← Int.natCast_mul]
    exact u16_natCast _ (by omega)
  obtain ⟨s1, e1, e2, -, -, e5⟩ := Fill_spec p xSta ySta xEnd yEnd c s hxe hye h8 hc
    (by rw [hpix]; omega)
  rw [hpix, List.append_assoc] at e5
  have he := emitted_of_append s s1 _ e5
  refine ⟨s1, e1, e2, he, ?_⟩
  obtain ⟨w1, w2, -, -, -⟩ := id hp
  have ax : u16 ((xSta : Int) + p.X_SHIFT) = xSta + p.X_SHIFT := by
    rw [u16_natCast_add]; omega
  have bx : u16 ((xEnd : Int) + p.X_SHIFT) = xEnd + p.X_SHIFT := by
    rw [u16_natCast_add]; omega
  have ay : u16 ((ySta : Int) + p.Y_SHIFT) = ySta + p.Y_SHIFT := by
    rw [u16_natCast_add]; omega
  have by1 : u16 ((yEnd : Int) + p.Y_SHIFT) = yEnd + p.Y_SHIFT := by
    rw [u16_natCast_add]; omega
  have ew : xEnd + p.X_SHIFT - (xSta + p.X_SHIFT) + 1 = xEnd - xSta + 1 := by omega
  have eh : yEnd + p.Y_SHIFT - (ySta + p.Y_SHIFT) + 1 = yEnd - ySta + 1 := by omega
  unfold painted
  rw [he, List.foldl_append, Gram_window p hp, ax, bx, ay, by1,
    Gram_samples p hp _ _ _ _ (by omega) (by omega), ew, eh]
  simp only [Gram.reset, List.nil_append, List.map_map]
  apply List.map_congr_left
  intro k hk
  have hk2 : k < (xEnd - xSta + 1) * (yEnd - ySta + 1) := List.mem_range.mp hk
  have hdiv : k / (xEnd - xSta + 1) < yEnd - ySta + 1 :=
    Nat.div_lt_of_lt_mul hk2
  simp only [Function.comp, Nat.mod_eq_of_lt hdiv, Prod.mk.injEq, and_true]
  generalize k / (xEnd - xSta + 1) = d
  generalize k % (xEnd - xSta + 1) = r
  constructor <;> omega

theorem drawPixels_trace (p : Panel) (c : Nat) (pts : List (Nat × Nat))
    (hpts : ∀ q ∈ pts, q.1 < p.WIDTH ∧ q.2 < p.HEIGHT) (s : Bus) (h8 : s.is16 = false) :
    (drawPixels p c pts s).is16 = false ∧
    (drawPixels p c pts s).trace = s.trace ++ pts.flatMap (fun q =>
      windowItems p q.1 q.2 q.1 q.2 ++ [BusItem.byte (c / 256 % 256), BusItem.byte (c % 256)]) := by
  induction pts generalizing s with
  | nil => simp [drawPixels, h8]
  | cons q t ih =>
    have hq := hpts q (List.mem_cons_self _ _)
    have ht : ∀ r ∈ t, r.1 < p.WIDTH ∧ r.2 < p.HEIGHT :=
      fun r hr => hpts r (List.mem_cons_of_mem _ hr)
    have e : drawPixels p c (q :: t) s = drawPixels p c t (ST7789_DrawPixel p q.1 q.2 c s) := rfl
    obtain ⟨i1, i2⟩ := ih ht (ST7789_DrawPixel p q.1 q.2 c s)
      (by rw [DrawPixel_is16]; exact h8)
    rw [e]
    refine ⟨i1, ?_⟩
    rw [i2, DrawPixel_eq p q.1 q.2 c s h8 hq.1 hq.2, List.flatMap_cons, List.append_assoc]

theorem Gram_pixels (p : Panel) (hp : p.wf) (hi lo : Nat) (pts : List (Nat × Nat)) (g : Gram) :
    ((pts.flatMap (fun q =>
        windowItems p q.1 q.2 q.1 q.2 ++ [BusItem.byte hi, BusItem.byte lo])).foldl
      (Gram.step p) g).pix =
      g.pix ++ pts.map (fun q =>
        (u16 ((q.1 : Int) + p.X_SHIFT), u16 ((q.2 : Int) + p.Y_SHIFT), 256 * hi + lo)) := by
  induction pts generalizing g with
  | nil => simp
  | cons q t ih =>
    rw [List.flatMap_cons, List.foldl_append, ih, Gram_pixel p hp, List.map_cons,
      List.append_assoc]
    rfl

theorem drawPixels_painted (p : Panel) (hp : p.wf) (c : Nat) (hc : c < 65536)
    (pts : List (Nat × Nat)) (hpts : ∀ q ∈ pts, q.1 < p.WIDTH ∧ q.2 < p.HEIGHT)
    (s : Bus) (h8 : s.is16 = false) :
    painted p (emitted s (drawPixels p c pts s)) = pts.map (fun q => (q.1, q.2, c)) := by
  obtain ⟨-, e⟩ := drawPixels_trace p c pts hpts s h8
  unfold painted
  rw [emitted_of_append s _ _ e, Gram_pixels p hp]
  simp only [Gram.reset, List.nil_append, List.map_map]
  apply List.map_congr_left
  intro q hq
  obtain ⟨h1, h2⟩ := hpts q hq
  obtain ⟨w1, w2, -, -, -⟩ := hp
  simp only [Function.comp, u16_natCast_add, Prod.mk.injEq]
  refine ⟨by omega, by omega, ?_⟩
  omega

/-! ### Images of at most 65535 samples -/

theorem map_range_samples (data : List Nat) (n : Nat) (hlen : data.length = n)
    (hd : ∀ v ∈ data, v < 65536) :
    (List.range n).map (fun i => BusItem.mk true true (rd16 (bytesOf16 data) (2 * i))) =
      data.map BusItem.sample := by
  apply List.ext_getElem
  · simp [hlen]
  · intro i h1 h2
    have hi : i < data.length := by simpa using h2
    have hv : data[i] < 65536 := hd _ (List.getElem_mem hi)
    simp [rd16_bytesOf16, List.getElem?_eq_getElem hi, BusItem.sample, Nat.mod_eq_of_lt hv]

theorem DrawImage_single_chunk (p : Panel) (x y w h : Nat) (data : List Nat) (s : Bus)
    (h8 : s.is16 = false) (hw : 1 ≤ w) (hh : 1 ≤ h)
    (hx : x + w ≤ p.WIDTH) (hy : y + h ≤ p.HEIGHT)
    (hlen : data.length = w * h) (hn : w * h ≤ 65535) (hd : ∀ v ∈ data, v < 65536) :
    emitted s (ST7789_DrawImage p x y w h data s) =
      windowItems p x y (u16 ((x : Int) + w - 1)) (u16 ((y : Int) + h - 1)) ++
        data.map BusItem.sample ∧
    (ST7789_DrawImage p x y w h data s).is16 = false := by
  have hg1 : ¬ (x ≥ p.WIDTH ∨ y ≥ p.HEIGHT) := by omega
  have hg2 : ¬ ((x : Int) + w - 1 ≥ p.WIDTH) := by omega
  have hg3 : ¬ ((y : Int) + h - 1 ≥ p.HEIGHT) := by omega
  have hpos : 0 < w * h := Nat.mul_pos hw hh
  refine ⟨?_, DrawImage_is16 p x y w h data s h8⟩
  unfold ST7789_DrawImage
  rw [if_neg hg1, if_neg hg2, if_neg hg3]
  simp only
  rw [SetAddressWindow_eq p x y _ _ s h8]
  have hm := map_range_samples data (w * h) hlen hd
  by_cases hdma : p.USE_DMA = true
  · simp only [hdma, if_true]
    rw [WriteData_one_chunk p _ 0 (w * h) _ hpos hn]
    by_cases hsz : DMA_min_Sz ≤ w * h
    · simp only [hdma, hsz, and_self, if_true]
      apply emitted_of_append
      simp [HAL_SPI_Transmit_DMA, ST7789_UnSelect, ST7789_DC_Set, ST7789_Select, setDMAMemMode,
        setSPI_Size, mem_increase, mode_16bit, hm]
    · simp only [hdma, hsz, and_false, if_false]
      apply emitted_of_append
      simp [HAL_SPI_Transmit, ST7789_UnSelect, ST7789_DC_Set, ST7789_Select, setDMAMemMode,
        setSPI_Size, mem_increase, mode_16bit, hm]
  · simp only [hdma, if_false]
    rw [WriteData_one_chunk p _ 0 (w * h) _ hpos hn]
    simp only [hdma, false_and, if_false]
    apply emitted_of_append
    simp [HAL_SPI_Transmit, ST7789_UnSelect, ST7789_DC_Set, ST7789_Select,
      setSPI_Size, mode_16bit, hm]

theorem DrawLine_horizontal_eq (p : Panel) (x0 y0 x1 c : Nat) (s : Bus) :
    ST7789_DrawLine p x0 y0 x1 y0 c s = ST7789_Fill p (min x0 x1) y0 (max x0 x1) y0 c s := by
  unfold ST7789_DrawLine
  by_cases h : x0 = x1
  · subst h
    simp [ST7789_DrawVLine]
  · rw [if_neg h, if_pos rfl]
    unfold ST7789_DrawHLine
    by_cases h2 : x1 < x0
    · rw [if_pos h2, min_eq_right (by omega), max_eq_left (by omega)]
    · rw [if_neg h2, min_eq_left (by omega), max_eq_right (by omega)]

theorem DrawLine_vertical_eq (p : Panel) (x0 y0 y1 c : Nat) (s : Bus) :
    ST7789_DrawLine p x0 y0 x0 y1 c s = ST7789_Fill p x0 (min y0 y1) x0 (max y0 y1) c s := by
  unfold ST7789_DrawLine
  rw [if_pos rfl]
  unfold ST7789_DrawVLine
  by_cases h2 : y1 < y0
  · rw [if_pos h2, min_eq_right (by omega), max_eq_left (by omega)]
  · rw [if_neg h2, min_eq_left (by omega), max_eq_right (by omega)]

theorem i16_of_range (z : Int) (h1 : -32768 ≤ z) (h2 : z ≤ 32767) : i16 z = z := by
  unfold i16
  omega

theorem ABS_eq_natAbs (z : Int) : ABS z = (Int.natAbs z : Int) := by
  unfold ABS
  split <;> omega

theorem DrawLine_loop_diag (p : Panel) (c xb n : Nat) (sgn : Int) (hs : sgn = 1 ∨ sgn = -1)
    (hn1 : 1 ≤ n) (hn : n ≤ 32767) (hxb : xb ≤ 65534) :
    ∀ (m x y fuel : Nat) (s : Bus), x + m = xb + 1 → m < fuel →
      (0 < m → 0 ≤ (y : Int) + ((m : Int) - 1) * sgn ∧ (y : Int) + ((m : Int) - 1) * sgn ≤ 65535 ∧
        y ≤ 65535) →
      DrawLine_loop p false xb n n sgn c fuel x y ((n / 2 : Nat) : Int) s =
        some (drawPixels p c
          ((List.range m).map (fun j => (x + j, ((y : Int) + (j : Int) * sgn).toNat))) s) := by
  intro m
  induction m with
  | zero =>
    intro x y fuel s hx hf _
    obtain ⟨f, rfl⟩ : ∃ f, fuel = f + 1 := ⟨fuel - 1, by omega⟩
    have hgt : ¬ (x ≤ xb) := by omega
    simp [DrawLine_loop, hgt, drawPixels]
  | succ m ih =>
    intro x y fuel s hx hf hb
    obtain ⟨f, rfl⟩ : ∃ f, fuel = f + 1 := ⟨fuel - 1, by omega⟩
    obtain ⟨b1, b2, b3⟩ := hb (by omega)
    have hle : x ≤ xb := by omega
    have herr : i16 (((n / 2 : Nat) : Int) - (n : Int)) = ((n / 2 : Nat) : Int) - (n : Int) :=
      i16_of_range _ (by omega) (by omega)
    have hneg : ((n / 2 : Nat) : Int) - (n : Int) < 0 := by omega
    have herr2 : i16 (((n / 2 : Nat) : Int) - (n : Int) + (n : Int)) = ((n / 2 : Nat) : Int) := by
      rw [i16_of_range _ (by omega) (by omega)]; omega
    have hx1 : u16 ((x : Int) + 1) = x + 1 := by unfold u16; omega
    rw [DrawLine_loop]
    simp only [hle, if_true, herr, hneg, herr2, hx1, Bool.false_eq_true, if_false]
    rw [ih (x + 1) (u16 ((y : Int) + sgn)) f (ST7789_DrawPixel p x y c s) (by omega) (by omega)]
    · rw [List.range_succ_eq_map, List.map_cons, List.map_map]
      have e0 : ((y : Int) + ((0 : Nat) : Int) * sgn).toNat = y := by simp
      simp only [Nat.add_zero, e0]
      show _ = some (drawPixels p c _ (ST7789_DrawPixel p x y c s))
      congr 2
      apply List.map_congr_left
      intro j hj
      have hj2 := List.mem_range.mp hj
      have hy : ((u16 ((y : Int) + sgn) : Nat) : Int) = (y : Int) + sgn := by
        unfold u16
        rcases hs with h | h <;> subst h <;> omega
      simp only [Function.comp, hy, Prod.mk.injEq]
      constructor
      · omega
      · congr 1
        push_cast
        ring
    · intro hm
      have hy : ((u16 ((y : Int) + sgn) : Nat) : Int) = (y : Int) + sgn := by
        unfold u16
        rcases hs with h | h <;> subst h <;> omega
      rw [hy]
      have : u16 ((y : Int) + sgn) ≤ 65535 := by have := u16_lt ((y : Int) + sgn); omega
      refine ⟨?_, ?_, this⟩
      · have : (y : Int) + sgn + ((m : Int) - 1) * sgn = (y : Int) + (((m + 1 : Nat) : Int) - 1) * sgn := by
          push_cast; ring
        rw [this]; exact b1
      · have : (y : Int) + sgn + ((m : Int) - 1) * sgn = (y : Int) + (((m + 1 : Nat) : Int) - 1) * sgn := by
          push_cast; ring
        rw [this]; exact b2

theorem DrawLine_diag_ordered (p : Panel) (xa ya xb yb c n : Nat) (s : Bus)
    (hn1 : 1 ≤ n) (hn : n ≤ 32767) (hxb : xb ≤ 65534) (hyb : yb ≤ 65535) (hya : ya ≤ 65535)
    (hx : xa + n = xb) (hy : ya + n = yb ∨ yb + n = ya) :
    DrawLine_loop p false xb (i16 ((xb : Int) - xa)) (i16 (ABS ((yb : Int) - ya)))
        (if ya < yb then 1 else -1) c 65536 xa ya
        (i16 (Int.tdiv (i16 ((xb : Int) - xa)) 2)) s =
      some (drawPixels p c
        ((List.range (n + 1)).map (fun k => (xa + k, if ya < yb then ya + k else ya - k))) s) := by
  have e1 : i16 ((xb : Int) - xa) = (n : Int) := by
    rw [i16_of_range _ (by omega) (by omega)]; omega
  have e2 : i16 (ABS ((yb : Int) - ya)) = (n : Int) := by
    rw [ABS_eq_natAbs, i16_of_range _ (by omega) (by omega)]; omega
  have e3 : i16 (Int.tdiv (n : Int) 2) = ((n / 2 : Nat) : Int) := by
    rw [Int.tdiv_eq_ediv (by omega) (by omega), i16_of_range _ (by omega) (by omega)]
    omega
  rw [e1, e2, e3]
  have hs : (if ya < yb then (1 : Int) else -1) = 1 ∨ (if ya < yb then (1 : Int) else -1) = -1 := by
    split
    · exact Or.inl rfl
    · exact Or.inr rfl
  rw [DrawLine_loop_diag p c xb n _ hs hn1 hn hxb (n + 1) xa ya 65536 s (by omega) (by omega)]
  · refine congrArg some (congrArg (fun l => drawPixels p c l s) ?_)
    apply List.map_congr_left
    intro k hk
    have hk2 := List.mem_range.mp hk
    by_cases h : ya < yb
    · simp only [h, if_true, Prod.mk.injEq, true_and]
      omega
    · simp only [h, if_false, Prod.mk.injEq, true_and]
      omega
  · intro _
    by_cases h : ya < yb
    · simp only [h, if_true]
      push_cast
      omega
    · simp only [h, if_false]
      push_cast
      omega

/-! ### Chunking of `ST7789_WriteData` -/

theorem chunkSizes_step (n : Nat) (h : 0 < n) :
    chunkSizes n =
      (if n > 65535 then 65535 else n) ::
        chunkSizes (n - (if n > 65535 then 65535 else n)) := by
  unfold chunkSizes
  by_cases hbig : n > 65535
  · have e1 : n / 65535 = (n - 65535) / 65535 + 1 := by omega
    have e2 : (n - 65535) % 65535 = n % 65535 := by omega
    rw [if_pos hbig, e2, e1, List.replicate_succ, List.cons_append]
  · by_cases heq : n = 65535
    · have e1 : n / 65535 = 1 := by omega
      have e2 : n % 65535 = 0 := by omega
      have e3 : (n - n) / 65535 = 0 := by omega
      have e4 : (n - n) % 65535 = 0 := by omega
      simp only [hbig, if_false, e1, e2, e3, e4, if_true, List.replicate_succ,
        List.replicate_zero, List.append_nil, List.nil_append]
      rw [heq]
    · have e1 : n / 65535 = 0 := by omega
      have e2 : n % 65535 = n := by omega
      have e3 : n ≠ 0 := by omega
      simp [hbig, e1, e2, e3]

theorem HAL_transmit_xfers (p : Panel) (mem : List Nat) (off n c : Nat) (s : Bus) :
    (if p.USE_DMA = true then
        if DMA_min_Sz ≤ n then HAL_SPI_Transmit_DMA mem off c s
        else HAL_SPI_Transmit mem off c s
      else HAL_SPI_Transmit mem off c s).xfers = s.xfers ++ [c] := by
  split
  · split <;> rfl
  · rfl

theorem WriteData_loop_xfers (p : Panel) (mem : List Nat) :
    ∀ (fuel n off : Nat) (s : Bus), n ≤ fuel →
      (WriteData_loop p mem fuel off n s).xfers = s.xfers ++ chunkSizes n := by
  intro fuel
  induction fuel with
  | zero =>
    intro n off s h
    have : n = 0 := by omega
    subst this
    simp [WriteData_loop, chunkSizes]
  | succ k ih =>
    intro n off s h
    by_cases h0 : n > 0
    · rw [WriteData_loop, if_pos h0]
      simp only
      rw [ih _ _ _ (by split <;> omega), HAL_transmit_xfers, chunkSizes_step n h0,
        List.append_assoc]
      rfl
    · have : n = 0 := by omega
      subst this
      simp [WriteData_loop, chunkSizes]

theorem WriteData_loop_fuel (p : Panel) (mem : List Nat) :
    ∀ (fuel n k off : Nat) (s : Bus), n ≤ fuel →
      WriteData_loop p mem (fuel + k) off n s = WriteData_loop p mem fuel off n s := by
  intro fuel
  induction fuel with
  | zero =>
    intro n k off s h
    have : n = 0 := by omega
    subst this
    rw [WriteData_loop_zero, WriteData_loop_zero]
  | succ f ih =>
    intro n k off s h
    by_cases h0 : n > 0
    · rw [show f + 1 + k = (f + k) + 1 by omega, WriteData_loop, WriteData_loop, if_pos h0,
        if_pos h0]
      simp only
      rw [ih _ _ _ _ (by split <;> omega)]
    · have : n = 0 := by omega
      subst this
      rw [WriteData_loop_zero, WriteData_loop_zero]

theorem sum_chunkSizes (n : Nat) : (chunkSizes n).sum = n := by
  unfold chunkSizes
  rw [List.sum_append, List.sum_replicate]
  split <;> simp <;> omega

theorem length_chunkSizes (n : Nat) : (chunkSizes n).length = (n + 65534) / 65535 := by
  unfold chunkSizes
  rw [List.length_append, List.length_replicate]
  split <;> simp <;> omega

/-! ### Transfers made by `ST7789_Fill` -/

theorem WriteData_xfers (p : Panel) (mem : List Nat) (off n : Nat) (s : Bus) :
    (ST7789_WriteData p mem off n s).xfers = s.xfers ++ chunkSizes n := by
  unfold ST7789_WriteData
  show (WriteData_loop p mem n off n _).xfers = _
  rw [WriteData_loop_xfers p mem n n off _ le_rfl]
  rfl

theorem WriteData_loop_memInc (p : Panel) (mem : List Nat) (fuel off n : Nat) (s : Bus) :
    (WriteData_loop p mem fuel off n s).memInc = s.memInc := by
  induction fuel generalizing off n s with
  | zero => rfl
  | succ f ih =>
    unfold WriteData_loop
    split
    · rw [ih]
      split
      · split <;> rfl
      · rfl
    · rfl

theorem WriteData_memInc (p : Panel) (mem : List Nat) (off n : Nat) (s : Bus) :
    (ST7789_WriteData p mem off n s).memInc = s.memInc := by
  unfold ST7789_WriteData
  show (WriteData_loop p mem n off n _).memInc = s.memInc
  rw [WriteData_loop_memInc]
  rfl

theorem chunkSizes_small (n : Nat) (h0 : 0 < n) (h1 : n ≤ 65535) : chunkSizes n = [n] := by
  rw [chunkSizes_step n h0]
  have h2 : ¬ (n > 65535) := by omega
  rw [if_neg h2, Nat.sub_self]
  rfl

theorem Fill_blocks_xfers (p : Panel) (fill : List Nat) (b : Nat) (hb0 : 0 < b) (hb : b ≤ 64) :
    ∀ (fuel pixels : Nat) (s : Bus) (r : Nat) (s1 : Bus),
      Fill_blocks p fill b fuel pixels s = some (r, s1) →
      s1.xfers = s.xfers ++ List.replicate (pixels / b) b ∧ s1.memInc = s.memInc := by
  intro fuel
  induction fuel with
  | zero => intro pixels s r s1 h; simp [Fill_blocks] at h
  | succ k ih =>
    intro pixels s r s1 h
    rw [Fill_blocks] at h
    by_cases hge : pixels ≥ b
    · rw [if_pos hge] at h
      obtain ⟨i1, i2⟩ := ih _ _ _ _ h
      have hq : pixels / b = (pixels - b) / b + 1 := by
        have := Nat.add_div_right (pixels - b) hb0
        rw [Nat.sub_add_cancel hge] at this
        exact this
      constructor
      · rw [i1, WriteData_xfers, chunkSizes_small b hb0 (by omega), hq, List.replicate_succ,
          List.append_assoc]
        rfl
      · rw [i2, WriteData_memInc]
    · rw [if_neg hge] at h
      simp only [Option.some.injEq, Prod.mk.injEq] at h
      obtain ⟨-, rfl⟩ := h
      have : pixels / b = 0 := Nat.div_eq_of_lt (by omega)
      simp [this]

/-- The HAL transfers of an accepted `ST7789_Fill` call with a count that is
not zero: after the five of the window sequence, the `USE_DMA` build with at
least `DMA_min_Sz` pixels makes one transfer of `pixels` elements with the
memory address held (`MemInc` off); otherwise the blocks of `blockSz`
elements and, when it is not empty, the remainder. -/
theorem Fill_xfers (p : Panel) (xSta ySta xEnd yEnd color : Nat) (s : Bus)
    (hx : xEnd < p.WIDTH) (hy : yEnd < p.HEIGHT) (h8 : s.is16 = false) (hc : color < 65536)
    (pixels : Nat) (hpix : u16 (((xEnd : Int) - xSta + 1) * ((yEnd : Int) - ySta + 1)) = pixels)
    (hpx : pixels ≠ 0) :
    ∃ s1, ST7789_Fill p xSta ySta xEnd yEnd color s = some s1 ∧
      (p.USE_DMA = true ∧ DMA_min_Sz ≤ pixels →
        s1.xfers = s.xfers ++ [1, 4, 1, 4, 1] ++ [pixels] ∧ s1.memInc = false) ∧
      (¬ (p.USE_DMA = true ∧ DMA_min_Sz ≤ pixels) →
        s1.xfers = s.xfers ++ [1, 4, 1, 4, 1] ++
          (List.replicate (pixels / (if pixels < 64 then pixels else 64))
              (if pixels < 64 then pixels else 64) ++
            (if pixels % (if pixels < 64 then pixels else 64) = 0 then []
             else [pixels % (if pixels < 64 then pixels else 64)])) ∧
        s1.memInc = s.memInc) := by
  have hlt : pixels < 65536 := by rw [← hpix]; exact u16_lt _
  have hguard : ¬ (xEnd ≥ p.WIDTH ∨ yEnd ≥ p.HEIGHT) := by omega
  unfold ST7789_Fill
  simp only [hpix, hguard, if_false]
  rw [SetAddressWindow_eq p xSta ySta xEnd yEnd s h8]
  by_cases hdma : p.USE_DMA = true ∧ DMA_min_Sz ≤ pixels
  · rw [if_pos hdma, WriteData_fill_dma p pixels color _ hdma.1 hc hdma.2 (by omega)]
    refine ⟨_, rfl, fun _ => ⟨?_, rfl⟩, fun h => absurd hdma h⟩
    simp [setSPI_Size]
  · rw [if_neg hdma]
    set b := (if pixels < 64 then pixels else 64) with hb
    have hb0 : 0 < b := by rw [hb]; split <;> omega
    have hb64 : b ≤ 64 := by rw [hb]; split <;> omega
    have hblk : p.USE_DMA = false ∨ b < DMA_min_Sz := by
      by_cases h : p.USE_DMA = true
      · right
        have : ¬ DMA_min_Sz ≤ pixels := fun h2 => hdma ⟨h, h2⟩
        rw [hb]; unfold DMA_min_Sz at *; split <;> omega
      · left; simpa using h
    obtain ⟨s1, e1, e2, -, -, -⟩ := Fill_blocks_spec p b color hc hb0 hb64 hblk (pixels + 1) pixels
      (setSPI_Size mode_16bit ⟨s.is16, s.memInc, s.dmaHalf, false, false,
        s.trace ++ windowItems p xSta ySta xEnd yEnd, s.xfers ++ [1, 4, 1, 4, 1]⟩)
      (by simp [setSPI_Size, mode_16bit]) (by simp [setSPI_Size]) (by omega)
    obtain ⟨x1, x2⟩ := Fill_blocks_xfers p _ b hb0 hb64 _ _ _ _ _ e1
    rw [e1]
    have hr : pixels % b < b := Nat.mod_lt _ hb0
    by_cases hrem : pixels % b = 0
    · refine ⟨_, rfl, fun h => absurd h hdma, fun _ => ⟨?_, ?_⟩⟩
      · simp [hrem, setSPI_Size, x1]
      · simp [hrem, setSPI_Size, x2]
    · refine ⟨_, rfl, fun h => absurd h hdma, fun _ => ⟨?_, ?_⟩⟩
      · simp only [hrem, ne_eq, not_false_eq_true, if_true, if_false, setSPI_Size]
        rw [WriteData_xfers, chunkSizes_small _ (by omega) (by omega), x1]
        simp [setSPI_Size]
      · simp only [hrem, ne_eq, not_false_eq_true, if_true, setSPI_Size]
        rw [WriteData_memInc, x2]
        rfl

theorem Fill_zero_count_none (p : Panel) (xSta ySta xEnd yEnd color : Nat) (s : Bus)
    (hx : xEnd < p.WIDTH) (hy : yEnd < p.HEIGHT)
    (hpix : u16 (((xEnd : Int) - xSta + 1) * ((yEnd : Int) - ySta + 1)) = 0) :
    ST7789_Fill p xSta ySta xEnd yEnd color s = none := by
  have hguard : ¬ (xEnd ≥ p.WIDTH ∨ yEnd ≥ p.HEIGHT) := by omega
  have hdma : ¬ (p.USE_DMA = true ∧ DMA_min_Sz ≤ 0) := by
    unfold DMA_min_Sz
    omega
  unfold ST7789_Fill
  have h64 : (0 : Nat) < 64 := by omega
  simp only [hpix, hguard, if_false, hdma, h64, if_true, Fill_blocks_zero]

/-! ### Text -/

theorem WriteString_eq_calls (p : Panel) (font : FontDef) (color bgcolor : Nat)
    (str : List Nat) (x y : Nat) (s : Bus) :
    ST7789_WriteString p font color bgcolor str x y s =
      (WriteString_calls p font str x y).foldl
        (fun s q => ST7789_WriteChar p q.1 q.2.1 q.2.2 font color bgcolor s) s := by
  induction str generalizing x y s with
  | nil => rfl
  | cons ch rest ih =>
    unfold ST7789_WriteString WriteString_calls
    simp only
    split
    · split
      · rfl
      · split
        · exact ih _ _ _
        · rw [List.foldl_cons]
          exact ih _ _ _
    · rw [List.foldl_cons]
      exact ih _ _ _

theorem and_0x8000_ne_zero (v : Nat) : (v &&& 0x8000 ≠ 0) ↔ v.testBit 15 = true := by
  have e : (0x8000 : Nat) = 2 ^ 15 := by norm_num
  rw [e]
  constructor
  · intro h
    by_contra hb
    apply h
    apply Nat.eq_of_testBit_eq
    intro i
    rw [Nat.testBit_and, Nat.testBit_two_pow, Nat.zero_testBit]
    by_cases hi : 15 = i
    · subst hi
      simp at hb
      simp [hb]
    · simp [hi]
  · intro h h0
    have := congrArg (fun t => Nat.testBit t 15) h0
    simp only [Nat.testBit_and, Nat.testBit_two_pow, Nat.zero_testBit, h] at this
    simp at this

theorem glyph_bit (b j : Nat) (hj : j ≤ 15) :
    ((b <<< j) % 4294967296 &&& 0x8000 ≠ 0) ↔ b.testBit (15 - j) = true := by
  rw [and_0x8000_ne_zero]
  have e : (4294967296 : Nat) = 2 ^ 32 := by norm_num
  rw [e, Nat.testBit_mod_two_pow, Nat.testBit_shiftLeft]
  simp [hj]

theorem flatMap_congr_mem {α β : Type} (l : List α) (f g : α → List β)
    (h : ∀ a ∈ l, f a = g a) : l.flatMap f = l.flatMap g := by
  induction l with
  | nil => rfl
  | cons a t ih =>
    rw [List.flatMap_cons, List.flatMap_cons, h a (List.mem_cons_self _ _),
      ih (fun b hb => h b (List.mem_cons_of_mem _ hb))]

theorem fontRow_eq (font : FontDef) (ch i : Nat) (hch : 32 ≤ ch) :
    fontRow font ch i = (font.data[(ch - 32) * font.height + i]?).getD 0 := by
  unfold fontRow
  have e : ((ch : Int) - 32) * font.height + i = (((ch - 32) * font.height + i : Nat) : Int) := by
    push_cast
    rw [Nat.cast_sub hch]
    rfl
  simp only [e]
  have hn : ¬ ((((ch - 32) * font.height + i : Nat) : Int) < 0) := by omega
  rw [if_neg hn, Int.toNat_ofNat]
  simp

/-! ### The general line -/

theorem add_div_mod_small (N dy dx : Nat) (hdx : 0 < dx) (hdy : dy ≤ dx) :
    (N % dx + dy < dx → (N + dy) / dx = N / dx ∧ (N + dy) % dx = N % dx + dy) ∧
    (¬ (N % dx + dy < dx) →
      (N + dy) / dx = N / dx + 1 ∧ (N + dy) % dx = N % dx + dy - dx) := by
  have hm := Nat.mod_lt N hdx
  have hd := Nat.div_add_mod N dx
  constructor
  · intro h
    exact (Nat.div_mod_unique hdx).2 ⟨by omega, h⟩
  · intro h
    exact (Nat.div_mod_unique hdx).2 ⟨by rw [Nat.mul_add]; omega, by omega⟩

theorem u16_u16_add (a t : Int) : u16 ((u16 a : Nat) + t) = u16 (a + t) := by
  unfold u16
  omega

theorem DrawPixel_linePoint (p : Panel) (steep : Bool) (a b c : Nat) (s : Bus) :
    (if steep = true then ST7789_DrawPixel p b a c s else ST7789_DrawPixel p a b c s) =
      ST7789_DrawPixel p (linePoint steep a b).1 (linePoint steep a b).2 c s := by
  cases steep <;> rfl

theorem DrawLine_loop_bresenham (p : Panel) (c : Nat) (steep : Bool) (a0 b0 xb dx dy : Nat)
    (sgn : Int) (hdx1 : 1 ≤ dx) (hdx : dx ≤ 32767) (hdy : dy ≤ dx) (hxb : a0 + dx = xb)
    (hxb2 : xb ≤ 65534) :
    ∀ (m k fuel : Nat) (s : Bus), k + m = dx + 1 → m < fuel →
      DrawLine_loop p steep xb dx dy sgn c fuel (a0 + k)
          (u16 ((b0 : Int) + sgn * (bresenhamSteps dx dy k : Nat)))
          ((dx - 1 - (k * dy + dx - 1 - dx / 2) % dx : Nat) : Int) s =
        some (drawPixels p c
          ((List.range m).map (fun j =>
            linePoint steep (a0 + (k + j))
              (u16 ((b0 : Int) + sgn * (bresenhamSteps dx dy (k + j) : Nat))))) s) := by
  intro m
  induction m with
  | zero =>
    intro k fuel s hk hf
    obtain ⟨f, rfl⟩ : ∃ f, fuel = f + 1 := ⟨fuel - 1, by omega⟩
    have hgt : ¬ (a0 + k ≤ xb) := by omega
    simp [DrawLine_loop, hgt, drawPixels]
  | succ m ih =>
    intro k fuel s hk hf
    obtain ⟨f, rfl⟩ : ∃ f, fuel = f + 1 := ⟨fuel - 1, by omega⟩
    have hle : a0 + k ≤ xb := by omega
    have hdx0 : 0 < dx := by omega
    have hS : bresenhamSteps dx dy k = (k * dy + dx - 1 - dx / 2) / dx := rfl
    have hS1 : bresenhamSteps dx dy (k + 1) = ((k + 1) * dy + dx - 1 - dx / 2) / dx := rfl
    have hN1 : (k + 1) * dy + dx - 1 - dx / 2 = k * dy + dx - 1 - dx / 2 + dy := by
      rw [Nat.add_mul, Nat.one_mul]
      omega
    have ih' := ih (k + 1) f
      (ST7789_DrawPixel p
        (linePoint steep (a0 + k) (u16 ((b0 : Int) + sgn * (bresenhamSteps dx dy k : Nat)))).1
        (linePoint steep (a0 + k) (u16 ((b0 : Int) + sgn * (bresenhamSteps dx dy k : Nat)))).2
        c s)
      (by omega) (by omega)
    have hlist : (List.range (m + 1)).map (fun j =>
            linePoint steep (a0 + (k + j))
              (u16 ((b0 : Int) + sgn * (bresenhamSteps dx dy (k + j) : Nat)))) =
        linePoint steep (a0 + k) (u16 ((b0 : Int) + sgn * (bresenhamSteps dx dy k : Nat))) ::
          (List.range m).map (fun j =>
            linePoint steep (a0 + (k + 1 + j))
              (u16 ((b0 : Int) + sgn * (bresenhamSteps dx dy (k + 1 + j) : Nat)))) := by
      rw [List.range_succ_eq_map, List.map_cons, List.map_map]
      refine congrArg₂ List.cons rfl ?_
      apply List.map_congr_left
      intro j _
      have e : k + (j + 1) = k + 1 + j := by omega
      simp only [Function.comp, Nat.succ_eq_add_one, e]
    rw [hlist]
    show _ = some (drawPixels p c _ (ST7789_DrawPixel p _ _ c s))
    rw [← ih']
    rw [hS1, hN1]
    rw [hS]
    generalize k * dy + dx - 1 - dx / 2 = N
    have hr := Nat.mod_lt N hdx0
    obtain ⟨c1, c2⟩ := add_div_mod_small N dy dx hdx0 hdy
    have hx1 : u16 (((a0 + k : Nat) : Int) + 1) = a0 + (k + 1) := by unfold u16; omega
    have herr : i16 (((dx - 1 - N % dx : Nat) : Int) - (dy : Int)) =
        ((dx - 1 - N % dx : Nat) : Int) - (dy : Int) := i16_of_range _ (by omega) (by omega)
    rw [DrawLine_loop]
    simp only [hle, if_true, herr, hx1, DrawPixel_linePoint]
    by_cases hneg : ((dx - 1 - N % dx : Nat) : Int) - (dy : Int) < 0
    · have hcase : ¬ (N % dx + dy < dx) := by omega
      obtain ⟨d1, d2⟩ := c2 hcase
      have herr2 : i16 (((dx - 1 - N % dx : Nat) : Int) - (dy : Int) + (dx : Int)) =
          ((dx - 1 - (N + dy) % dx : Nat) : Int) := by
        rw [i16_of_range _ (by omega) (by omega), d2]
        omega
      have hy : u16 (((u16 ((b0 : Int) + sgn * ((N / dx : Nat) : Int)) : Nat) : Int) + sgn) =
          u16 ((b0 : Int) + sgn * (((N + dy) / dx : Nat) : Int)) := by
        rw [u16_u16_add, d1]
        congr 1
        push_cast
        ring
      simp only [hneg, if_true, herr2, hy]
    · have hcase : N % dx + dy < dx := by omega
      obtain ⟨d1, d2⟩ := c1 hcase
      have herr2 : ((dx - 1 - N % dx : Nat) : Int) - (dy : Int) =
          ((dx - 1 - (N + dy) % dx : Nat) : Int) := by
        rw [d2]
        omega
      have hneg2 : ¬ (((dx - 1 - (N + dy) % dx : Nat) : Int) < 0) := by omega
      simp only [herr2, hneg2, if_false, d1]

theorem bresenhamSteps_le (dx dy k : Nat) (hdx : 1 ≤ dx) (hk : k ≤ dx) :
    bresenhamSteps dx dy k ≤ dy := by
  unfold bresenhamSteps
  have h1 : k * dy ≤ dx * dy := Nat.mul_le_mul_right dy hk
  have h2 : k * dy + dx - 1 - dx / 2 < (dy + 1) * dx := by
    rw [Nat.add_mul, Nat.one_mul, Nat.mul_comm dy dx]
    omega
  have := (Nat.div_lt_iff_lt_mul (by omega : 0 < dx)).2 h2
  omega

theorem bresenhamSteps_zero (dx dy : Nat) (hdx : 1 ≤ dx) : bresenhamSteps dx dy 0 = 0 := by
  unfold bresenhamSteps
  rw [Nat.zero_mul, Nat.zero_add]
  exact Nat.div_eq_of_lt (by omega)

theorem bresenhamSteps_last (dx dy : Nat) (hdx : 1 ≤ dx) : bresenhamSteps dx dy dx = dy := by
  unfold bresenhamSteps
  have e : dx * dy + dx - 1 - dx / 2 = dx * dy + (dx - 1 - dx / 2) := by omega
  rw [e, Nat.mul_add_div (by omega : dx > 0), Nat.div_eq_of_lt (by omega)]
  rfl

/-- The loop of `ST7789_DrawLine` entered with ordered major coordinates
`a0 < a1 <= 32767`: it leaves, and what it has done is the reference
sequence of `ST7789_DrawPixel` calls. -/
theorem DrawLine_loop_ordered (p : Panel) (c : Nat) (steep : Bool) (a0 b0 a1 b1 : Nat) (s : Bus)
    (h01 : a0 < a1) (ha1 : a1 ≤ 32767) (hb0 : b0 ≤ 65535) (hb1 : b1 ≤ 65535)
    (hdy : Int.natAbs ((b1 : Int) - b0) ≤ a1 - a0) :
    DrawLine_loop p steep a1 (i16 ((a1 : Int) - a0)) (i16 (ABS ((b1 : Int) - b0)))
        (if b0 < b1 then 1 else -1) c 65536 a0 b0
        (i16 (Int.tdiv (i16 ((a1 : Int) - a0)) 2)) s =
      some (drawPixels p c
        (bresenhamPoints steep a0 b0 b1 (a1 - a0) (Int.natAbs ((b1 : Int) - b0))) s) := by
  generalize hdxe : a1 - a0 = dx at hdy ⊢
  generalize hdye : Int.natAbs ((b1 : Int) - b0) = dy at hdy ⊢
  have hdx1 : 1 ≤ dx := by omega
  have e1 : i16 ((a1 : Int) - a0) = (dx : Int) := by
    rw [i16_of_range _ (by omega) (by omega)]; omega
  have e2 : i16 (ABS ((b1 : Int) - b0)) = (dy : Int) := by
    rw [ABS_eq_natAbs, hdye, i16_of_range _ (by omega) (by omega)]
  have e3 : i16 (Int.tdiv (dx : Int) 2) = ((dx / 2 : Nat) : Int) := by
    rw [Int.tdiv_eq_ediv (by omega) (by omega), i16_of_range _ (by omega) (by omega)]
    omega
  have key := DrawLine_loop_bresenham p c steep a0 b0 a1 dx dy (if b0 < b1 then 1 else -1)
    hdx1 (by omega) hdy (by omega) (by omega) (dx + 1) 0 65536 s (by omega) (by omega)
  have hy0 : u16 ((b0 : Int) + (if b0 < b1 then (1 : Int) else -1) *
      ((bresenhamSteps dx dy 0 : Nat) : Int)) = b0 := by
    rw [bresenhamSteps_zero dx dy hdx1]
    unfold u16
    split <;> omega
  have he0 : (((dx - 1 - (0 * dy + dx - 1 - dx / 2) % dx : Nat)) : Int) = ((dx / 2 : Nat) : Int) := by
    rw [Nat.zero_mul, Nat.zero_add, Nat.mod_eq_of_lt (by omega)]
    omega
  rw [hy0, he0, Nat.add_zero] at key
  rw [e1, e2, e3, key]
  refine congrArg some (congrArg (fun l => drawPixels p c l s) ?_)
  unfold bresenhamPoints
  apply List.map_congr_left
  intro j hj
  have hj2 : j ≤ dx := by have := List.mem_range.mp hj; omega
  have hS := bresenhamSteps_le dx dy j hdx1 hj2
  rw [Nat.zero_add]
  refine congrArg (linePoint steep (a0 + j)) ?_
  generalize bresenhamSteps dx dy j = S at hS
  unfold u16
  by_cases hlt : b0 < b1
  · simp only [hlt, if_true]
    omega
  · simp only [hlt, if_false]
    omega

/-- The general case of `ST7789_DrawLine` for endpoints with coordinates up
to 32767 that differ in both coordinates: the loop leaves, and the calls made
are those of the reference sequence. -/
theorem DrawLine_general_eq (p : Panel) (x0 y0 x1 y1 c : Nat) (s : Bus)
    (hx0 : x0 ≤ 32767) (hy0 : y0 ≤ 32767) (hx1 : x1 ≤ 32767) (hy1 : y1 ≤ 32767)
    (hx : x0 ≠ x1) :
    DrawLine_general p x0 y0 x1 y1 c s =
      some (drawPixels p c (bresenhamLine x0 y0 x1 y1) s) := by
  unfold DrawLine_general bresenhamLine bresenhamOrdered
  by_cases hst : ABS ((y1 : Int) - y0) > ABS ((x1 : Int) - x0)
  · have hst2 : Int.natAbs ((y1 : Int) - y0) > Int.natAbs ((x1 : Int) - x0) := by
      rw [ABS_eq_natAbs, ABS_eq_natAbs] at hst; omega
    simp only [hst, hst2, decide_True, if_true]
    by_cases h : y0 < y1
    · have hgt : ¬ (y0 > y1) := by omega
      simp only [hgt, if_false, h, if_true]
      exact DrawLine_loop_ordered p c true y0 x0 y1 x1 s h hy1 (by omega) (by omega) (by omega)
    · have hgt : y0 > y1 := by omega
      simp only [hgt, if_true, h, if_false]
      exact DrawLine_loop_ordered p c true y1 x1 y0 x0 s hgt hy0 (by omega) (by omega) (by omega)
  · have hst2 : ¬ (Int.natAbs ((y1 : Int) - y0) > Int.natAbs ((x1 : Int) - x0)) := by
      rw [ABS_eq_natAbs, ABS_eq_natAbs] at hst; omega
    simp only [hst, hst2, decide_False, Bool.false_eq_true, if_false]
    by_cases h : x0 < x1
    · have hgt : ¬ (x0 > x1) := by omega
      simp only [hgt, if_false, h, if_true]
      exact DrawLine_loop_ordered p c false x0 y0 x1 y1 s h hx1 (by omega) (by omega) (by omega)
    · have hgt : x0 > x1 := by omega
      simp only [hgt, if_true, h, if_false]
      exact DrawLine_loop_ordered p c false x1 y1 x0 y0 s hgt hx0 (by omega) (by omega) (by omega)

theorem bresenhamPoints_bounds (steep : Bool) (a0 b0 a1 b1 : Nat) (h : a0 < a1) :
    ∀ q ∈ bresenhamPoints steep a0 b0 b1 (a1 - a0) (Int.natAbs ((b1 : Int) - b0)),
      ∃ a b, q = linePoint steep a b ∧ a ≤ a1 ∧ b ≤ max b0 b1 := by
  intro q hq
  unfold bresenhamPoints at hq
  obtain ⟨k, hk, rfl⟩ := List.mem_map.mp hq
  have hk2 := List.mem_range.mp hk
  have hS := bresenhamSteps_le (a1 - a0) (Int.natAbs ((b1 : Int) - b0)) k (by omega) (by omega)
  generalize bresenhamSteps (a1 - a0) (Int.natAbs ((b1 : Int) - b0)) k = S at hS
  refine ⟨_, _, rfl, by omega, ?_⟩
  split <;> omega

/-- Every point of the reference sequence lies in the bounding box of the two
endpoints. -/
theorem bresenhamLine_bounds (x0 y0 x1 y1 : Nat) (hy : y0 ≠ y1) :
    ∀ q ∈ bresenhamLine x0 y0 x1 y1, q.1 ≤ max x0 x1 ∧ q.2 ≤ max y0 y1 := by
  intro q hq
  unfold bresenhamLine bresenhamOrdered at hq
  by_cases hst : Int.natAbs ((y1 : Int) - y0) > Int.natAbs ((x1 : Int) - x0)
  · simp only [hst, if_true] at hq
    by_cases h : y0 < y1
    · simp only [h, if_true] at hq
      obtain ⟨a, b, rfl, ha, hb⟩ := bresenhamPoints_bounds true y0 x0 y1 x1 h q hq
      simp only [linePoint, if_true]
      omega
    · simp only [h, if_false] at hq
      obtain ⟨a, b, rfl, ha, hb⟩ := bresenhamPoints_bounds true y1 x1 y0 x0 (by omega) q hq
      simp only [linePoint, if_true]
      omega
  · simp only [hst, if_false] at hq
    by_cases h : x0 < x1
    · simp only [h, if_true] at hq
      obtain ⟨a, b, rfl, ha, hb⟩ := bresenhamPoints_bounds false x0 y0 x1 y1 h q hq
      simp only [linePoint, Bool.false_eq_true, if_false]
      omega
    · simp only [h, if_false] at hq
      obtain ⟨a, b, rfl, ha, hb⟩ := bresenhamPoints_bounds false x1 y1 x0 y0 (by omega) q hq
      simp only [linePoint, Bool.false_eq_true, if_false]
      omega

theorem bresenhamPoints_length (steep : Bool) (a0 b0 b1 dx dy : Nat) :
    (bresenhamPoints steep a0 b0 b1 dx dy).length = dx + 1 := by
  unfold bresenhamPoints
  rw [List.length_map, List.length_range]

theorem bresenhamPoints_head (steep : Bool) (a0 b0 b1 dx dy : Nat) (hdx : 1 ≤ dx) :
    (bresenhamPoints steep a0 b0 b1 dx dy).head? = some (linePoint steep a0 b0) := by
  unfold bresenhamPoints
  rw [List.range_succ_eq_map, List.map_cons, List.head?_cons, bresenhamSteps_zero dx dy hdx]
  simp only [Nat.add_zero, Nat.sub_zero, ite_self]

theorem bresenhamPoints_last (steep : Bool) (a0 b0 a1 b1 : Nat) (h : a0 < a1) :
    (bresenhamPoints steep a0 b0 b1 (a1 - a0) (Int.natAbs ((b1 : Int) - b0))).getLast? =
      some (linePoint steep a1 b1) := by
  unfold bresenhamPoints
  rw [List.range_succ, List.map_append, List.map_singleton, List.getLast?_append,
    List.getLast?_singleton, bresenhamSteps_last (a1 - a0) _ (by omega)]
  show some _ = some _
  refine congrArg some ?_
  have e : a0 + (a1 - a0) = a1 := by omega
  rw [e]
  refine congrArg (linePoint steep a1) ?_
  split <;> omega

/-! ### Lines that return, and the edge walk of the filled triangle -/

theorem DrawLine_returns (p : Panel) (hw : p.WIDTH ≤ 32768) (hh : p.HEIGHT ≤ 32768)
    (x0 y0 x1 y1 c : Nat) (s : Bus) (h8 : s.is16 = false) (hc : c < 65536)
    (hx0 : x0 < p.WIDTH) (hx1 : x1 < p.WIDTH) (hy0 : y0 < p.HEIGHT) (hy1 : y1 < p.HEIGHT) :
    ∃ s1, ST7789_DrawLine p x0 y0 x1 y1 c s = some s1 ∧ s1.is16 = false := by
  have key : ∃ s1, ST7789_DrawLine p x0 y0 x1 y1 c s = some s1 := by
    by_cases hx : x0 = x1
    · subst hx
      rw [DrawLine_vertical_eq]
      have hpix : u16 (((x0 : Int) - x0 + 1) * (((max y0 y1 : Nat) : Int) - (min y0 y1 : Nat) + 1)) ≠ 0 := by
        unfold u16
        omega
      obtain ⟨s1, h1, -⟩ := Fill_spec p x0 (min y0 y1) x0 (max y0 y1) c s hx0 (by omega) h8 hc hpix
      exact ⟨s1, h1⟩
    · by_cases hy : y0 = y1
      · subst hy
        rw [DrawLine_horizontal_eq]
        have hpix : u16 ((((max x0 x1 : Nat) : Int) - (min x0 x1 : Nat) + 1) * ((y0 : Int) - y0 + 1)) ≠ 0 := by
          unfold u16
          omega
        obtain ⟨s1, h1, -⟩ := Fill_spec p (min x0 x1) y0 (max x0 x1) y0 c s (by omega) hy0 h8 hc hpix
        exact ⟨s1, h1⟩
      · unfold ST7789_DrawLine
        rw [if_neg hx, if_neg hy]
        exact ⟨_, DrawLine_general_eq p x0 y0 x1 y1 c s (by omega) (by omega) (by omega)
          (by omega) hx⟩
  obtain ⟨s1, h1⟩ := key
  exact ⟨s1, h1, DrawLine_is16 _ _ _ _ _ _ _ _ h8 h1⟩

theorem drawLinesTo_returns (p : Panel) (hw : p.WIDTH ≤ 32768) (hh : p.HEIGHT ≤ 32768)
    (x3 y3 c : Nat) (hc : c < 65536) (hx3 : x3 < p.WIDTH) (hy3 : y3 < p.HEIGHT)
    (starts : List (Nat × Nat)) (hin : ∀ q ∈ starts, q.1 < p.WIDTH ∧ q.2 < p.HEIGHT)
    (s : Bus) (h8 : s.is16 = false) :
    ∃ s1, drawLinesTo p x3 y3 c starts s = some s1 ∧ s1.is16 = false := by
  induction starts generalizing s with
  | nil => exact ⟨s, rfl, h8⟩
  | cons q t ih =>
    obtain ⟨hq1, hq2⟩ := hin q (List.mem_cons_self _ _)
    obtain ⟨s1, h1, h2⟩ := DrawLine_returns p hw hh q.1 q.2 x3 y3 c s h8 hc hq1 hx3 hq2 hy3
    obtain ⟨s2, h3, h4⟩ := ih (fun r hr => hin r (List.mem_cons_of_mem _ hr)) s1 h2
    refine ⟨s2, ?_, h4⟩
    rw [drawLinesTo, h1]
    exact h3

theorem walk_coord_carry (X a a2 : Nat) (sx i1 i2 : Int) (hX : X ≤ 16383) (ha : a ≤ 16383)
    (hsx : sx = 1 ∨ sx = -1) (h : sx * (a2 : Int) = sx * (a : Int) + i1 + i2)
    (hi1 : -1 ≤ i1 ∧ i1 ≤ 1) (hi2 : -1 ≤ i2 ∧ i2 ≤ 1) (h0 : i1 = 0 ∨ i2 = 0) :
    i16 (i16 ((X : Int) + sx * (a : Int) + i1) + i2) = (X : Int) + sx * (a2 : Int) := by
  rw [h]
  rcases hsx with rfl | rfl
  · simp only [Int.one_mul]
    have e1 : i16 ((X : Int) + (a : Int) + i1) = (X : Int) + (a : Int) + i1 :=
      i16_of_range _ (by omega) (by omega)
    rw [e1, i16_of_range _ (by omega) (by omega)]
    omega
  · simp only [Int.neg_mul, Int.one_mul]
    have e1 : i16 ((X : Int) + -(a : Int) + i1) = (X : Int) + -(a : Int) + i1 :=
      i16_of_range _ (by omega) (by omega)
    rw [e1, i16_of_range _ (by omega) (by omega)]
    omega

theorem walk_coord_plain (X a a2 : Nat) (sx i2 : Int) (hX : X ≤ 16383) (ha : a ≤ 16383)
    (hsx : sx = 1 ∨ sx = -1) (h : sx * (a2 : Int) = sx * (a : Int) + i2)
    (hi2 : -1 ≤ i2 ∧ i2 ≤ 1) :
    i16 ((X : Int) + sx * (a : Int) + i2) = (X : Int) + sx * (a2 : Int) := by
  rw [h]
  rcases hsx with rfl | rfl
  · simp only [Int.one_mul]
    rw [i16_of_range _ (by omega) (by omega)]
    omega
  · simp only [Int.neg_mul, Int.one_mul]
    rw [i16_of_range _ (by omega) (by omega)]
    omega

theorem walkCarry_le_index (den numadd k : Nat) (hden : 1 ≤ den) (hna : numadd ≤ den) :
    walkCarry den numadd k ≤ k := by
  unfold walkCarry
  have h1 : k * numadd ≤ k * den := Nat.mul_le_mul_left k hna
  have h2 : den / 2 + k * numadd < (k + 1) * den := by
    rw [Nat.add_mul, Nat.one_mul]
    omega
  have := (Nat.div_lt_iff_lt_mul (by omega : 0 < den)).2 h2
  omega

theorem walkCarry_le (den numadd k : Nat) (hden : 1 ≤ den) (hk : k ≤ den) :
    walkCarry den numadd k ≤ numadd := by
  unfold walkCarry
  have h1 : k * numadd ≤ den * numadd := Nat.mul_le_mul_right numadd hk
  have h2 : den / 2 + k * numadd < (numadd + 1) * den := by
    rw [Nat.add_mul, Nat.one_mul, Nat.mul_comm numadd den]
    omega
  have := (Nat.div_lt_iff_lt_mul (by omega : 0 < den)).2 h2
  omega

theorem walkCarry_zero (den numadd : Nat) : walkCarry den numadd 0 = 0 := by
  unfold walkCarry
  rw [Nat.zero_mul, Nat.add_zero]
  by_cases h : den = 0
  · subst h; rfl
  · exact Nat.div_eq_of_lt (by omega)

theorem walkCarry_last (den numadd : Nat) (hden : 1 ≤ den) : walkCarry den numadd den = numadd := by
  unfold walkCarry
  rw [Nat.add_comm, Nat.mul_add_div (by omega : den > 0), Nat.div_eq_of_lt (by omega)]
  rfl

/-- The loop of `ST7789_DrawFilledTriangle` from round k on: the walking
point moves by `sx`, `sy` along the major axis every round and along the
other axis whenever `num >= den`; `xm` tells that x is the major axis. -/
theorem DrawFilledTriangle_loop_walk (p : Panel) (x3 y3 c : Nat) (xm : Bool) (sx sy : Int)
    (hsx : sx = 1 ∨ sx = -1) (hsy : sy = 1 ∨ sy = -1) (den numadd X Y : Nat)
    (hden1 : 1 ≤ den) (hden : den ≤ 16383) (hna : numadd ≤ den)
    (hX : X ≤ 16383) (hY : Y ≤ 16383) :
    ∀ (m k fuel : Nat) (s : Bus), k + m = den + 1 → m < fuel →
      DrawFilledTriangle_loop p x3 y3 c (if xm then 0 else sx) (if xm then sx else 0)
          (if xm then sy else 0) (if xm then 0 else sy) den numadd den fuel k
          ((X : Int) + sx * ((if xm then k else walkCarry den numadd k : Nat) : Int))
          ((Y : Int) + sy * ((if xm then walkCarry den numadd k else k : Nat) : Int))
          (((den / 2 + k * numadd) % den : Nat) : Int) s =
        drawLinesTo p x3 y3 c ((List.range m).map (fun j =>
          (u16 ((X : Int) + sx *
              ((if xm then k + j else walkCarry den numadd (k + j) : Nat) : Int)),
           u16 ((Y : Int) + sy *
              ((if xm then walkCarry den numadd (k + j) else k + j : Nat) : Int))))) s := by
  intro m
  induction m with
  | zero =>
    intro k fuel s hk hf
    obtain ⟨f, rfl⟩ : ∃ f, fuel = f + 1 := ⟨fuel - 1, by omega⟩
    have hgt : ¬ ((k : Int) ≤ (den : Int)) := by omega
    simp [DrawFilledTriangle_loop, hgt, drawLinesTo]
  | succ m ih =>
    intro k fuel s hk hf
    obtain ⟨f, rfl⟩ : ∃ f, fuel = f + 1 := ⟨fuel - 1, by omega⟩
    have hle : (k : Int) ≤ (den : Int) := by omega
    have hden0 : 0 < den := by omega
    have hC : walkCarry den numadd k = (den / 2 + k * numadd) / den := rfl
    have hC1 : walkCarry den numadd (k + 1) = (den / 2 + (k + 1) * numadd) / den := rfl
    have hN1 : den / 2 + (k + 1) * numadd = den / 2 + k * numadd + numadd := by
      rw [Nat.add_mul, Nat.one_mul]
      omega
    have hCk := walkCarry_le_index den numadd k hden1 hna
    have hlist : (List.range (m + 1)).map (fun j =>
          (u16 ((X : Int) + sx *
              ((if xm then k + j else walkCarry den numadd (k + j) : Nat) : Int)),
           u16 ((Y : Int) + sy *
              ((if xm then walkCarry den numadd (k + j) else k + j : Nat) : Int)))) =
        (u16 ((X : Int) + sx * ((if xm then k else walkCarry den numadd k : Nat) : Int)),
         u16 ((Y : Int) + sy * ((if xm then walkCarry den numadd k else k : Nat) : Int))) ::
        (List.range m).map (fun j =>
          (u16 ((X : Int) + sx *
              ((if xm then k + 1 + j else walkCarry den numadd (k + 1 + j) : Nat) : Int)),
           u16 ((Y : Int) + sy *
              ((if xm then walkCarry den numadd (k + 1 + j) else k + 1 + j : Nat) : Int)))) := by
      rw [List.range_succ_eq_map, List.map_cons, List.map_map]
      refine congrArg₂ List.cons rfl ?_
      apply List.map_congr_left
      intro j _
      have e : k + (j + 1) = k + 1 + j := by omega
      simp only [Function.comp, Nat.succ_eq_add_one, e]
    rw [hlist, drawLinesTo, DrawFilledTriangle_loop]
    simp only [hle, if_true]
    refine congrArg (Option.bind _) (funext fun s1 => ?_)
    rw [← ih (k + 1) f s1 (by omega) (by omega)]
    have hk1 : i16 ((k : Int) + 1) = ((k + 1 : Nat) : Int) := by
      rw [i16_of_range _ (by omega) (by omega)]; rfl
    rw [hC1, hN1, hC, hk1]
    generalize den / 2 + k * numadd = N at hCk hC
    have hr := Nat.mod_lt N hden0
    obtain ⟨c1, c2⟩ := add_div_mod_small N numadd den hden0 hna
    have hnum1 : i16 (((N % den : Nat) : Int) + (numadd : Int)) =
        ((N % den : Nat) : Int) + (numadd : Int) := i16_of_range _ (by omega) (by omega)
    rw [hnum1]
    by_cases hcarry : ((N % den : Nat) : Int) + (numadd : Int) ≥ (den : Int)
    · have hcase : ¬ (N % den + numadd < den) := by omega
      obtain ⟨d1, d2⟩ := c2 hcase
      have hnum2 : i16 (((N % den : Nat) : Int) + (numadd : Int) - (den : Int)) =
          (((N + numadd) % den : Nat) : Int) := by
        rw [i16_of_range _ (by omega) (by omega), d2]
        omega
      simp only [hcarry, if_true, hnum2, d1]
      cases xm
      · simp only [Bool.false_eq_true, if_false]
        rw [walk_coord_carry X (N / den) (N / den + 1) sx sx 0 hX (by omega) hsx
            (by push_cast; ring) (by omega) (by omega) (by omega),
          walk_coord_carry Y k (k + 1) sy 0 sy hY (by omega) hsy
            (by push_cast; ring) (by omega) (by omega) (by omega)]
      · simp only [if_true]
        rw [walk_coord_carry X k (k + 1) sx 0 sx hX (by omega) hsx
            (by push_cast; ring) (by omega) (by omega) (by omega),
          walk_coord_carry Y (N / den) (N / den + 1) sy sy 0 hY (by omega) hsy
            (by push_cast; ring) (by omega) (by omega) (by omega)]
    · have hcase : N % den + numadd < den := by omega
      obtain ⟨d1, d2⟩ := c1 hcase
      have hnum2 : ((N % den : Nat) : Int) + (numadd : Int) =
          (((N + numadd) % den : Nat) : Int) := by
        rw [d2]
        omega
      have hcarry2 : ¬ ((((N + numadd) % den : Nat) : Int) ≥ (den : Int)) := by omega
      simp only [hnum2, hcarry2, if_false, d1]
      cases xm
      · simp only [Bool.false_eq_true, if_false]
        rw [walk_coord_plain X (N / den) (N / den) sx 0 hX (by omega) hsx
            (by ring) (by omega),
          walk_coord_plain Y k (k + 1) sy sy hY (by omega) hsy
            (by push_cast; ring) (by omega)]
      · simp only [if_true]
        rw [walk_coord_plain X k (k + 1) sx sx hX (by omega) hsx
            (by push_cast; ring) (by omega),
          walk_coord_plain Y (N / den) (N / den) sy 0 hY (by omega) hsy
            (by ring) (by omega)]

theorem DrawFilledTriangle_loop_point (p : Panel) (x3 y3 c : Nat)
    (xinc1 xinc2 yinc1 yinc2 : Int) (fuel X Y : Nat) (hf : 2 ≤ fuel)
    (hX : X ≤ 65535) (hY : Y ≤ 65535) (s : Bus) :
    DrawFilledTriangle_loop p x3 y3 c xinc1 xinc2 yinc1 yinc2 0 0 0 fuel 0 X Y 0 s =
      drawLinesTo p x3 y3 c [(X, Y)] s := by
  obtain ⟨f, rfl⟩ : ∃ f, fuel = f + 2 := ⟨fuel - 2, by omega⟩
  have hu1 : u16 (X : Int) = X := by unfold u16; omega
  have hu2 : u16 (Y : Int) = Y := by unfold u16; omega
  have h1 : i16 ((0 : Int) + 1) = 1 := by decide
  have hgt : ¬ ((1 : Int) ≤ 0) := by decide
  rw [DrawFilledTriangle_loop, drawLinesTo]
  simp only [le_refl, if_true, hu1, hu2, h1]
  refine congrArg (Option.bind _) (funext fun s1 => ?_)
  rw [DrawFilledTriangle_loop, if_neg hgt]
  rfl

theorem DrawFilledTriangle_walk (p : Panel) (x1 y1 x2 y2 x3 y3 c : Nat) (s : Bus)
    (hx1 : x1 ≤ 16383) (hy1 : y1 ≤ 16383) (hx2 : x2 ≤ 16383) (hy2 : y2 ≤ 16383) :
    ST7789_DrawFilledTriangle p x1 y1 x2 y2 x3 y3 c s =
      drawLinesTo p x3 y3 c (walkStarts x1 y1 x2 y2) s := by
  unfold ST7789_DrawFilledTriangle walkStarts
  have e1 : i16 (ABS ((x2 : Int) - x1)) = ((Int.natAbs ((x2 : Int) - x1) : Nat) : Int) := by
    rw [ABS_eq_natAbs, i16_of_range _ (by omega) (by omega)]
  have e2 : i16 (ABS ((y2 : Int) - y1)) = ((Int.natAbs ((y2 : Int) - y1) : Nat) : Int) := by
    rw [ABS_eq_natAbs, i16_of_range _ (by omega) (by omega)]
  have e3 : i16 (x1 : Int) = (x1 : Int) := i16_of_range _ (by omega) (by omega)
  have e4 : i16 (y1 : Int) = (y1 : Int) := i16_of_range _ (by omega) (by omega)
  have hsx : (if x2 ≥ x1 then (1 : Int) else -1) = 1 ∨ (if x2 ≥ x1 then (1 : Int) else -1) = -1 := by
    split
    · exact Or.inl rfl
    · exact Or.inr rfl
  have hsy : (if y2 ≥ y1 then (1 : Int) else -1) = 1 ∨ (if y2 ≥ y1 then (1 : Int) else -1) = -1 := by
    split
    · exact Or.inl rfl
    · exact Or.inr rfl
  simp only [e1, e2, e3, e4]
  generalize hdx : Int.natAbs ((x2 : Int) - x1) = dx
  generalize hdy : Int.natAbs ((y2 : Int) - y1) = dy
  have e5 : ∀ d : Nat, d ≤ 16383 → i16 (Int.tdiv (d : Int) 2) = ((d / 2 : Nat) : Int) := by
    intro d hd
    rw [Int.tdiv_eq_ediv (by omega) (by omega), i16_of_range _ (by omega) (by omega)]
    omega
  have hconv : ∀ (a b k : Nat), a ≤ 16383 → b ≤ 16383 → k ≤ Int.natAbs ((b : Int) - a) →
      u16 ((a : Int) + (if b ≥ a then (1 : Int) else -1) * (k : Int)) =
        (if a ≤ b then a + k else a - k) := by
    intro a b k ha hb hk
    unfold u16
    by_cases h : a ≤ b
    · have h2 : b ≥ a := h
      simp only [h, h2, if_true]
      omega
    · have h2 : ¬ (b ≥ a) := h
      simp only [h, h2, if_false]
      omega
  by_cases hge : dx ≥ dy
  · have hge2 : (dx : Int) ≥ (dy : Int) := by omega
    simp only [hge2, hge, if_true, max_eq_left hge, e5 dx (by omega)]
    by_cases hz : dx = 0
    · have hz2 : dy = 0 := by omega
      subst hz
      subst hz2
      have hpt := DrawFilledTriangle_loop_point p x3 y3 c 0 (if x2 ≥ x1 then 1 else -1)
        (if y2 ≥ y1 then 1 else -1) 0 32768 x1 y1 (by omega) (by omega) (by omega) s
      simp only [Nat.cast_zero, Nat.zero_div]
      rw [hpt]
      refine congrArg (fun l => drawLinesTo p x3 y3 c l s) ?_
      simp [List.range_succ]
    · have key := DrawFilledTriangle_loop_walk p x3 y3 c true
        (if x2 ≥ x1 then 1 else -1) (if y2 ≥ y1 then 1 else -1) hsx hsy dx dy x1 y1
        (by omega) (by omega) hge hx1 hy1 (dx + 1) 0 32768 s (by omega) (by omega)
      simp only [if_true, Nat.cast_zero, Int.mul_zero, Int.add_zero, Nat.zero_mul, Nat.add_zero,
        walkCarry_zero, Nat.zero_add, Nat.mod_eq_of_lt (by omega : dx / 2 < dx)] at key
      rw [key]
      refine congrArg (fun l => drawLinesTo p x3 y3 c l s) ?_
      apply List.map_congr_left
      intro j hj
      have hj2 := List.mem_range.mp hj
      have hC := walkCarry_le dx dy j (by omega) (by omega)
      have hCdef : (dx / 2 + j * dy) / dx = walkCarry dx dy j := rfl
      rw [hCdef, hconv x1 x2 j hx1 hx2 (by omega),
        hconv y1 y2 (walkCarry dx dy j) hy1 hy2 (by omega)]
  · have hge2 : ¬ ((dx : Int) ≥ (dy : Int)) := by omega
    simp only [hge2, hge, if_false, max_eq_right (by omega : dx ≤ dy), e5 dy (by omega)]
    have key := DrawFilledTriangle_loop_walk p x3 y3 c false
      (if x2 ≥ x1 then 1 else -1) (if y2 ≥ y1 then 1 else -1) hsx hsy dy dx x1 y1
      (by omega) (by omega) (by omega) hx1 hy1 (dy + 1) 0 32768 s (by omega) (by omega)
    simp only [Bool.false_eq_true, if_false, Nat.cast_zero, Int.mul_zero, Int.add_zero,
      Nat.zero_mul, Nat.add_zero, walkCarry_zero, Nat.zero_add,
      Nat.mod_eq_of_lt (by omega : dy / 2 < dy)] at key
    rw [key]
    refine congrArg (fun l => drawLinesTo p x3 y3 c l s) ?_
    apply List.map_congr_left
    intro j hj
    have hj2 := List.mem_range.mp hj
    have hC := walkCarry_le dy dx j (by omega) (by omega)
    have hCdef : (dy / 2 + j * dx) / dy = walkCarry dy dx j := rfl
    rw [hCdef, hconv x1 x2 (walkCarry dy dx j) hx1 hx2 (by omega),
      hconv y1 y2 j hy1 hy2 (by omega)]

theorem walkStarts_point (x1 y1 x2 y2 k : Nat)
    (hk : k ≤ max (Int.natAbs ((x2 : Int) - x1)) (Int.natAbs ((y2 : Int) - y1))) :
    ∃ a b : Nat,
      (if Int.natAbs ((x2 : Int) - x1) ≥ Int.natAbs ((y2 : Int) - y1) then
          (if x1 ≤ x2 then x1 + k else x1 - k)
        else (if x1 ≤ x2 then
            x1 + (Int.natAbs ((y2 : Int) - y1) / 2 + k * Int.natAbs ((x2 : Int) - x1)) /
              Int.natAbs ((y2 : Int) - y1)
          else x1 - (Int.natAbs ((y2 : Int) - y1) / 2 + k * Int.natAbs ((x2 : Int) - x1)) /
              Int.natAbs ((y2 : Int) - y1)),
       if Int.natAbs ((x2 : Int) - x1) ≥ Int.natAbs ((y2 : Int) - y1) then
          (if y1 ≤ y2 then
            y1 + (Int.natAbs ((x2 : Int) - x1) / 2 + k * Int.natAbs ((y2 : Int) - y1)) /
              Int.natAbs ((x2 : Int) - x1)
          else y1 - (Int.natAbs ((x2 : Int) - x1) / 2 + k * Int.natAbs ((y2 : Int) - y1)) /
              Int.natAbs ((x2 : Int) - x1))
        else (if y1 ≤ y2 then y1 + k else y1 - k)) =
        ((if x1 ≤ x2 then x1 + a else x1 - a), (if y1 ≤ y2 then y1 + b else y1 - b)) ∧
      a ≤ Int.natAbs ((x2 : Int) - x1) ∧ b ≤ Int.natAbs ((y2 : Int) - y1) ∧
      (k = 0 → a = 0 ∧ b = 0) ∧
      (k = max (Int.natAbs ((x2 : Int) - x1)) (Int.natAbs ((y2 : Int) - y1)) →
        a = Int.natAbs ((x2 : Int) - x1) ∧ b = Int.natAbs ((y2 : Int) - y1)) := by
  generalize Int.natAbs ((x2 : Int) - x1) = dx at hk ⊢
  generalize Int.natAbs ((y2 : Int) - y1) = dy at hk ⊢
  by_cases hge : dx ≥ dy
  · rw [max_eq_left hge] at hk ⊢
    simp only [hge, if_true]
    refine ⟨k, walkCarry dx dy k, rfl, hk, ?_, ?_, ?_⟩
    · by_cases hz : dx = 0
      · subst hz
        have : dy = 0 := by omega
        subst this
        have : k = 0 := by omega
        subst this
        rfl
      · exact walkCarry_le dx dy k (by omega) hk
    · intro h0
      subst h0
      exact ⟨rfl, walkCarry_zero dx dy⟩
    · intro hl
      subst hl
      refine ⟨rfl, ?_⟩
      by_cases hz : k = 0
      · subst hz
        rw [walkCarry_zero]
        omega
      · exact walkCarry_last k dy (by omega)
  · have hle : dx ≤ dy := by omega
    rw [max_eq_right hle] at hk ⊢
    simp only [hge, if_false]
    refine ⟨walkCarry dy dx k, k, rfl, walkCarry_le dy dx k (by omega) hk, hk, ?_, ?_⟩
    · intro h0
      subst h0
      exact ⟨walkCarry_zero dy dx, rfl⟩
    · intro hl
      subst hl
      exact ⟨walkCarry_last k dx (by omega), rfl⟩

theorem walkStarts_bounds (x1 y1 x2 y2 : Nat) :
    ∀ q ∈ walkStarts x1 y1 x2 y2, q.1 ≤ max x1 x2 ∧ q.2 ≤ max y1 y2 := by
  intro q hq
  unfold walkStarts at hq
  obtain ⟨k, hk, rfl⟩ := List.mem_map.mp hq
  have hk2 := List.mem_range.mp hk
  obtain ⟨a, b, e, ha, hb, -, -⟩ := walkStarts_point x1 y1 x2 y2 k (by omega)
  rw [e]
  constructor
  · show (if x1 ≤ x2 then x1 + a else x1 - a) ≤ max x1 x2
    split <;> omega
  · show (if y1 ≤ y2 then y1 + b else y1 - b) ≤ max y1 y2
    split <;> omega

theorem walkStarts_length (x1 y1 x2 y2 : Nat) :
    (walkStarts x1 y1 x2 y2).length =
      max (Int.natAbs ((x2 : Int) - x1)) (Int.natAbs ((y2 : Int) - y1)) + 1 := by
  unfold walkStarts
  simp only [List.length_map, List.length_range]

theorem walkStarts_head (x1 y1 x2 y2 : Nat) :
    (walkStarts x1 y1 x2 y2).head? = some (x1, y1) := by
  unfold walkStarts
  obtain ⟨a, b, e, -, -, h0, -⟩ := walkStarts_point x1 y1 x2 y2 0 (by omega)
  obtain ⟨ha, hb⟩ := h0 rfl
  subst ha
  subst hb
  simp only [List.range_succ_eq_map, List.map_cons, List.head?_cons]
  rw [e]
  simp only [Nat.add_zero, Nat.sub_zero, ite_self]

theorem walkStarts_last (x1 y1 x2 y2 : Nat) :
    (walkStarts x1 y1 x2 y2).getLast? = some (x2, y2) := by
  unfold walkStarts
  obtain ⟨a, b, e, -, -, -, hl⟩ := walkStarts_point x1 y1 x2 y2 _ (le_refl _)
  obtain ⟨ha, hb⟩ := hl rfl
  simp only [List.range_succ, List.map_append, List.map_singleton, List.getLast?_append,
    List.getLast?_singleton]
  show some _ = some _
  rw [e]
  refine congrArg some (Prod.ext ?_ ?_)
  · show (if x1 ≤ x2 then x1 + a else x1 - a) = x2
    split <;> omega
  · show (if y1 ≤ y2 then y1 + b else y1 - b) = y2
    split <;> omega

/-! ### The circle outline -/

theorem CircleInv_init (r : Nat) (hr : r ≤ 255) : CircleInv r (DrawCircle_init r) := by
  unfold CircleInv DrawCircle_init
  rw [i16_of_range (1 - (r : Int)) (by omega) (by omega),
    i16_of_range (-2 * (r : Int)) (by omega) (by omega),
    i16_of_range (r : Int) (by omega) (by omega)]
  dsimp only
  refine ⟨by omega, by omega, by omega, by omega, by omega, by omega, by omega, by omega,
    fun _ => by omega, ?_⟩
  ring

theorem DrawCircle_step_eq (r : Nat) (hr : r ≤ 255) (v : CircleVars) (hv : CircleInv r v)
    (hlt : v.x < v.y) :
    DrawCircle_step v =
      ⟨(if v.f ≥ 0 then v.f + (v.ddF_y + 2) else v.f) + (v.ddF_x + 2), v.ddF_x + 2,
       (if v.f ≥ 0 then v.ddF_y + 2 else v.ddF_y), v.x + 1,
       (if v.f ≥ 0 then v.y - 1 else v.y)⟩ ∧ DrawCircle_step_fits v := by
  obtain ⟨h1, h2, h3, h4, h5, h6, h7, h8, h9, -⟩ := hv
  have a1 : i16 (v.y - 1) = v.y - 1 := i16_of_range _ (by omega) (by omega)
  have a2 : i16 (v.ddF_y + 2) = v.ddF_y + 2 := i16_of_range _ (by omega) (by omega)
  have a3 : i16 (v.f + (v.ddF_y + 2)) = v.f + (v.ddF_y + 2) :=
    i16_of_range _ (by omega) (by omega)
  have a4 : i16 (v.x + 1) = v.x + 1 := i16_of_range _ (by omega) (by omega)
  have a5 : i16 (v.ddF_x + 2) = v.ddF_x + 2 := i16_of_range _ (by omega) (by omega)
  have a6 : i16 ((if v.f ≥ 0 then v.f + (v.ddF_y + 2) else v.f) + (v.ddF_x + 2)) =
      (if v.f ≥ 0 then v.f + (v.ddF_y + 2) else v.f) + (v.ddF_x + 2) := by
    split <;> exact i16_of_range _ (by omega) (by omega)
  constructor
  · unfold DrawCircle_step
    by_cases hf : v.f ≥ 0
    · simp only [hf, if_true] at a6 ⊢
      simp only [a1, a2, a3, a4, a5, a6]
    · simp only [hf, if_false] at a6 ⊢
      simp only [a4, a5, a6]
  · unfold DrawCircle_step_fits fits16
    refine ⟨fun _ => by omega, by omega, by omega, ?_⟩
    split <;> omega

theorem CircleInv_step (r : Nat) (hr : r ≤ 255) (v : CircleVars) (hv : CircleInv r v)
    (hlt : v.x < v.y) : CircleInv r (DrawCircle_step v) := by
  rw [(DrawCircle_step_eq r hr v hv hlt).1]
  obtain ⟨h1, h2, h3, h4, h5, h6, h7, h8, h9, h10⟩ := hv
  have h9b := h9 hlt
  unfold CircleInv
  by_cases hf : v.f ≥ 0
  · simp only [hf, if_true]
    refine ⟨by omega, by omega, by omega, by omega, by omega, by omega, by omega, by omega,
      by omega, ?_⟩
    have e1 : (v.x + 1) * (v.x + 1) = v.x * v.x + 2 * v.x + 1 := by ring
    have e2 : (v.y - 1) * (v.y - 1) = v.y * v.y - 2 * v.y + 1 := by ring
    rw [e1, e2]
    omega
  · simp only [hf, if_false]
    refine ⟨by omega, by omega, by omega, by omega, by omega, by omega, by omega, by omega,
      by omega, ?_⟩
    have e1 : (v.x + 1) * (v.x + 1) = v.x * v.x + 2 * v.x + 1 := by ring
    rw [e1]
    omega

theorem CircleInv_fits (r : Nat) (hr : r ≤ 255) (v : CircleVars) (hv : CircleInv r v) :
    DrawCircle_step_fits v := by
  obtain ⟨h1, h2, h3, h4, h5, h6, h7, h8, -, -⟩ := hv
  unfold DrawCircle_step_fits fits16
  refine ⟨fun _ => by omega, by omega, by omega, ?_⟩
  split <;> omega

theorem DrawCircle_rounds_inv (r : Nat) (hr : r ≤ 255) :
    ∀ (fuel : Nat) (v : CircleVars), CircleInv r v →
      ∀ w ∈ DrawCircle_rounds fuel v, CircleInv r w := by
  intro fuel
  induction fuel with
  | zero => intro v _ w hw; simp [DrawCircle_rounds] at hw
  | succ k ih =>
    intro v hv w hw
    rw [DrawCircle_rounds] at hw
    by_cases hlt : v.x < v.y
    · rw [if_pos hlt] at hw
      have hs := CircleInv_step r hr v hv hlt
      rcases List.mem_cons.mp hw with h | h
      · rw [h]; exact hs
      · exact ih _ hs w h
    · rw [if_neg hlt] at hw
      simp at hw

theorem drawPixels_append (p : Panel) (c : Nat) (l1 l2 : List (Nat × Nat)) (s : Bus) :
    drawPixels p c (l1 ++ l2) s = drawPixels p c l2 (drawPixels p c l1 s) := by
  unfold drawPixels
  rw [List.foldl_append]

/-- The loop of `ST7789_DrawCircle` entered with variables that satisfy the
invariant: it leaves within `y - x` rounds and one last test, and the calls
made are eight `ST7789_DrawPixel` per round at the offsets of `eightOffsets`. -/
theorem DrawCircle_loop_rounds (p : Panel) (x0 y0 c r : Nat) (hr : r ≤ 255) :
    ∀ (fuel : Nat) (v : CircleVars) (s : Bus), CircleInv r v → (v.y - v.x).toNat < fuel →
      DrawCircle_loop p x0 y0 c fuel v.f v.ddF_x v.ddF_y v.x v.y s =
        some (drawPixels p c
          (((DrawCircle_rounds fuel v).flatMap (fun w => eightOffsets w.x w.y)).map
            (fun o => (u16 ((x0 : Int) + o.1), u16 ((y0 : Int) + o.2)))) s) := by
  intro fuel
  induction fuel with
  | zero => intro v s _ h; omega
  | succ k ih =>
    intro v s hv hm
    rw [DrawCircle_loop, DrawCircle_rounds]
    by_cases hlt : v.x < v.y
    · simp only [hlt, if_true]
      have hs := CircleInv_step r hr v hv hlt
      have he := (DrawCircle_step_eq r hr v hv hlt).1
      have hx : (DrawCircle_step v).x = v.x + 1 := by rw [he]
      have hy : (DrawCircle_step v).y ≤ v.y := by
        rw [he]
        dsimp only
        split <;> omega
      have ih' := ih (DrawCircle_step v)
        (drawPixels p c ((eightOffsets (DrawCircle_step v).x (DrawCircle_step v).y).map
          (fun o => (u16 ((x0 : Int) + o.1), u16 ((y0 : Int) + o.2)))) s) hs (by omega)
      rw [List.flatMap_cons, List.map_append, drawPixels_append, ← ih']
      rfl
    · simp only [hlt, if_false]
      rfl

theorem DrawCircle_eq_offsets (p : Panel) (x0 y0 r c : Nat) (s : Bus) (hr : r ≤ 255)
    (hx0 : x0 ≤ 65535) (hy0 : y0 ≤ 65535) :
    ST7789_DrawCircle p x0 y0 r c s =
      some (drawPixels p c
        ((circleOffsets r).map (fun o => (u16 ((x0 : Int) + o.1), u16 ((y0 : Int) + o.2)))) s) := by
  have hl := DrawCircle_loop_rounds p x0 y0 c r hr (r + 1) (DrawCircle_init r)
    (drawPixels p c
      ([(0, (r : Int)), (0, -(r : Int)), ((r : Int), 0), (-(r : Int), 0)].map
        (fun o => (u16 ((x0 : Int) + o.1), u16 ((y0 : Int) + o.2)))) s)
    (CircleInv_init r hr)
    (by
      unfold DrawCircle_init
      rw [i16_of_range (r : Int) (by omega) (by omega)]
      dsimp only
      omega)
  unfold circleOffsets
  rw [List.map_append, drawPixels_append, ← hl]
  have e1 : u16 ((x0 : Int) + 0) = x0 := by unfold u16; omega
  have e2 : u16 ((y0 : Int) + 0) = y0 := by unfold u16; omega
  simp only [List.map_cons, List.map_nil, drawPixels, List.foldl_cons, List.foldl_nil, e1, e2]
  rfl

theorem mem_eightOffsets (x y : Int) (o : Int × Int) :
    o ∈ eightOffsets x y ↔
      ((o.1 = x ∨ o.1 = -x) ∧ (o.2 = y ∨ o.2 = -y)) ∨
      ((o.1 = y ∨ o.1 = -y) ∧ (o.2 = x ∨ o.2 = -x)) := by
  obtain ⟨a, b⟩ := o
  simp only [eightOffsets, List.mem_cons, List.mem_singleton, List.mem_nil_iff, or_false,
    Prod.mk.injEq]
  constructor
  · rintro (⟨h1, h2⟩ | ⟨h1, h2⟩ | ⟨h1, h2⟩ | ⟨h1, h2⟩ | ⟨h1, h2⟩ | ⟨h1, h2⟩ | ⟨h1, h2⟩ |
      ⟨h1, h2⟩) <;> simp only [h1, h2, true_or, or_true, and_self]
  · rintro (⟨h1 | h1, h2 | h2⟩ | ⟨h1 | h1, h2 | h2⟩) <;>
      simp only [h1, h2, true_or, or_true, and_self]

theorem mem_circleOffsets (r : Nat) (o : Int × Int) :
    o ∈ circleOffsets r ↔
      o ∈ eightOffsets 0 r ∨
      ∃ w ∈ DrawCircle_rounds (r + 1) (DrawCircle_init r), o ∈ eightOffsets w.x w.y := by
  unfold circleOffsets
  rw [List.mem_append, List.mem_flatMap, mem_eightOffsets]
  refine or_congr ?_ Iff.rfl
  obtain ⟨a, b⟩ := o
  simp only [List.mem_cons, List.mem_singleton, List.mem_nil_iff, or_false, Prod.mk.injEq]
  constructor <;> intro h <;> omega

theorem circleOffsets_reflect (r : Nat) (dx dy ex ey : Int) (h : (dx, dy) ∈ circleOffsets r)
    (hrefl : ((ex = dx ∨ ex = -dx) ∧ (ey = dy ∨ ey = -dy)) ∨
      ((ex = dy ∨ ex = -dy) ∧ (ey = dx ∨ ey = -dx))) :
    (ex, ey) ∈ circleOffsets r := by
  rw [mem_circleOffsets] at h ⊢
  rcases h with h | ⟨w, hw, h⟩
  · left
    rw [mem_eightOffsets] at h ⊢
    dsimp only at h ⊢
    omega
  · right
    refine ⟨w, hw, ?_⟩
    rw [mem_eightOffsets] at h ⊢
    dsimp only at h ⊢
    omega

theorem circleOffsets_bound (r : Nat) (hr : r ≤ 255) (o : Int × Int) (h : o ∈ circleOffsets r) :
    -(r : Int) ≤ o.1 ∧ o.1 ≤ r ∧ -(r : Int) ≤ o.2 ∧ o.2 ≤ r := by
  rw [mem_circleOffsets] at h
  rcases h with h | ⟨w, hw, h⟩
  · rw [mem_eightOffsets] at h
    omega
  · obtain ⟨-, -, h3, h4, h5, h6, -, -, -, -⟩ :=
      DrawCircle_rounds_inv r hr (r + 1) (DrawCircle_init r) (CircleInv_init r hr) w hw
    rw [mem_eightOffsets] at h
    omega

theorem circleOffsets_error (r : Nat) (hr : r ≤ 255) (o : Int × Int) (h : o ∈ circleOffsets r) :
    Int.natAbs (o.1 * o.1 + o.2 * o.2 - (r : Int) * r) ≤ r := by
  rw [mem_circleOffsets] at h
  rcases h with h | ⟨w, hw, h⟩
  · rw [mem_eightOffsets] at h
    have e : o.1 * o.1 + o.2 * o.2 - (r : Int) * r = 0 := by
      rcases h with ⟨h1 | h1, h2 | h2⟩ | ⟨h1 | h1, h2 | h2⟩ <;> rw [h1, h2] <;> ring
    rw [e]
    exact Nat.zero_le r
  · obtain ⟨-, -, h3, h4, h5, h6, h7, h8, -, h10⟩ :=
      DrawCircle_rounds_inv r hr (r + 1) (DrawCircle_init r) (CircleInv_init r hr) w hw
    rw [mem_eightOffsets] at h
    have e : o.1 * o.1 + o.2 * o.2 - (r : Int) * r = w.f - 2 * w.x + w.y - 1 := by
      rw [h10]
      rcases h with ⟨h1 | h1, h2 | h2⟩ | ⟨h1 | h1, h2 | h2⟩ <;> rw [h1, h2] <;> ring
    rw [e]
    omega

/-! ### The cursor of `ST7789_WriteString` -/

theorem WriteString_calls_in_panel (p : Panel) (font : FontDef) (hw : font.width ≤ p.WIDTH) :
    ∀ (str : List Nat) (x y : Nat), y + font.height ≤ p.HEIGHT →
      ∀ q ∈ WriteString_calls p font str x y,
        q.1 + font.width ≤ p.WIDTH ∧ q.2.1 + font.height ≤ p.HEIGHT := by
  intro str
  induction str with
  | nil => intro x y _ q hq; simp [WriteString_calls] at hq
  | cons ch rest ih =>
    intro x y hy q hq
    unfold WriteString_calls at hq
    by_cases hwrap : (x : Int) + font.width ≥ p.WIDTH
    · simp only [hwrap, if_true] at hq
      by_cases hbrk : ((u16 ((y : Int) + font.height) : Nat) : Int) + font.height ≥ p.HEIGHT
      · simp only [hbrk, if_true, List.not_mem_nil] at hq
      · simp only [hbrk, if_false] at hq
        by_cases hsp : ch = 32
        · simp only [hsp, if_true] at hq
          exact ih 0 _ (by omega) q hq
        · simp only [hsp, if_false] at hq
          rcases List.mem_cons.mp hq with h | h
          · rw [h]
            dsimp only
            omega
          · exact ih _ _ (by omega) q h
    · simp only [hwrap, if_false] at hq
      rcases List.mem_cons.mp hq with h | h
      · rw [h]
        dsimp only
        omega
      · exact ih _ _ hy q h

theorem WriteString_calls_initial (p : Panel) (font : FontDef) :
    ∀ (str : List Nat) (x y : Nat),
      (WriteString_calls p font str x y).length ≤ str.length ∧
      ∃ pre rest : List Nat, str = pre ++ rest ∧
        List.Sublist ((WriteString_calls p font str x y).map (fun q => q.2.2)) pre ∧
        ((WriteString_calls p font str x y).map (fun q => q.2.2)).filter (fun ch => ch != 32) =
          pre.filter (fun ch => ch != 32) := by
  intro str
  induction str with
  | nil => intro x y; exact ⟨Nat.le_refl _, [], [], rfl, List.Sublist.slnil, rfl⟩
  | cons ch rest ih =>
    intro x y
    unfold WriteString_calls
    by_cases hwrap : (x : Int) + font.width ≥ p.WIDTH
    · simp only [hwrap, if_true]
      by_cases hbrk : ((u16 ((y : Int) + font.height) : Nat) : Int) + font.height ≥ p.HEIGHT
      · simp only [hbrk, if_true]
        exact ⟨Nat.zero_le _, [], ch :: rest, rfl, List.Sublist.slnil, rfl⟩
      · simp only [hbrk, if_false]
        by_cases hsp : ch = 32
        · simp only [hsp, if_true]
          obtain ⟨hl, pre, rst, e, hsub, hfil⟩ := ih 0 (u16 ((y : Int) + font.height))
          refine ⟨?_, 32 :: pre, rst, ?_, List.Sublist.cons 32 hsub, ?_⟩
          · rw [List.length_cons]; omega
          · rw [e]; rfl
          · rw [hfil]
            rfl
        · simp only [hsp, if_false]
          obtain ⟨hl, pre, rst, e, hsub, hfil⟩ :=
            ih (u16 ((0 : Int) + font.width)) (u16 ((y : Int) + font.height))
          refine ⟨?_, ch :: pre, rst, ?_, ?_, ?_⟩
          · rw [List.length_cons, List.length_cons]; omega
          · rw [e]; rfl
          · rw [List.map_cons]; exact List.Sublist.cons₂ ch hsub
          · rw [List.map_cons, List.filter_cons, List.filter_cons, hfil]
    · simp only [hwrap, if_false]
      obtain ⟨hl, pre, rst, e, hsub, hfil⟩ := ih (u16 ((x : Int) + font.width)) y
      refine ⟨?_, ch :: pre, rst, ?_, ?_, ?_⟩
      · rw [List.length_cons, List.length_cons]; omega
      · rw [e]; rfl
      · rw [List.map_cons]; exact List.Sublist.cons₂ ch hsub
      · rw [List.map_cons, List.filter_cons, List.filter_cons, hfil]

/-! ### Cells written by a sequence of calls -/

theorem Paints_append (p : Panel) (U1 U2 : List BusItem) (C1 C2 : List (Nat × Nat × Nat))
    (h1 : Paints p U1 C1) (h2 : Paints p U2 C2) : Paints p (U1 ++ U2) (C1 ++ C2) := by
  intro g
  rw [List.foldl_append, h2, h1, List.map_append, List.append_assoc]

theorem PaintsFrom_refl (p : Panel) (s : Bus) (h8 : s.is16 = false) : PaintsFrom p s s [] :=
  ⟨h8, [], (List.append_nil _).symm, fun g => by simp⟩

theorem PaintsFrom_trans (p : Panel) (s s1 s2 : Bus) (C1 C2 : List (Nat × Nat × Nat))
    (h1 : PaintsFrom p s s1 C1) (h2 : PaintsFrom p s1 s2 C2) : PaintsFrom p s s2 (C1 ++ C2) := by
  obtain ⟨-, U1, e1, P1⟩ := h1
  obtain ⟨i2, U2, e2, P2⟩ := h2
  refine ⟨i2, U1 ++ U2, ?_, Paints_append p U1 U2 C1 C2 P1 P2⟩
  rw [e2, e1, List.append_assoc]

theorem painted_of_PaintsFrom (p : Panel) (s s1 : Bus) (C : List (Nat × Nat × Nat))
    (h : PaintsFrom p s s1 C) : painted p (emitted s s1) = C := by
  obtain ⟨-, U, e, P⟩ := h
  unfold painted
  rw [emitted_of_append s s1 U e, P]
  simp only [Gram.reset, List.nil_append, List.map_map]
  conv_rhs => rw [← List.map_id C]
  apply List.map_congr_left
  intro q _
  simp only [Function.comp, Nat.add_sub_cancel, id]

theorem DrawPixel_paints (p : Panel) (hp : p.wf) (x y c : Nat) (s : Bus) (h8 : s.is16 = false)
    (hc : c < 65536) (hx : x < p.WIDTH) (hy : y < p.HEIGHT) :
    PaintsFrom p s (ST7789_DrawPixel p x y c s) [(x, y, c)] := by
  obtain ⟨w1, w2, -, -, -⟩ := id hp
  refine ⟨by rw [DrawPixel_is16]; exact h8,
    windowItems p x y x y ++ [BusItem.byte (c / 256 % 256), BusItem.byte (c % 256)], ?_, ?_⟩
  · rw [DrawPixel_eq p x y c s h8 hx hy]
  · intro g
    rw [Gram_pixel p hp, u16_natCast_add, u16_natCast_add]
    have e1 : (x + p.X_SHIFT) % 65536 = x + p.X_SHIFT := by omega
    have e2 : (y + p.Y_SHIFT) % 65536 = y + p.Y_SHIFT := by omega
    have e3 : 256 * (c / 256 % 256) + c % 256 = c := by omega
    rw [e1, e2, e3]
    rfl

theorem Fill_row_paints (p : Panel) (hp : p.wf) (lo hi y c : Nat) (s : Bus)
    (h8 : s.is16 = false) (hc : c < 65536) (hlo : lo ≤ hi) (hhi : hi < p.WIDTH)
    (hy : y < p.HEIGHT) :
    ∃ s1, ST7789_Fill p lo y hi y c s = some s1 ∧
      PaintsFrom p s s1 ((List.range (hi - lo + 1)).map (fun k => (lo + k, y, c))) := by
  obtain ⟨w1, w2, -, -, -⟩ := id hp
  have hpix : u16 (((hi : Int) - lo + 1) * ((y : Int) - y + 1)) = hi - lo + 1 := by
    unfold u16
    omega
  obtain ⟨s1, e1, e2, -, -, e5⟩ := Fill_spec p lo y hi y c s hhi hy h8 hc
    (by rw [hpix]; omega)
  rw [hpix, List.append_assoc] at e5
  refine ⟨s1, e1, e2, _, e5, ?_⟩
  intro g
  have ax : u16 ((lo : Int) + p.X_SHIFT) = lo + p.X_SHIFT := by
    rw [u16_natCast_add]; omega
  have bx : u16 ((hi : Int) + p.X_SHIFT) = hi + p.X_SHIFT := by
    rw [u16_natCast_add]; omega
  have ay : u16 ((y : Int) + p.Y_SHIFT) = y + p.Y_SHIFT := by
    rw [u16_natCast_add]; omega
  have ew : hi + p.X_SHIFT - (lo + p.X_SHIFT) + 1 = hi - lo + 1 := by omega
  have eh : y + p.Y_SHIFT - (y + p.Y_SHIFT) + 1 = 1 := by omega
  rw [List.foldl_append, Gram_window p hp, ax, bx, ay,
    Gram_samples p hp _ _ _ _ (by omega) (by omega), ew, eh]
  simp only [List.map_map]
  refine congrArg (fun l => g.pix ++ l) ?_
  apply List.map_congr_left
  intro k hk
  have hk2 : k < hi - lo + 1 := List.mem_range.mp hk
  simp only [Function.comp, Nat.mod_eq_of_lt hk2, Nat.div_eq_of_lt hk2, Nat.mod_one,
    Nat.add_zero, Prod.mk.injEq, and_true]
  omega

theorem DrawHLine_paints (p : Panel) (hp : p.wf) (xa xb y c : Nat) (s : Bus)
    (h8 : s.is16 = false) (hc : c < 65536) (hxa : xa < p.WIDTH) (hxb : xb < p.WIDTH)
    (hy : y < p.HEIGHT) :
    ∃ s1, ST7789_DrawHLine p xa xb y c s = some s1 ∧ PaintsFrom p s s1 (spanCells xa xb y c) := by
  unfold ST7789_DrawHLine spanCells
  by_cases h : xb < xa
  · rw [if_pos h, min_eq_right (by omega : xb ≤ xa), max_eq_left (by omega : xb ≤ xa)]
    exact Fill_row_paints p hp xb xa y c s h8 hc (by omega) hxa hy
  · rw [if_neg h, min_eq_left (by omega : xa ≤ xb), max_eq_right (by omega : xa ≤ xb)]
    exact Fill_row_paints p hp xa xb y c s h8 hc (by omega) hxb hy

theorem mem_spanCells (xa xb y c : Nat) (q : Nat × Nat × Nat) :
    q ∈ spanCells xa xb y c ↔
      min xa xb ≤ q.1 ∧ q.1 ≤ max xa xb ∧ q.2.1 = y ∧ q.2.2 = c := by
  obtain ⟨a, b, d⟩ := q
  unfold spanCells
  simp only [List.mem_map, List.mem_range, Prod.mk.injEq]
  constructor
  · rintro ⟨k, hk, h1, h2, h3⟩
    omega
  · rintro ⟨h1, h2, h3, h4⟩
    exact ⟨a - min xa xb, by omega, by omega, h3.symm, h4.symm⟩

/-! ### The filled circle -/

theorem u16_i16_add (a t : Int) : u16 (i16 a + t) = u16 (a + t) := by
  unfold u16 i16
  omega

theorem u16_i16_sub (a t : Int) : u16 (i16 a - t) = u16 (a - t) := by
  unfold u16 i16
  omega

theorem u16_i16 (a : Int) : u16 (i16 a) = u16 a := by
  unfold u16 i16
  omega

/-- The loop of `ST7789_DrawFilledCircle` uses its centre only through
`uint16_t` conversions, so the `int16_t` conversion of the centre's
coordinates at the call does not change what it does. -/
theorem DrawFilledCircle_loop_i16 (p : Panel) (X Y : Int) (c : Nat) :
    ∀ (fuel : Nat) (f dx dy x y : Int) (s : Bus),
      DrawFilledCircle_loop p (i16 X) (i16 Y) c fuel f dx dy x y s =
        DrawFilledCircle_loop p X Y c fuel f dx dy x y s := by
  intro fuel
  induction fuel with
  | zero => intro f dx dy x y s; rfl
  | succ k ih =>
    intro f dx dy x y s
    rw [DrawFilledCircle_loop, DrawFilledCircle_loop]
    simp only [u16_i16_add, u16_i16_sub, ih]

/-- One round of four spans of `ST7789_DrawFilledCircle` for a point (x,y)
of the first quadrant within the radius: the four calls return and write
`roundSpanCells`. -/
theorem DrawFilledCircle_round (p : Panel) (hp : p.wf) (x0 y0 r c : Nat) (hc : c < 65536)
    (hxl : r ≤ x0) (hxr : x0 + r < p.WIDTH) (hyl : r ≤ y0) (hyr : y0 + r < p.HEIGHT)
    (x y : Int) (hx0 : 0 ≤ x) (hx : x ≤ r) (hy0 : 0 ≤ y) (hy : y ≤ r)
    (s : Bus) (h8 : s.is16 = false) (k : Bus → Option Bus) :
    ∃ s4, PaintsFrom p s s4 (roundSpanCells x0 y0 x y c) ∧
      ((ST7789_DrawHLine p (u16 ((x0 : Int) - x)) (u16 ((x0 : Int) + x)) (u16 ((y0 : Int) + y))
          c s).bind fun s =>
        (ST7789_DrawHLine p (u16 ((x0 : Int) + x)) (u16 ((x0 : Int) - x)) (u16 ((y0 : Int) - y))
          c s).bind fun s =>
        (ST7789_DrawHLine p (u16 ((x0 : Int) + y)) (u16 ((x0 : Int) - y)) (u16 ((y0 : Int) + x))
          c s).bind fun s =>
        (ST7789_DrawHLine p (u16 ((x0 : Int) + y)) (u16 ((x0 : Int) - y)) (u16 ((y0 : Int) - x))
          c s).bind k) = k s4 := by
  obtain ⟨w1, w2, -, -, -⟩ := id hp
  have b1 : u16 ((x0 : Int) - x) < p.WIDTH := by unfold u16; omega
  have b2 : u16 ((x0 : Int) + x) < p.WIDTH := by unfold u16; omega
  have b3 : u16 ((x0 : Int) - y) < p.WIDTH := by unfold u16; omega
  have b4 : u16 ((x0 : Int) + y) < p.WIDTH := by unfold u16; omega
  have b5 : u16 ((y0 : Int) - x) < p.HEIGHT := by unfold u16; omega
  have b6 : u16 ((y0 : Int) + x) < p.HEIGHT := by unfold u16; omega
  have b7 : u16 ((y0 : Int) - y) < p.HEIGHT := by unfold u16; omega
  have b8 : u16 ((y0 : Int) + y) < p.HEIGHT := by unfold u16; omega
  obtain ⟨s1, e1, P1⟩ := DrawHLine_paints p hp _ _ _ c s h8 hc b1 b2 b8
  obtain ⟨s2, e2, P2⟩ := DrawHLine_paints p hp _ _ _ c s1 P1.1 hc b2 b1 b7
  obtain ⟨s3, e3, P3⟩ := DrawHLine_paints p hp _ _ _ c s2 P2.1 hc b4 b3 b6
  obtain ⟨s4, e4, P4⟩ := DrawHLine_paints p hp _ _ _ c s3 P3.1 hc b4 b3 b5
  refine ⟨s4, ?_, ?_⟩
  · unfold roundSpanCells
    exact PaintsFrom_trans p s s3 s4 _ _
      (PaintsFrom_trans p s s2 s3 _ _ (PaintsFrom_trans p s s1 s2 _ _ P1 P2) P3) P4
  · rw [e1, Option.some_bind, e2, Option.some_bind, e3, Option.some_bind, e4, Option.some_bind]

theorem DrawFilledCircle_loop_paints (p : Panel) (hp : p.wf) (x0 y0 r c : Nat) (hc : c < 65536)
    (hr : r ≤ 255) (hxl : r ≤ x0) (hxr : x0 + r < p.WIDTH) (hyl : r ≤ y0)
    (hyr : y0 + r < p.HEIGHT) :
    ∀ (fuel : Nat) (v : CircleVars) (s : Bus), CircleInv r v → s.is16 = false →
      (v.y - v.x).toNat < fuel →
      ∃ s1, DrawFilledCircle_loop p x0 y0 c fuel v.f v.ddF_x v.ddF_y v.x v.y s = some s1 ∧
        PaintsFrom p s s1
          ((DrawCircle_rounds fuel v).flatMap (fun w => roundSpanCells x0 y0 w.x w.y c)) := by
  intro fuel
  induction fuel with
  | zero => intro v s _ _ h; omega
  | succ k ih =>
    intro v s hv h8 hm
    rw [DrawCircle_rounds]
    by_cases hlt : v.x < v.y
    · rw [if_pos hlt, List.flatMap_cons]
      have hs := CircleInv_step r hr v hv hlt
      have he := (DrawCircle_step_eq r hr v hv hlt).1
      have hx : (DrawCircle_step v).x = v.x + 1 := by rw [he]
      have hy : (DrawCircle_step v).y ≤ v.y := by
        rw [he]
        dsimp only
        split <;> omega
      obtain ⟨-, -, h3, h4, h5, h6, -, -, -, -⟩ := id hs
      obtain ⟨s4, P4, e4⟩ := DrawFilledCircle_round p hp x0 y0 r c hc hxl hxr hyl hyr
        (DrawCircle_step v).x (DrawCircle_step v).y h3 h4 h5 h6 s h8
        (fun s => DrawFilledCircle_loop p x0 y0 c k (DrawCircle_step v).f
          (DrawCircle_step v).ddF_x (DrawCircle_step v).ddF_y (DrawCircle_step v).x
          (DrawCircle_step v).y s)
      obtain ⟨s5, e5, P5⟩ := ih (DrawCircle_step v) s4 hs P4.1 (by omega)
      refine ⟨s5, ?_, PaintsFrom_trans p s s4 s5 _ _ P4 P5⟩
      rw [← e5, DrawFilledCircle_loop, if_pos hlt]
      exact e4
    · rw [if_neg hlt, DrawFilledCircle_loop, if_neg hlt]
      exact ⟨s, rfl, PaintsFrom_refl p s h8⟩

theorem DrawFilledCircle_paints (p : Panel) (hp : p.wf) (x0 y0 r c : Nat) (s : Bus)
    (h8 : s.is16 = false) (hc : c < 65536) (hr : r ≤ 255)
    (hxl : r ≤ x0) (hxr : x0 + r < p.WIDTH) (hyl : r ≤ y0) (hyr : y0 + r < p.HEIGHT) :
    ∃ s2, ST7789_DrawFilledCircle p (i16 x0) (i16 y0) (i16 r) c s = some s2 ∧
      PaintsFrom p s s2 (filledCircleCells x0 y0 r c) := by
  obtain ⟨w1, w2, -, -, -⟩ := id hp
  have hr2 : i16 (r : Int) = r := i16_of_range _ (by omega) (by omega)
  have ux : u16 (x0 : Int) = x0 := u16_natCast x0 (by omega)
  have uy : u16 (y0 : Int) = y0 := u16_natCast y0 (by omega)
  have b1 : u16 ((y0 : Int) + r) < p.HEIGHT := by unfold u16; omega
  have b2 : u16 ((y0 : Int) - r) < p.HEIGHT := by unfold u16; omega
  have b3 : u16 ((x0 : Int) + r) < p.WIDTH := by unfold u16; omega
  have b4 : u16 ((x0 : Int) - r) < p.WIDTH := by unfold u16; omega
  have P1 : PaintsFrom p s (ST7789_DrawPixel p x0 (u16 ((y0 : Int) + r)) c (ST7789_Select s))
      [(x0, u16 ((y0 : Int) + r), c)] :=
    DrawPixel_paints p hp _ _ c (ST7789_Select s) h8 hc (by omega) b1
  have P2 := DrawPixel_paints p hp x0 (u16 ((y0 : Int) - r)) c _ P1.1 hc (by omega) b2
  have P3 := DrawPixel_paints p hp (u16 ((x0 : Int) + r)) y0 c _ P2.1 hc b3 (by omega)
  have P4 := DrawPixel_paints p hp (u16 ((x0 : Int) - r)) y0 c _ P3.1 hc b4 (by omega)
  obtain ⟨s5, e5, P5⟩ := DrawHLine_paints p hp (u16 ((x0 : Int) - r)) (u16 ((x0 : Int) + r)) y0
    c _ P4.1 hc b4 b3 (by omega)
  obtain ⟨s6, e6, P6⟩ := DrawFilledCircle_loop_paints p hp x0 y0 r c hc hr hxl hxr hyl hyr
    (r + 1) (DrawCircle_init r) s5 (CircleInv_init r hr) P5.1
    (by
      unfold DrawCircle_init
      rw [hr2]
      dsimp only
      omega)
  refine ⟨s6, ?_, ?_⟩
  · unfold ST7789_DrawFilledCircle
    simp only [hr2, u16_i16, u16_i16_add, u16_i16_sub, DrawFilledCircle_loop_i16, ux, uy,
      Int.toNat_ofNat]
    rw [e5, Option.some_bind, ← e6]
    unfold DrawCircle_init
    rw [hr2]
  · exact PaintsFrom_trans p s s5 s6 _ _
      (PaintsFrom_trans p s _ s5 _ _
        (PaintsFrom_trans p s _ _ _ _
          (PaintsFrom_trans p s _ _ _ _ (PaintsFrom_trans p s _ _ _ _ P1 P2) P3) P4) P5) P6

theorem u16_add_small (a t : Nat) (h : a + t ≤ 65535) :
    u16 ((a : Int) + (t : Int)) = a + t := by
  unfold u16
  omega

theorem u16_sub_small (a t : Nat) (ht : t ≤ a) (ha : a ≤ 65535) :
    u16 ((a : Int) - (t : Int)) = a - t := by
  unfold u16
  omega

theorem mem_roundSpanCells (x0 y0 X Y c a b : Nat) (hX : X ≤ x0) (hY : Y ≤ x0)
    (hX2 : X ≤ y0) (hY2 : Y ≤ y0) (hx0 : x0 + X ≤ 65535) (hx1 : x0 + Y ≤ 65535)
    (hy0 : y0 + X ≤ 65535) (hy1 : y0 + Y ≤ 65535)
    (h : (x0 - X ≤ a ∧ a ≤ x0 + X ∧ (b = y0 + Y ∨ b = y0 - Y)) ∨
      (x0 - Y ≤ a ∧ a ≤ x0 + Y ∧ (b = y0 + X ∨ b = y0 - X))) :
    (a, b, c) ∈ roundSpanCells x0 y0 (X : Int) (Y : Int) c := by
  unfold roundSpanCells
  rw [u16_add_small x0 X hx0, u16_sub_small x0 X hX (by omega), u16_add_small x0 Y hx1,
    u16_sub_small x0 Y hY (by omega), u16_add_small y0 X hy0, u16_sub_small y0 X hX2 (by omega),
    u16_add_small y0 Y hy1, u16_sub_small y0 Y hY2 (by omega)]
  simp only [List.mem_append, mem_spanCells,
    min_eq_left (by omega : x0 - X ≤ x0 + X), max_eq_right (by omega : x0 - X ≤ x0 + X),
    min_eq_right (by omega : x0 - X ≤ x0 + X), max_eq_left (by omega : x0 - X ≤ x0 + X),
    min_eq_right (by omega : x0 - Y ≤ x0 + Y), max_eq_left (by omega : x0 - Y ≤ x0 + Y),
    and_true]
  rcases h with ⟨h1, h2, h3 | h3⟩ | ⟨h1, h2, h3 | h3⟩
  · exact Or.inl (Or.inl (Or.inl ⟨h1, h2, h3⟩))
  · exact Or.inl (Or.inl (Or.inr ⟨h1, h2, h3⟩))
  · exact Or.inl (Or.inr ⟨h1, h2, h3⟩)
  · exact Or.inr ⟨h1, h2, h3⟩

theorem eightOffsets_cell (x0 y0 X Y : Nat) (hX : X ≤ x0) (hY : Y ≤ x0)
    (hX2 : X ≤ y0) (hY2 : Y ≤ y0) (hx0 : x0 + X ≤ 65535) (hx1 : x0 + Y ≤ 65535)
    (hy0 : y0 + X ≤ 65535) (hy1 : y0 + Y ≤ 65535) (o : Int × Int)
    (h : o ∈ eightOffsets (X : Int) (Y : Int)) :
    (x0 - X ≤ u16 ((x0 : Int) + o.1) ∧ u16 ((x0 : Int) + o.1) ≤ x0 + X ∧
      (u16 ((y0 : Int) + o.2) = y0 + Y ∨ u16 ((y0 : Int) + o.2) = y0 - Y)) ∨
    (x0 - Y ≤ u16 ((x0 : Int) + o.1) ∧ u16 ((x0 : Int) + o.1) ≤ x0 + Y ∧
      (u16 ((y0 : Int) + o.2) = y0 + X ∨ u16 ((y0 : Int) + o.2) = y0 - X)) := by
  rw [mem_eightOffsets] at h
  have n1 : (x0 : Int) + -(X : Int) = (x0 : Int) - X := by omega
  have n2 : (x0 : Int) + -(Y : Int) = (x0 : Int) - Y := by omega
  have n3 : (y0 : Int) + -(X : Int) = (y0 : Int) - X := by omega
  have n4 : (y0 : Int) + -(Y : Int) = (y0 : Int) - Y := by omega
  have a1 := u16_add_small x0 X hx0
  have a2 := u16_sub_small x0 X hX (by omega)
  have a3 := u16_add_small x0 Y hx1
  have a4 := u16_sub_small x0 Y hY (by omega)
  have b1 := u16_add_small y0 X hy0
  have b2 := u16_sub_small y0 X hX2 (by omega)
  have b3 := u16_add_small y0 Y hy1
  have b4 := u16_sub_small y0 Y hY2 (by omega)
  rcases h with ⟨h1 | h1, h2 | h2⟩ | ⟨h1 | h1, h2 | h2⟩
  · rw [h1, h2, a1, b3]; exact Or.inl ⟨by omega, by omega, Or.inl rfl⟩
  · rw [h1, h2, a1, n4, b4]; exact Or.inl ⟨by omega, by omega, Or.inr rfl⟩
  · rw [h1, h2, n1, a2, b3]; exact Or.inl ⟨by omega, by omega, Or.inl rfl⟩
  · rw [h1, h2, n1, a2, n4, b4]; exact Or.inl ⟨by omega, by omega, Or.inr rfl⟩
  · rw [h1, h2, a3, b1]; exact Or.inr ⟨by omega, by omega, Or.inl rfl⟩
  · rw [h1, h2, a3, n3, b2]; exact Or.inr ⟨by omega, by omega, Or.inr rfl⟩
  · rw [h1, h2, n2, a4, b1]; exact Or.inr ⟨by omega, by omega, Or.inl rfl⟩
  · rw [h1, h2, n2, a4, n3, b2]; exact Or.inr ⟨by omega, by omega, Or.inr rfl⟩

theorem circle_cell_in_filled (x0 y0 r c : Nat) (hr : r ≤ 255) (hxl : r ≤ x0) (hyl : r ≤ y0)
    (hx0 : x0 ≤ 65535 - r) (hy0 : y0 ≤ 65535 - r) (o : Int × Int) (ho : o ∈ circleOffsets r) :
    (u16 ((x0 : Int) + o.1), u16 ((y0 : Int) + o.2), c) ∈ filledCircleCells x0 y0 r c := by
  rw [mem_circleOffsets] at ho
  unfold filledCircleCells
  rcases ho with h | ⟨w, hw, h⟩
  · rw [mem_eightOffsets] at h
    apply List.mem_append_left
    apply List.mem_append_left
    have ux : u16 ((x0 : Int) + 0) = x0 := by unfold u16; omega
    have uy : u16 ((y0 : Int) + 0) = y0 := by unfold u16; omega
    have e1 : (x0 : Int) + -(r : Int) = (x0 : Int) - r := by omega
    have e2 : (y0 : Int) + -(r : Int) = (y0 : Int) - r := by omega
    have e3 : -(0 : Int) = 0 := rfl
    rcases h with ⟨h1 | h1, h2 | h2⟩ | ⟨h1 | h1, h2 | h2⟩ <;>
      simp only [h1, h2, e3, ux, uy, e1, e2, List.mem_cons, true_or, or_true]
  · obtain ⟨-, -, h3, h4, h5, h6, -, -, -, -⟩ :=
      DrawCircle_rounds_inv r hr (r + 1) (DrawCircle_init r) (CircleInv_init r hr) w hw
    apply List.mem_append_right
    refine List.mem_flatMap.mpr ⟨w, hw, ?_⟩
    obtain ⟨X, hX⟩ : ∃ X : Nat, w.x = (X : Int) := ⟨w.x.toNat, by omega⟩
    obtain ⟨Y, hY⟩ : ∃ Y : Nat, w.y = (Y : Int) := ⟨w.y.toNat, by omega⟩
    rw [hX] at h h3 h4
    rw [hY] at h h5 h6
    rw [hX, hY]
    have c1 : X ≤ r := by omega
    have c2 : Y ≤ r := by omega
    exact mem_roundSpanCells x0 y0 X Y c _ _ (by omega) (by omega) (by omega) (by omega)
      (by omega) (by omega) (by omega) (by omega)
      (eightOffsets_cell x0 y0 X Y (by omega) (by omega) (by omega) (by omega)
        (by omega) (by omega) (by omega) (by omega) o h)

theorem centre_row_in_filled (x0 y0 r c x : Nat) (hxl : r ≤ x0) (hx0 : x0 ≤ 65535 - r)
    (h1 : x0 - r ≤ x) (h2 : x ≤ x0 + r) : (x, y0, c) ∈ filledCircleCells x0 y0 r c := by
  unfold filledCircleCells
  apply List.mem_append_left
  apply List.mem_append_right
  have a1 : u16 ((x0 : Int) + (r : Int)) = x0 + r := by unfold u16; omega
  have a2 : u16 ((x0 : Int) - (r : Int)) = x0 - r := by unfold u16; omega
  rw [mem_spanCells, a1, a2, min_eq_left (by omega : x0 - r ≤ x0 + r),
    max_eq_right (by omega : x0 - r ≤ x0 + r)]
  exact ⟨h1, h2, rfl, rfl⟩

/-! ### Where the bounds are tested -/

/-- Where the bounds are tested: `ST7789_SetAddressWindow` itself makes no
check; called in 8-bit mode it emits its eleven elements for every
(x0,y0,x1,y1).  `ST7789_DrawPixel` drops a point outside the panel,
`ST7789_DrawImage` a rectangle whose start corner is outside or that has
`x + w > WIDTH` or `y + h > HEIGHT`, `ST7789_Fill` a rectangle whose end
corner is outside, each without emitting anything.  `ST7789_WriteChar` makes
no test and always emits the window sequence and two bytes for each of the
width*height cells. -/
theorem SetAddressWindow_unconditional (p : Panel) (s : Bus) (h8 : s.is16 = false) :
    (∀ x0 y0 x1 y1,
      emitted s (ST7789_SetAddressWindow p x0 y0 x1 y1 s) = windowItems p x0 y0 x1 y1 ∧
      (windowItems p x0 y0 x1 y1).length = 11) ∧
    (∀ x y c, (x ≥ p.WIDTH ∨ y ≥ p.HEIGHT) → ST7789_DrawPixel p x y c s = s) ∧
    (∀ x y w h data, (x ≥ p.WIDTH ∨ y ≥ p.HEIGHT ∨ x + w ≥ p.WIDTH + 1 ∨ y + h ≥ p.HEIGHT + 1) →
      ST7789_DrawImage p x y w h data s = s) ∧
    (∀ xSta ySta xEnd yEnd c, (xEnd ≥ p.WIDTH ∨ yEnd ≥ p.HEIGHT) →
      ST7789_Fill p xSta ySta xEnd yEnd c s = some s) ∧
    (∀ x y ch font c bg,
      (emitted s (ST7789_WriteChar p x y ch font c bg s)).length =
        11 + 2 * (font.width * font.height)) := by
  refine ⟨?_, ?_, ?_, ?_, ?_⟩
  · intro x0 y0 x1 y1
    rw [SetAddressWindow_eq p x0 y0 x1 y1 s h8]
    exact ⟨emitted_of_append _ _ _ rfl, rfl⟩
  · intro x y c h
    exact DrawPixel_rejected p x y c s h
  · intro x y w h data hb
    unfold ST7789_DrawImage
    by_cases h1 : x ≥ p.WIDTH ∨ y ≥ p.HEIGHT
    · rw [if_pos h1]
    · rw [if_neg h1]
      by_cases h2 : (x : Int) + w - 1 ≥ p.WIDTH
      · rw [if_pos h2]
      · rw [if_neg h2]
        have h3 : (y : Int) + h - 1 ≥ p.HEIGHT := by omega
        rw [if_pos h3]
  · intro a b c d e h
    exact Fill_rejected p a b c d e s h
  · intro x y ch font c bg
    exact WriteChar_emitted_length p x y ch font c bg s h8

/-- On the idle bus of a 240x240 panel the window (300,0)-(10,0) is emitted
in full. -/
theorem SetAddressWindow_unconditional_witness :
    emitted idleBus (ST7789_SetAddressWindow panel240x240 300 0 10 0 idleBus) =
      [BusItem.cmd 0x2A, BusItem.byte 1, BusItem.byte 44, BusItem.byte 0, BusItem.byte 10,
       BusItem.cmd 0x2B, BusItem.byte 0, BusItem.byte 0, BusItem.byte 0, BusItem.byte 0,
       BusItem.cmd 0x2C] :=
  ((SetAddressWindow_unconditional panel240x240 idleBus rfl).1 300 0 10 0).1

/-! ### The characters consumed by `ST7789_WriteString` -/

theorem WriteString_steps_initial (p : Panel) (font : FontDef) :
    ∀ (str : List Nat) (x y : Nat),
      (WriteString_steps p font str x y).map (fun e => e.1) <+: str := by
  intro str
  induction str with
  | nil => intro x y; exact List.prefix_refl _
  | cons ch rest ih =>
    intro x y
    unfold WriteString_steps
    by_cases hwrap : (x : Int) + font.width ≥ p.WIDTH
    · simp only [hwrap, if_true]
      by_cases hbrk : ((u16 ((y : Int) + font.height) : Nat) : Int) + font.height ≥ p.HEIGHT
      · simp only [hbrk, if_true]
        exact List.nil_prefix
      · simp only [hbrk, if_false]
        by_cases hsp : ch = 32
        · simp only [hsp, if_true, List.map_cons]
          exact (List.prefix_cons_inj 32).mpr (ih _ _)
        · simp only [hsp, if_false, List.map_cons]
          exact (List.prefix_cons_inj ch).mpr (ih _ _)
    · simp only [hwrap, if_false, List.map_cons]
      exact (List.prefix_cons_inj ch).mpr (ih _ _)

theorem WriteString_calls_of_steps (p : Panel) (font : FontDef) :
    ∀ (str : List Nat) (x y : Nat),
      WriteString_calls p font str x y =
        (WriteString_steps p font str x y).filterMap (fun e =>
          if (e.2.1 : Int) + font.width ≥ p.WIDTH then
            (if e.1 = 32 then none else some (0, u16 ((e.2.2 : Int) + font.height), e.1))
          else some (e.2.1, e.2.2, e.1)) := by
  intro str
  induction str with
  | nil => intro x y; rfl
  | cons ch rest ih =>
    intro x y
    unfold WriteString_calls WriteString_steps
    by_cases hwrap : (x : Int) + font.width ≥ p.WIDTH
    · simp only [hwrap, if_true]
      by_cases hbrk : ((u16 ((y : Int) + font.height) : Nat) : Int) + font.height ≥ p.HEIGHT
      · simp only [hbrk, if_true]
        rfl
      · simp only [hbrk, if_false]
        by_cases hsp : ch = 32
        · simp only [hsp, if_true]
          rw [List.filterMap_cons]
          simp only [hwrap, if_true]
          exact ih _ _
        · simp only [hsp, if_false]
          rw [List.filterMap_cons]
          simp only [hwrap, if_true, hsp, if_false]
          rw [ih]
    · simp only [hwrap, if_false]
      rw [List.filterMap_cons]
      simp only [hwrap, if_false]
      rw [ih]

theorem WriteString_steps_head (p : Panel) (font : FontDef) (str : List Nat) (x y : Nat)
    (e : Nat × Nat × Nat) (h : (WriteString_steps p font str x y).head? = some e) :
    e.2 = (x, y) := by
  cases str with
  | nil => simp [WriteString_steps] at h
  | cons ch rest =>
    unfold WriteString_steps at h
    by_cases hwrap : (x : Int) + font.width ≥ p.WIDTH
    · simp only [hwrap, if_true] at h
      by_cases hbrk : ((u16 ((y : Int) + font.height) : Nat) : Int) + font.height ≥ p.HEIGHT
      · simp only [hbrk, if_true, List.head?_nil] at h
        exact absurd h (by simp)
      · simp only [hbrk, if_false] at h
        by_cases hsp : ch = 32
        · simp only [hsp, if_true, List.head?_cons, Option.some.injEq] at h
          rw [← h]
        · simp only [hsp, if_false, List.head?_cons, Option.some.injEq] at h
          rw [← h]
    · simp only [hwrap, if_false, List.head?_cons, Option.some.injEq] at h
      rw [← h]

theorem WriteString_steps_chain (p : Panel) (font : FontDef) :
    ∀ (str : List Nat) (x y : Nat),
      List.Chain' (fun e f : Nat × Nat × Nat =>
        f.2 = (if (e.2.1 : Int) + font.width ≥ p.WIDTH then
            ((if e.1 = 32 then 0 else u16 ((0 : Int) + font.width)),
              u16 ((e.2.2 : Int) + font.height))
          else (u16 ((e.2.1 : Int) + font.width), e.2.2)))
        (WriteString_steps p font str x y) := by
  intro str
  induction str with
  | nil => intro x y; exact List.chain'_nil
  | cons ch rest ih =>
    intro x y
    unfold WriteString_steps
    by_cases hwrap : (x : Int) + font.width ≥ p.WIDTH
    · simp only [hwrap, if_true]
      by_cases hbrk : ((u16 ((y : Int) + font.height) : Nat) : Int) + font.height ≥ p.HEIGHT
      · simp only [hbrk, if_true]
        exact List.chain'_nil
      · simp only [hbrk, if_false]
        by_cases hsp : ch = 32
        · simp only [hsp, if_true]
          refine List.chain'_cons'.mpr ⟨?_, ih _ _⟩
          intro f hf
          rw [WriteString_steps_head p font rest _ _ f hf]
          simp only [hwrap, if_true]
        · simp only [hsp, if_false]
          refine List.chain'_cons'.mpr ⟨?_, ih _ _⟩
          intro f hf
          rw [WriteString_steps_head p font rest _ _ f hf]
          simp only [hwrap, if_true, hsp, if_false]
    · simp only [hwrap, if_false]
      refine List.chain'_cons'.mpr ⟨?_, ih _ _⟩
      intro f hf
      rw [WriteString_steps_head p font rest _ _ f hf]
      simp only [hwrap, if_false]

/-! ## The claims -/

/-! ### C1 -/

/-- C1, at the failing input: on a 240x320 panel the full-screen call
`ST7789_Fill(0,0,239,319,0xF800)` returns after the window sequence and only
11264 colour samples (76800 mod 65536), although the rectangle holds
240*320 = 76800 pixels; so in the blocking build and in the `USE_DMA` build. -/
theorem Fill_full_screen_240x320_truncated :
    (∃ s1, ST7789_Fill panel240x320 0 0 239 319 0xF800 idleBus = some s1 ∧
      emitted idleBus s1 = windowItems panel240x320 0 0 239 319 ++
        List.replicate 11264 (BusItem.sample 0xF800) ∧
      (emitted idleBus s1).length = 11 + 11264) ∧
    (∃ s1, ST7789_Fill panel240x320dma 0 0 239 319 0xF800 idleBus = some s1 ∧
      emitted idleBus s1 = windowItems panel240x320dma 0 0 239 319 ++
        List.replicate 11264 (BusItem.sample 0xF800) ∧
      (emitted idleBus s1).length = 11 + 11264) ∧
    (239 - 0 + 1) * (319 - 0 + 1) = 76800 := by
  have hp : u16 ((((239 : Nat) : Int) - ((0 : Nat) : Int) + 1) *
      (((319 : Nat) : Int) - ((0 : Nat) : Int) + 1)) = 11264 := by decide
  refine ⟨?_, ?_, by decide⟩
  · obtain ⟨s1, e1, -, -, -, e5⟩ := Fill_spec panel240x320 0 0 239 319 0xF800 idleBus
      (by decide) (by decide) rfl (by decide) (by decide)
    rw [hp, List.append_assoc] at e5
    have he := emitted_of_append idleBus s1 _ e5
    refine ⟨s1, e1, he, ?_⟩
    rw [he, List.length_append, List.length_replicate]
    rfl
  · obtain ⟨s1, e1, -, -, -, e5⟩ := Fill_spec panel240x320dma 0 0 239 319 0xF800 idleBus
      (by decide) (by decide) rfl (by decide) (by decide)
    rw [hp, List.append_assoc] at e5
    have he := emitted_of_append idleBus s1 _ e5
    refine ⟨s1, e1, he, ?_⟩
    rw [he, List.length_append, List.length_replicate]
    rfl

/-! ### C2 -/

/-- C2, at the failing input: on a 240x240 panel the call
`ST7789_Fill(300,0,10,0,0xF800)` has `xSta = 300` outside the panel, yet it
is not dropped: it returns after the window sequence for (300,0,10,0) and
65247 colour samples, because the guard looks at `xEnd` and `yEnd` only. -/
theorem Fill_start_outside_240x240_emits :
    ∃ s1, ST7789_Fill panel240x240 300 0 10 0 0xF800 idleBus = some s1 ∧
      emitted idleBus s1 = windowItems panel240x240 300 0 10 0 ++
        List.replicate 65247 (BusItem.sample 0xF800) ∧
      (emitted idleBus s1).length = 11 + 65247 ∧
      ¬ (300 < panel240x240.WIDTH) := by
  obtain ⟨s1, e1, -, -, -, e5⟩ := Fill_spec panel240x240 300 0 10 0 0xF800 idleBus
    (by decide) (by decide) rfl (by decide) (by decide)
  have hp : u16 ((((10 : Nat) : Int) - ((300 : Nat) : Int) + 1) *
      (((0 : Nat) : Int) - ((0 : Nat) : Int) + 1)) = 65247 := by decide
  rw [hp, List.append_assoc] at e5
  have he := emitted_of_append idleBus s1 _ e5
  refine ⟨s1, e1, he, ?_, by decide⟩
  rw [he, List.length_append, List.length_replicate]
  rfl

/-! ### C3 -/

/-- C3, at the failing input: a 240x320 image (76800 samples, sample `i`
holding `i mod 2^16`) drawn at (0,0) on a 240x320 panel.  `ST7789_WriteData`
sends it in two transfers of 65535 and 11265 elements, and all 76800
elements go out, but after the first transfer `buff += chunk_size` moves the
byte pointer by 65535 bytes, not by 65535 samples: the element number 65535
on the bus is 0x007F, built from the high byte of sample 32767 and the low
byte of sample 32768, where the caller's buffer holds 0xFFFF. -/
theorem DrawImage_240x320_second_chunk_misread :
    (ST7789_DrawImage panel240x320 0 0 240 320 rampImage idleBus).xfers
      = [1, 4, 1, 4, 1, 65535, 11265] ∧
    (emitted idleBus (ST7789_DrawImage panel240x320 0 0 240 320 rampImage idleBus)).length
      = 11 + 240 * 320 ∧
    (emitted idleBus (ST7789_DrawImage panel240x320 0 0 240 320 rampImage idleBus))[11 + 65535]?
      = some (BusItem.sample 0x007F) ∧
    rampImage[65535]? = some 0xFFFF ∧
    rampImage.length = 240 * 320 := by
  obtain ⟨h1, h2, h3⟩ := DrawImage_240x320_general rampImage
  rw [rampImage_rd16] at h3
  exact ⟨h1, h2, h3, rampImage_getElem? 65535 (by omega), by simp [rampImage]⟩

/-! ### C4 -/

/-- C4: every public drawing operation that is entered with the SPI word size
at 8 bit leaves it at 8 bit when it returns, on every exit path (the early
bounds-check returns included).  For the operations whose loops may fail to
leave, the statement is about every run that returns. -/
theorem word_width_invariant (p : Panel) (s : Bus) (h8 : s.is16 = false) :
    (∀ x y c, (ST7789_DrawPixel p x y c s).is16 = false) ∧
    (∀ xSta ySta xEnd yEnd c s1,
      ST7789_Fill p xSta ySta xEnd yEnd c s = some s1 → s1.is16 = false) ∧
    (∀ x y w h data, (ST7789_DrawImage p x y w h data s).is16 = false) ∧
    (∀ x0 y0 x1 y1 c s1,
      ST7789_DrawLine p x0 y0 x1 y1 c s = some s1 → s1.is16 = false) ∧
    (∀ x1 y1 x2 y2 c s1,
      ST7789_DrawRectangle p x1 y1 x2 y2 c s = some s1 → s1.is16 = false) ∧
    (∀ x0 y0 r c s1,
      ST7789_DrawCircle p x0 y0 r c s = some s1 → s1.is16 = false) ∧
    (∀ x0 y0 r c s1,
      ST7789_DrawFilledCircle p x0 y0 r c s = some s1 → s1.is16 = false) ∧
    (∀ x1 y1 x2 y2 x3 y3 c s1,
      ST7789_DrawTriangle p x1 y1 x2 y2 x3 y3 c s = some s1 → s1.is16 = false) ∧
    (∀ x1 y1 x2 y2 x3 y3 c s1,
      ST7789_DrawFilledTriangle p x1 y1 x2 y2 x3 y3 c s = some s1 → s1.is16 = false) ∧
    (∀ x y ch font c bg, (ST7789_WriteChar p x y ch font c bg s).is16 = false) ∧
    (∀ x y str font c bg, (ST7789_WriteString p font c bg str x y s).is16 = false) := by
  refine ⟨?_, ?_, ?_, ?_, ?_, ?_, ?_, ?_, ?_, ?_, ?_⟩
  · intro x y c; rw [DrawPixel_is16]; exact h8
  · intro a b c d e s1 h; exact Fill_is16 _ _ _ _ _ _ _ _ h8 h
  · intro x y w h data; exact DrawImage_is16 _ _ _ _ _ _ _ h8
  · intro a b c d e s1 h; exact DrawLine_is16 _ _ _ _ _ _ _ _ h8 h
  · intro a b c d e s1 h; exact DrawRectangle_is16 _ _ _ _ _ _ _ _ h8 h
  · intro a b c d s1 h; exact DrawCircle_is16 _ _ _ _ _ _ _ h8 h
  · intro a b c d s1 h; exact DrawFilledCircle_is16 _ _ _ _ _ _ _ h8 h
  · intro a b c d e f g s1 h; exact DrawTriangle_is16 _ _ _ _ _ _ _ _ _ _ h8 h
  · intro a b c d e f g s1 h; exact DrawFilledTriangle_is16 _ _ _ _ _ _ _ _ _ _ h8 h
  · intro x y ch font c bg; rw [WriteChar_is16]; exact h8
  · intro x y str font c bg; rw [WriteString_is16]; exact h8

/-- C4 at concrete inputs: on a 240x240 panel, starting from the idle bus
(8-bit words), each of the eleven operations returns and leaves the word
size at 8 bit, an out-of-panel `ST7789_Fill` included. -/
theorem word_width_invariant_witness :
    idleBus.is16 = false ∧
    (ST7789_DrawPixel panel240x240 3 5 0xF800 idleBus).is16 = false ∧
    (∃ s1, ST7789_Fill panel240x240 2 3 9 7 0xF800 idleBus = some s1 ∧ s1.is16 = false) ∧
    (∃ s1, ST7789_Fill panel240x240 2 3 240 7 0xF800 idleBus = some s1 ∧ s1.is16 = false) ∧
    (ST7789_DrawImage panel240x240 1 1 2 2 [1, 2, 3, 4] idleBus).is16 = false ∧
    (∃ s1, ST7789_DrawLine panel240x240 0 0 4 2 0xF800 idleBus = some s1 ∧ s1.is16 = false) ∧
    (∃ s1, ST7789_DrawRectangle panel240x240 3 3 6 5 0xF800 idleBus = some s1 ∧
      s1.is16 = false) ∧
    (∃ s1, ST7789_DrawCircle panel240x240 10 10 3 0xF800 idleBus = some s1 ∧
      s1.is16 = false) ∧
    (∃ s1, ST7789_DrawFilledCircle panel240x240 10 10 3 0xF800 idleBus = some s1 ∧
      s1.is16 = false) ∧
    (∃ s1, ST7789_DrawTriangle panel240x240 0 0 3 0 0 3 0xF800 idleBus = some s1 ∧
      s1.is16 = false) ∧
    (∃ s1, ST7789_DrawFilledTriangle panel240x240 0 0 3 0 0 3 0xF800 idleBus = some s1 ∧
      s1.is16 = false) ∧
    (ST7789_WriteChar panel240x240 0 0 65 stripeFont 0xFFFF 0 idleBus).is16 = false ∧
    (ST7789_WriteString panel240x240 stripeFont 0xFFFF 0 [65, 32, 66] 0 0 idleBus).is16
      = false := by
  have W := word_width_invariant panel240x240 idleBus rfl
  obtain ⟨w1, w2, w3, w4, w5, w6, w7, w8, w9, w10, w11⟩ := W
  refine ⟨rfl, w1 _ _ _, ?_, ?_, w3 _ _ _ _ _, ?_, ?_, ?_, ?_, ?_, ?_, w10 _ _ _ _ _ _,
    w11 _ _ _ _ _ _⟩
  · obtain ⟨s1, h⟩ := exists_of_isSome
      (by decide : (ST7789_Fill panel240x240 2 3 9 7 0xF800 idleBus).isSome = true)
    exact ⟨s1, h, w2 _ _ _ _ _ _ h⟩
  · obtain ⟨s1, h⟩ := exists_of_isSome
      (by decide : (ST7789_Fill panel240x240 2 3 240 7 0xF800 idleBus).isSome = true)
    exact ⟨s1, h, w2 _ _ _ _ _ _ h⟩
  · obtain ⟨s1, h⟩ := exists_of_isSome
      (by decide : (ST7789_DrawLine panel240x240 0 0 4 2 0xF800 idleBus).isSome = true)
    exact ⟨s1, h, w4 _ _ _ _ _ _ h⟩
  · obtain ⟨s1, h⟩ := exists_of_isSome
      (by decide : (ST7789_DrawRectangle panel240x240 3 3 6 5 0xF800 idleBus).isSome = true)
    exact ⟨s1, h, w5 _ _ _ _ _ _ h⟩
  · obtain ⟨s1, h⟩ := exists_of_isSome
      (by decide : (ST7789_DrawCircle panel240x240 10 10 3 0xF800 idleBus).isSome = true)
    exact ⟨s1, h, w6 _ _ _ _ _ h⟩
  · obtain ⟨s1, h⟩ := exists_of_isSome
      (by decide : (ST7789_DrawFilledCircle panel240x240 10 10 3 0xF800 idleBus).isSome = true)
    exact ⟨s1, h, w7 _ _ _ _ _ h⟩
  · obtain ⟨s1, h⟩ := exists_of_isSome
      (by decide : (ST7789_DrawTriangle panel240x240 0 0 3 0 0 3 0xF800 idleBus).isSome = true)
    exact ⟨s1, h, w8 _ _ _ _ _ _ _ _ h⟩
  · obtain ⟨s1, h⟩ := exists_of_isSome
      (by decide :
        (ST7789_DrawFilledTriangle panel240x240 0 0 3 0 0 3 0xF800 idleBus).isSome = true)
    exact ⟨s1, h, w9 _ _ _ _ _ _ _ _ h⟩

/-! ### C5 -/

/-- C5, counterexample: `ST7789_SetRotation(5)` on the idle bus does put a
byte on the bus, the MADCTL command byte 0x36; the claim says zero bytes. -/
theorem SetRotation_mode5_emits_command :
    emitted idleBus (ST7789_SetRotation panel240x320 5 idleBus) = [BusItem.cmd 0x36] ∧
    emitted idleBus (ST7789_SetRotation panel240x320 5 idleBus) ≠ [] := by
  decide

/-- C5 as amended: for every mode outside 0..3 `ST7789_SetRotation` emits
exactly one element, the orientation command byte, and no parameter byte
after it (so no orientation value reaches the controller). -/
theorem SetRotation_invalid_mode (p : Panel) (m : Nat) (s : Bus)
    (hm : 4 ≤ m) (h8 : s.is16 = false) :
    emitted s (ST7789_SetRotation p m s) = [BusItem.cmd (p.MADCTL % 256)] ∧
    (ST7789_SetRotation p m s).is16 = false := by
  obtain ⟨k, rfl⟩ : ∃ k, m = k + 4 := ⟨m - 4, by omega⟩
  have e : ST7789_SetRotation p (k + 4) s = ST7789_WriteCommand p.MADCTL s := rfl
  rw [e, WriteCommand_eq _ _ h8]
  exact ⟨emitted_of_append _ _ _ rfl, h8⟩

/-- C5 as amended, at mode 5 on the idle bus of a 240x320 panel. -/
theorem SetRotation_invalid_mode_witness :
    emitted idleBus (ST7789_SetRotation panel240x320 5 idleBus)
        = [BusItem.cmd (panel240x320.MADCTL % 256)] ∧
    (ST7789_SetRotation panel240x320 5 idleBus).is16 = false :=
  SetRotation_invalid_mode panel240x320 5 idleBus (by decide) rfl

/-! ### C6 -/

/-- C6: in 8-bit mode `ST7789_SetAddressWindow` emits exactly the CASET
command, the four bytes hi(xs), lo(xs), hi(xe), lo(xe), the RASET command,
the four bytes hi(ys), lo(ys), hi(ye), lo(ye) and the RAMWR command, in this
order and nothing else, where xs, xe, ys, ye are the coordinates plus the
panel shift modulo 2^16; every pair decodes big-endian to its coordinate. -/
theorem SetAddressWindow_trace (p : Panel) (x0 y0 x1 y1 : Nat) (s : Bus)
    (h8 : s.is16 = false) :
    emitted s (ST7789_SetAddressWindow p x0 y0 x1 y1 s) =
      [BusItem.cmd (p.CASET % 256),
       BusItem.byte ((x0 + p.X_SHIFT) % 65536 / 256), BusItem.byte ((x0 + p.X_SHIFT) % 65536 % 256),
       BusItem.byte ((x1 + p.X_SHIFT) % 65536 / 256), BusItem.byte ((x1 + p.X_SHIFT) % 65536 % 256),
       BusItem.cmd (p.RASET % 256),
       BusItem.byte ((y0 + p.Y_SHIFT) % 65536 / 256), BusItem.byte ((y0 + p.Y_SHIFT) % 65536 % 256),
       BusItem.byte ((y1 + p.Y_SHIFT) % 65536 / 256), BusItem.byte ((y1 + p.Y_SHIFT) % 65536 % 256),
       BusItem.cmd (p.RAMWR % 256)] ∧
    (∀ v, v ∈ [x0 + p.X_SHIFT, x1 + p.X_SHIFT, y0 + p.Y_SHIFT, y1 + p.Y_SHIFT] →
      v % 65536 / 256 < 256 ∧ v % 65536 % 256 < 256 ∧
      256 * (v % 65536 / 256) + v % 65536 % 256 = v % 65536) ∧
    (ST7789_SetAddressWindow p x0 y0 x1 y1 s).xfers = s.xfers ++ [1, 4, 1, 4, 1] := by
  rw [SetAddressWindow_eq p x0 y0 x1 y1 s h8]
  refine ⟨?_, ?_, rfl⟩
  · apply emitted_of_append
    simp only [windowItems, u16_natCast_add]
  · intro v _
    omega

/-- C6 at a concrete window: (10,20)-(30,40) with shifts (52,40). -/
theorem SetAddressWindow_trace_witness :
    emitted idleBus (ST7789_SetAddressWindow
        { panel240x240 with X_SHIFT := 52, Y_SHIFT := 40 } 10 20 30 40 idleBus) =
      [BusItem.cmd 0x2A, BusItem.byte 0, BusItem.byte 62, BusItem.byte 0, BusItem.byte 82,
       BusItem.cmd 0x2B, BusItem.byte 0, BusItem.byte 60, BusItem.byte 0, BusItem.byte 80,
       BusItem.cmd 0x2C] :=
  (SetAddressWindow_trace { panel240x240 with X_SHIFT := 52, Y_SHIFT := 40 }
    10 20 30 40 idleBus rfl).1

/-! ### C7 -/

/-- C7, at the failing input: on a 240x240 panel `ST7789_WriteChar(238, 0, 'A')`
with the 5x7 font (238 + 5 > 240) reaches `ST7789_SetAddressWindow` with the
window (238,0)-(242,6), whose end column is outside the panel, and puts the
eleven elements of the window sequence and 2*5*7 colour bytes on the bus,
where the claim has no byte at all.  `ST7789_SetAddressWindow` has no test of
its own: the window (300,0)-(10,0) is emitted in full.  The other callers test
the bounds before they call it: for the same rectangle
`ST7789_DrawImage(238,0,5,7)` and `ST7789_Fill(238,0,242,6)` emit nothing, and
neither does `ST7789_DrawPixel(242,0)`; `ST7789_WriteChar` has no such test.
The test of `ST7789_DrawImage` does not cover a width or height of 0:
`ST7789_DrawImage(0,0,0,0)` emits the window (0,0)-(65535,65535). -/
theorem SetAddressWindow_invalid_window_emits :
    238 + stripeFont.width > panel240x240.WIDTH ∧
    (emitted idleBus
      (ST7789_WriteChar panel240x240 238 0 65 stripeFont 0xFFFF 0 idleBus)).length = 81 ∧
    (emitted idleBus
      (ST7789_WriteChar panel240x240 238 0 65 stripeFont 0xFFFF 0 idleBus)).take 11 =
        windowItems panel240x240 238 0 242 6 ∧
    (emitted idleBus (ST7789_SetAddressWindow panel240x240 300 0 10 0 idleBus)).length = 11 ∧
    ¬ (300 < panel240x240.WIDTH) ∧ 10 < 300 ∧
    (∀ data, ST7789_DrawImage panel240x240 238 0 5 7 data idleBus = idleBus) ∧
    ST7789_Fill panel240x240 238 0 242 6 0xFFFF idleBus = some idleBus ∧
    ST7789_DrawPixel panel240x240 242 0 0xFFFF idleBus = idleBus ∧
    emitted idleBus (ST7789_DrawImage panel240x240 0 0 0 0 [] idleBus) =
      windowItems panel240x240 0 0 65535 65535 := by
  refine ⟨by decide, ?_, ?_, by decide, by decide, by decide, fun data => rfl,
    Fill_rejected _ _ _ _ _ _ _ (Or.inl (by decide)),
    DrawPixel_rejected _ _ _ _ _ (Or.inl (by decide)), by decide⟩
  · rw [WriteChar_emitted_length _ _ _ _ _ _ _ _ rfl]
    rfl
  · rw [emitted_of_append idleBus _ _
      (by rw [WriteChar_trace panel240x240 238 0 65 stripeFont 0xFFFF 0 idleBus rfl,
        List.append_assoc])]
    exact List.take_left' rfl

/-! ### C8 -/

/-- C8: in 8-bit mode the bus trace of `ST7789_DrawPixel(x,y,color)` for a
point inside the panel is the trace of `ST7789_SetAddressWindow(x,y,x,y)`
followed by the two data bytes `color>>8` and `color&0xFF`; for a point
outside the panel nothing is emitted (the bus state is returned as it was). -/
theorem DrawPixel_trace (p : Panel) (x y color : Nat) (s : Bus)
    (h8 : s.is16 = false) (hc : color < 65536) :
    emitted s (ST7789_DrawPixel p x y color s) =
      (if x < p.WIDTH ∧ y < p.HEIGHT then
        emitted s (ST7789_SetAddressWindow p x y x y s) ++
          [BusItem.byte (color / 256), BusItem.byte (color % 256)]
       else []) ∧
    (¬ (x < p.WIDTH ∧ y < p.HEIGHT) → ST7789_DrawPixel p x y color s = s) := by
  by_cases hin : x < p.WIDTH ∧ y < p.HEIGHT
  · have hhi : color / 256 % 256 = color / 256 := by omega
    have e1 : emitted s (ST7789_SetAddressWindow p x y x y s) = windowItems p x y x y := by
      rw [SetAddressWindow_eq p x y x y s h8]
      exact emitted_of_append _ _ _ rfl
    rw [if_pos hin, e1, DrawPixel_eq p x y color s h8 hin.1 hin.2, hhi]
    exact ⟨emitted_of_append _ _ _ rfl, fun h => absurd hin h⟩
  · have hr := DrawPixel_rejected p x y color s (by omega)
    rw [if_neg hin, hr]
    exact ⟨emitted_self s, fun _ => rfl⟩

/-- C8 at two concrete points of a 240x240 panel: (3,5) inside, (240,5)
outside. -/
theorem DrawPixel_trace_witness :
    emitted idleBus (ST7789_DrawPixel panel240x240 3 5 0x1234 idleBus) =
      [BusItem.cmd 0x2A, BusItem.byte 0, BusItem.byte 3, BusItem.byte 0, BusItem.byte 3,
       BusItem.cmd 0x2B, BusItem.byte 0, BusItem.byte 5, BusItem.byte 0, BusItem.byte 5,
       BusItem.cmd 0x2C, BusItem.byte 0x12, BusItem.byte 0x34] ∧
    emitted idleBus (ST7789_DrawPixel panel240x240 240 5 0x1234 idleBus) = [] :=
  ⟨(DrawPixel_trace panel240x240 3 5 0x1234 idleBus rfl (by decide)).1,
   (DrawPixel_trace panel240x240 240 5 0x1234 idleBus rfl (by decide)).1⟩

/-! ### C9 -/

/-- C9: a line with `y0 = y1` is the call `ST7789_Fill(min(x0,x1), y0,
max(x0,x1), y0, c)` and a line with `x0 = x1` is the call `ST7789_Fill(x0,
min(y0,y1), x0, max(y0,y1), c)` (same returned bus state, hence same trace);
for endpoints inside the panel the call returns and the controller, reading
the trace back, has written exactly the cells (x, y0) for x from min(x0,x1)
to max(x0,x1), resp. (x0, y) for y from min(y0,y1) to max(y0,y1), in this
order, each once. -/
theorem DrawLine_axis_aligned (p : Panel) (hp : p.wf) (x0 y0 x1 y1 c : Nat) (s : Bus)
    (h8 : s.is16 = false) (hc : c < 65536)
    (hx0 : x0 < p.WIDTH) (hx1 : x1 < p.WIDTH) (hy0 : y0 < p.HEIGHT) (hy1 : y1 < p.HEIGHT) :
    ST7789_DrawLine p x0 y0 x1 y0 c s = ST7789_Fill p (min x0 x1) y0 (max x0 x1) y0 c s ∧
    ST7789_DrawLine p x0 y0 x0 y1 c s = ST7789_Fill p x0 (min y0 y1) x0 (max y0 y1) c s ∧
    (∃ s1, ST7789_DrawLine p x0 y0 x1 y0 c s = some s1 ∧
      painted p (emitted s s1) =
        (List.range (max x0 x1 - min x0 x1 + 1)).map (fun k => (min x0 x1 + k, y0, c))) ∧
    (∃ s1, ST7789_DrawLine p x0 y0 x0 y1 c s = some s1 ∧
      painted p (emitted s s1) =
        (List.range (max y0 y1 - min y0 y1 + 1)).map (fun k => (x0, min y0 y1 + k, c))) := by
  obtain ⟨w1, w2, -, -, -⟩ := id hp
  refine ⟨DrawLine_horizontal_eq p x0 y0 x1 c s, DrawLine_vertical_eq p x0 y0 y1 c s, ?_, ?_⟩
  · have hmin : min x0 x1 ≤ max x0 x1 := le_trans (min_le_left _ _) (le_max_left _ _)
    have hmax : max x0 x1 < p.WIDTH := max_lt hx0 hx1
    obtain ⟨s1, e1, -, -, e4⟩ := Fill_painted p hp (min x0 x1) y0 (max x0 x1) y0 c s h8 hc
      hmin hmax le_rfl hy0 (by simp only [Nat.sub_self]; omega)
    refine ⟨s1, by rw [DrawLine_horizontal_eq, e1], ?_⟩
    rw [e4]
    simp only [Nat.sub_self, Nat.zero_add, Nat.mul_one]
    apply List.map_congr_left
    intro k hk
    have hk2 := List.mem_range.mp hk
    rw [Nat.mod_eq_of_lt hk2, Nat.div_eq_of_lt hk2, Nat.add_zero]
  · have hmin : min y0 y1 ≤ max y0 y1 := le_trans (min_le_left _ _) (le_max_left _ _)
    have hmax : max y0 y1 < p.HEIGHT := max_lt hy0 hy1
    obtain ⟨s1, e1, -, -, e4⟩ := Fill_painted p hp x0 (min y0 y1) x0 (max y0 y1) c s h8 hc
      le_rfl hx0 hmin hmax (by simp only [Nat.sub_self]; omega)
    refine ⟨s1, by rw [DrawLine_vertical_eq, e1], ?_⟩
    rw [e4]
    simp only [Nat.sub_self, Nat.zero_add, Nat.one_mul, Nat.mod_one, Nat.div_one, Nat.add_zero]

/-- C9 at the specification's input: `drawLine(0,0,4,0,C)` on a 240x240 panel
returns and writes the cells (0,0), (1,0), (2,0), (3,0), (4,0). -/
theorem DrawLine_axis_aligned_witness :
    ∃ s1, ST7789_DrawLine panel240x240 0 0 4 0 0xF800 idleBus = some s1 ∧
      painted panel240x240 (emitted idleBus s1) =
        [(0, 0, 0xF800), (1, 0, 0xF800), (2, 0, 0xF800), (3, 0, 0xF800), (4, 0, 0xF800)] :=
  (DrawLine_axis_aligned panel240x240 (by decide) 0 0 4 0 0xF800 idleBus rfl (by decide)
    (by decide) (by decide) (by decide) (by decide)).2.2.1

/-! ### C10 -/

/-- C10: for endpoints inside a panel at most 32768 columns wide with
`|x1-x0| = |y1-y0| = n >= 1`, `ST7789_DrawLine` returns, and what it does is
exactly the `n+1` calls `ST7789_DrawPixel(xa + k, ya + k*s)` for k = 0..n in
this order, where (xa,ya) is the endpoint with the smaller x and s the
direction of y towards the other endpoint; read back by the controller these
are the cells (xa + k, ya + k*s), each written once. -/
theorem DrawLine_diagonal (p : Panel) (hp : p.wf) (hw : p.WIDTH ≤ 32768)
    (x0 y0 x1 y1 c n : Nat) (s : Bus) (h8 : s.is16 = false) (hc : c < 65536)
    (hx0 : x0 < p.WIDTH) (hx1 : x1 < p.WIDTH) (hy0 : y0 < p.HEIGHT) (hy1 : y1 < p.HEIGHT)
    (hn : 1 ≤ n) (hdx : Int.natAbs ((x1 : Int) - x0) = n) (hdy : Int.natAbs ((y1 : Int) - y0) = n) :
    let xa := min x0 x1
    let ya := if x0 < x1 then y0 else y1
    let yb := if x0 < x1 then y1 else y0
    let pts := (List.range (n + 1)).map (fun k => (xa + k, if ya < yb then ya + k else ya - k))
    ST7789_DrawLine p x0 y0 x1 y1 c s = some (drawPixels p c pts s) ∧
    painted p (emitted s (drawPixels p c pts s)) = pts.map (fun q => (q.1, q.2, c)) ∧
    pts.length = n + 1 ∧ pts.Nodup := by
  intro xa ya yb pts
  obtain ⟨w1, w2, -, -, -⟩ := id hp
  have hxne : x0 ≠ x1 := by omega
  have hyne : y0 ≠ y1 := by omega
  have hsteep : ¬ (ABS ((y1 : Int) - y0) > ABS ((x1 : Int) - x0)) := by
    rw [ABS_eq_natAbs, ABS_eq_natAbs]; omega
  have hpts : ∀ q ∈ pts, q.1 < p.WIDTH ∧ q.2 < p.HEIGHT := by
    intro q hq
    obtain ⟨k, hk, rfl⟩ := List.mem_map.mp hq
    have hk2 := List.mem_range.mp hk
    simp only [xa, ya, yb]
    by_cases h : x0 < x1
    · simp only [h, if_true, min_eq_left (le_of_lt h)]
      constructor
      · omega
      · split <;> omega
    · simp only [h, if_false, min_eq_right (by omega : x1 ≤ x0)]
      constructor
      · omega
      · split <;> omega
  refine ⟨?_, drawPixels_painted p hp c hc pts hpts s h8, by simp [pts], ?_⟩
  · unfold ST7789_DrawLine
    rw [if_neg hxne, if_neg hyne]
    unfold DrawLine_general
    simp only [hsteep, decide_False, Bool.false_eq_true, if_false]
    by_cases h : x0 < x1
    · have hgt : ¬ (x0 > x1) := by omega
      simp only [hgt, if_false]
      have := DrawLine_diag_ordered p x0 y0 x1 y1 c n s hn (by omega) (by omega) (by omega)
        (by omega) (by omega) (by omega)
      rw [this]
      simp only [pts, xa, ya, yb, h, if_true, min_eq_left (le_of_lt h)]
    · have hgt : x0 > x1 := by omega
      simp only [hgt, if_true]
      have := DrawLine_diag_ordered p x1 y1 x0 y0 c n s hn (by omega) (by omega) (by omega)
        (by omega) (by omega) (by omega)
      rw [this]
      simp only [pts, xa, ya, yb, h, if_false, min_eq_right (by omega : x1 ≤ x0)]
  · apply List.Nodup.map_on _ (List.nodup_range _)
    intro a _ b _ hab
    simp only [Prod.mk.injEq] at hab
    omega

/-- C10 at the specification's input and at a falling diagonal:
`drawLine(0,0,4,4,C)` writes (0,0), (1,1), (2,2), (3,3), (4,4) and
`drawLine(7,1,4,4,C)` writes (4,4), (5,3), (6,2), (7,1). -/
theorem DrawLine_diagonal_witness :
    (ST7789_DrawLine panel240x240 0 0 4 4 0xF800 idleBus =
        some (drawPixels panel240x240 0xF800 [(0, 0), (1, 1), (2, 2), (3, 3), (4, 4)] idleBus) ∧
      painted panel240x240 (emitted idleBus
          (drawPixels panel240x240 0xF800 [(0, 0), (1, 1), (2, 2), (3, 3), (4, 4)] idleBus)) =
        [(0, 0, 0xF800), (1, 1, 0xF800), (2, 2, 0xF800), (3, 3, 0xF800), (4, 4, 0xF800)]) ∧
    (ST7789_DrawLine panel240x240 7 1 4 4 0xF800 idleBus =
        some (drawPixels panel240x240 0xF800 [(4, 4), (5, 3), (6, 2), (7, 1)] idleBus) ∧
      painted panel240x240 (emitted idleBus
          (drawPixels panel240x240 0xF800 [(4, 4), (5, 3), (6, 2), (7, 1)] idleBus)) =
        [(4, 4, 0xF800), (5, 3, 0xF800), (6, 2, 0xF800), (7, 1, 0xF800)]) :=
  ⟨⟨(DrawLine_diagonal panel240x240 (by decide) (by decide) 0 0 4 4 0xF800 4 idleBus rfl
      (by decide) (by decide) (by decide) (by decide) (by decide) (by decide) (by decide)
      (by decide)).1,
    (DrawLine_diagonal panel240x240 (by decide) (by decide) 0 0 4 4 0xF800 4 idleBus rfl
      (by decide) (by decide) (by decide) (by decide) (by decide) (by decide) (by decide)
      (by decide)).2.1⟩,
   ⟨(DrawLine_diagonal panel240x240 (by decide) (by decide) 7 1 4 4 0xF800 3 idleBus rfl
      (by decide) (by decide) (by decide) (by decide) (by decide) (by decide) (by decide)
      (by decide)).1,
    (DrawLine_diagonal panel240x240 (by decide) (by decide) 7 1 4 4 0xF800 3 idleBus rfl
      (by decide) (by decide) (by decide) (by decide) (by decide) (by decide) (by decide)
      (by decide)).2.1⟩⟩

/-! ### C15 -/

/-- C15: for every size `n`, `ST7789_WriteData` makes exactly ceil(n/65535)
HAL transmissions (none for n = 0): n div 65535 of length 65535 and then, when
n is no multiple of 65535, one of length n mod 65535; every length is
between 1 and 65535, every one but the last is 65535, and the lengths sum
to `n`.  The loop ends: its own `n` rounds of fuel are never used up, more
fuel gives the same run. -/
theorem WriteData_chunking (p : Panel) (mem : List Nat) (off n : Nat) (s : Bus) :
    (ST7789_WriteData p mem off n s).xfers =
      s.xfers ++ (List.replicate (n / 65535) 65535 ++
        (if n % 65535 = 0 then [] else [n % 65535])) ∧
    (List.replicate (n / 65535) 65535 ++
        (if n % 65535 = 0 then [] else [n % 65535])).length = (n + 65534) / 65535 ∧
    (List.replicate (n / 65535) 65535 ++
        (if n % 65535 = 0 then [] else [n % 65535])).sum = n ∧
    (∀ l ∈ List.replicate (n / 65535) 65535 ++
        (if n % 65535 = 0 then [] else [n % 65535]), 1 ≤ l ∧ l ≤ 65535) ∧
    (∀ k s0, WriteData_loop p mem (n + k) off n s0 = WriteData_loop p mem n off n s0) := by
  refine ⟨?_, length_chunkSizes n, sum_chunkSizes n, ?_, ?_⟩
  · unfold ST7789_WriteData
    show (WriteData_loop p mem n off n _).xfers = _
    rw [WriteData_loop_xfers p mem n n off _ le_rfl]
    rfl
  · intro l hl
    rcases List.mem_append.mp hl with h | h
    · have := List.eq_of_mem_replicate h
      omega
    · split at h
      · simp at h
      · simp only [List.mem_singleton] at h
        omega
  · intro k s0
    exact WriteData_loop_fuel p mem n n k off s0 le_rfl

/-! ### C18 -/

/-- C18: for every rectangle inside the panel whose pixel count n is at
least `DMA_min_Sz` = 16 and at most 65535, `ST7789_Fill` built with `USE_DMA`
and built without it both return, emit the same elements (the window
sequence, then n samples of the colour) and leave the word size at 8 bit.
The `USE_DMA` build makes one transfer of n elements with the memory address
held; the other build sends blocks of min(n,64) elements and then the
remainder. -/
theorem Fill_strategies_agree (p : Panel) (xSta ySta xEnd yEnd c : Nat) (s : Bus)
    (h8 : s.is16 = false) (hc : c < 65536)
    (hx : xSta ≤ xEnd) (hxe : xEnd < p.WIDTH) (hy : ySta ≤ yEnd) (hye : yEnd < p.HEIGHT)
    (hlo : DMA_min_Sz ≤ (xEnd - xSta + 1) * (yEnd - ySta + 1))
    (hhi : (xEnd - xSta + 1) * (yEnd - ySta + 1) ≤ 65535) :
    ∃ sd sb,
      ST7789_Fill { p with USE_DMA := true } xSta ySta xEnd yEnd c s = some sd ∧
      ST7789_Fill { p with USE_DMA := false } xSta ySta xEnd yEnd c s = some sb ∧
      emitted s sd = emitted s sb ∧
      emitted s sb = windowItems p xSta ySta xEnd yEnd ++
        List.replicate ((xEnd - xSta + 1) * (yEnd - ySta + 1)) (BusItem.sample c) ∧
      sd.is16 = false ∧ sb.is16 = false ∧
      sd.xfers = s.xfers ++ [1, 4, 1, 4, 1] ++ [(xEnd - xSta + 1) * (yEnd - ySta + 1)] ∧
      sd.memInc = false ∧
      sb.xfers = s.xfers ++ [1, 4, 1, 4, 1] ++
        (List.replicate ((xEnd - xSta + 1) * (yEnd - ySta + 1) /
            (if (xEnd - xSta + 1) * (yEnd - ySta + 1) < 64
              then (xEnd - xSta + 1) * (yEnd - ySta + 1) else 64))
          (if (xEnd - xSta + 1) * (yEnd - ySta + 1) < 64
            then (xEnd - xSta + 1) * (yEnd - ySta + 1) else 64) ++
         (if (xEnd - xSta + 1) * (yEnd - ySta + 1) %
            (if (xEnd - xSta + 1) * (yEnd - ySta + 1) < 64
              then (xEnd - xSta + 1) * (yEnd - ySta + 1) else 64) = 0 then []
          else [(xEnd - xSta + 1) * (yEnd - ySta + 1) %
            (if (xEnd - xSta + 1) * (yEnd - ySta + 1) < 64
              then (xEnd - xSta + 1) * (yEnd - ySta + 1) else 64)])) := by
  generalize hn : (xEnd - xSta + 1) * (yEnd - ySta + 1) = n at hlo hhi ⊢
  have hpix : u16 (((xEnd : Int) - xSta + 1) * ((yEnd : Int) - ySta + 1)) = n := by
    have e1 : (xEnd : Int) - xSta + 1 = ((xEnd - xSta + 1 : Nat) : Int) := by omega
    have e2 : (yEnd : Int) - ySta + 1 = ((yEnd - ySta + 1 : Nat) : Int) := by omega
    rw [e1, e2, ← Int.natCast_mul, hn]
    exact u16_natCast _ (by omega)
  have hn0 : n ≠ 0 := by unfold DMA_min_Sz at hlo; omega
  obtain ⟨sd, d1, d2, -, -, d5⟩ := Fill_spec { p with USE_DMA := true } xSta ySta xEnd yEnd c s
    hxe hye h8 hc (by rw [hpix]; exact hn0)
  obtain ⟨sb, b1, b2, -, -, b5⟩ := Fill_spec { p with USE_DMA := false } xSta ySta xEnd yEnd c s
    hxe hye h8 hc (by rw [hpix]; exact hn0)
  obtain ⟨sd', d1', dx, -⟩ := Fill_xfers { p with USE_DMA := true } xSta ySta xEnd yEnd c s
    hxe hye h8 hc n hpix hn0
  obtain ⟨sb', b1', -, bx⟩ := Fill_xfers { p with USE_DMA := false } xSta ySta xEnd yEnd c s
    hxe hye h8 hc n hpix hn0
  rw [d1] at d1'
  rw [b1] at b1'
  obtain rfl : sd = sd' := Option.some.inj d1'
  obtain rfl : sb = sb' := Option.some.inj b1'
  rw [hpix, List.append_assoc] at d5 b5
  have ed := emitted_of_append s sd _ d5
  have eb := emitted_of_append s sb _ b5
  have ew : windowItems { p with USE_DMA := true } xSta ySta xEnd yEnd =
      windowItems p xSta ySta xEnd yEnd := rfl
  have ew2 : windowItems { p with USE_DMA := false } xSta ySta xEnd yEnd =
      windowItems p xSta ySta xEnd yEnd := rfl
  rw [ew] at ed
  rw [ew2] at eb
  obtain ⟨dx1, dx2⟩ := dx ⟨rfl, hlo⟩
  obtain ⟨bx1, -⟩ := bx (by simp)
  exact ⟨sd, sb, d1, b1, by rw [ed, eb], eb, d2, b2, dx1, dx2, bx1⟩

/-- C18 at a concrete rectangle: (2,3)-(21,7) on a 240x240 panel, 100 pixels:
one transfer of 100 elements with `USE_DMA`, one block of 64 and a remainder
of 36 without, the same 111 elements on the bus. -/
theorem Fill_strategies_agree_witness :
    ∃ sd sb,
      ST7789_Fill { panel240x240 with USE_DMA := true } 2 3 21 7 0xF800 idleBus = some sd ∧
      ST7789_Fill { panel240x240 with USE_DMA := false } 2 3 21 7 0xF800 idleBus = some sb ∧
      emitted idleBus sd = emitted idleBus sb ∧
      emitted idleBus sb = windowItems panel240x240 2 3 21 7 ++
        List.replicate 100 (BusItem.sample 0xF800) ∧
      sd.is16 = false ∧ sb.is16 = false ∧
      sd.xfers = [1, 4, 1, 4, 1, 100] ∧ sd.memInc = false ∧
      sb.xfers = [1, 4, 1, 4, 1, 64, 36] :=
  Fill_strategies_agree panel240x240 2 3 21 7 0xF800 idleBus rfl (by decide) (by decide)
    (by decide) (by decide) (by decide) (by decide) (by decide)

/-! ### C19 -/

/-- C19, at the failing input: `ST7789_Fill(1,0,0,0,0xF800)` passes the guard
(`xEnd` = 0, `yEnd` = 0) with `pixels` = (0-1+1)*(0-0+1) = 0, so `blockSz` is
0 and `while (pixels >= blockSz)` is `while (0 >= 0)` with `pixels -= 0`: the
loop does not leave, whatever the fuel, in the blocking build and in the
`USE_DMA` build (where 0 is below `DMA_min_Sz`), and the call does not
return. -/
theorem Fill_zero_count_never_returns :
    ST7789_Fill panel240x240 1 0 0 0 0xF800 idleBus = none ∧
    ST7789_Fill { panel240x240 with USE_DMA := true } 1 0 0 0 0xF800 idleBus = none ∧
    u16 ((((0 : Nat) : Int) - ((1 : Nat) : Int) + 1) * (((0 : Nat) : Int) - ((0 : Nat) : Int) + 1))
      = 0 ∧
    (∀ (p : Panel) (fuel pixels : Nat) (s : Bus),
      Fill_blocks p (bytesOf16 (List.replicate 0 0xF800)) 0 fuel pixels s = none) :=
  ⟨Fill_zero_count_none panel240x240 1 0 0 0 0xF800 idleBus (by decide) (by decide) (by decide),
   Fill_zero_count_none { panel240x240 with USE_DMA := true } 1 0 0 0 0xF800 idleBus
     (by decide) (by decide) (by decide),
   by decide,
   fun p fuel pixels s => Fill_blocks_zero p _ fuel pixels s⟩

/-! ### C13 -/

/-- C13: when `ST7789_WriteString` reaches a space at a cursor where the glyph
no longer fits (x + font.width >= WIDTH) and the next row is still inside the
panel, it moves the cursor to (0, y + font.height), draws nothing for that
space, and makes its next `ST7789_WriteChar` call for the character after
the space at x = 0 of the new row, whatever that character is (a second
space is drawn); when the space was the last character nothing more is
drawn.  Needs font.width < WIDTH, so that x = 0 does not wrap again. -/
theorem WriteString_wrap_skips_one_space (p : Panel) (font : FontDef) (color bgcolor : Nat)
    (x y ch : Nat) (rest : List Nat) (s : Bus)
    (hw : font.width < p.WIDTH) (hwrap : x + font.width ≥ p.WIDTH)
    (hrow : u16 ((y : Int) + font.height) + font.height < p.HEIGHT) :
    WriteString_calls p font (32 :: ch :: rest) x y =
      (0, u16 ((y : Int) + font.height), ch) ::
        WriteString_calls p font rest (u16 ((0 : Int) + font.width))
          (u16 ((y : Int) + font.height)) ∧
    ST7789_WriteString p font color bgcolor (32 :: ch :: rest) x y s =
      ST7789_WriteString p font color bgcolor rest (u16 ((0 : Int) + font.width))
        (u16 ((y : Int) + font.height))
        (ST7789_WriteChar p 0 (u16 ((y : Int) + font.height)) ch font color bgcolor s) ∧
    WriteString_calls p font [32] x y = [] ∧
    ST7789_WriteString p font color bgcolor [32] x y s = s := by
  have h1 : (x : Int) + font.width ≥ p.WIDTH := by omega
  have h2 : ¬ ((u16 ((y : Int) + font.height) : Int) + font.height ≥ p.HEIGHT) := by omega
  have h3 : ¬ (((0 : Nat) : Int) + font.width ≥ p.WIDTH) := by omega
  refine ⟨?_, ?_, ?_, ?_⟩
  · rw [WriteString_calls]
    simp only [h1, h2, if_true, if_false]
    rw [WriteString_calls]
    simp only [h3, if_false]
    rfl
  · rw [ST7789_WriteString]
    simp only [h1, h2, if_true, if_false]
    rw [ST7789_WriteString]
    simp only [h3, if_false]
    rfl
  · rw [WriteString_calls]
    simp only [h1, h2, if_true, if_false]
    rfl
  · rw [ST7789_WriteString]
    simp only [h1, h2, if_true, if_false]
    rfl

/-- C13 at the specification's input: a 240 wide panel and a 10 wide font,
start x = 240 - 15 = 225, the strings "A B" and "A  B": 'A' is drawn at
(225,0), the space that follows meets the wrap and is skipped, and the next
character is drawn at (0,18), be it 'B' or a second space. -/
theorem WriteString_wrap_skips_one_space_witness :
    WriteString_calls panel240x240 font10x18 [65, 32, 66] 225 0 = [(225, 0, 65), (0, 18, 66)] ∧
    WriteString_calls panel240x240 font10x18 [65, 32, 32, 66] 225 0 =
      [(225, 0, 65), (0, 18, 32), (10, 18, 66)] ∧
    WriteString_calls panel240x240 font10x18 (32 :: 66 :: []) 235 0 =
      (0, u16 (((0 : Nat) : Int) + font10x18.height), 66) ::
        WriteString_calls panel240x240 font10x18 [] (u16 ((0 : Int) + font10x18.width))
          (u16 (((0 : Nat) : Int) + font10x18.height)) :=
  ⟨by decide, by decide,
   (WriteString_wrap_skips_one_space panel240x240 font10x18 0xFFFF 0 235 0 66 [] idleBus
      (by decide) (by decide) (by decide)).1⟩

/-! ### C16 -/

/-- C16, at the failing input: on a 240 wide panel with a 10 wide font the
cursor x = 230 leaves room for exactly one glyph (columns 230..239,
230 + 10 = 240), yet `ST7789_WriteString` wraps: the test is
`x + font.width >= ST7789_WIDTH`, and the single character 'A' is drawn at
(0,18) instead of (230,0).  One column to the left, at x = 229, it is drawn
on the current row. -/
theorem WriteString_exact_fit_wraps :
    WriteString_calls panel240x240 font10x18 [65] 230 0 = [(0, 18, 65)] ∧
    ST7789_WriteString panel240x240 font10x18 0xFFFF 0 [65] 230 0 idleBus =
      ST7789_WriteChar panel240x240 0 18 65 font10x18 0xFFFF 0 idleBus ∧
    230 + font10x18.width = panel240x240.WIDTH ∧
    WriteString_calls panel240x240 font10x18 [65] 229 0 = [(229, 0, 65)] := by
  refine ⟨by decide, ?_, by decide, by decide⟩
  rw [WriteString_eq_calls]
  have e : WriteString_calls panel240x240 font10x18 [65] 230 0 = [(0, 18, 65)] := by decide
  rw [e]
  rfl

/-! ### C14 -/

/-- C14: for a font with 1 <= width <= 16 and a character code ch >= 32
whose rows lie in the font table, `ST7789_WriteChar` called in 8-bit mode with
16-bit colours emits the window sequence for (x, y, x+width-1, y+height-1)
(corners as `uint16_t`) and then, row by row and column by column, two data
bytes for each of the width*height cells, high byte first: those of `color`
when bit (15 - j) of the row word `font.data[(ch-32)*height + i]` is set,
those of `bgcolor` otherwise; nothing else. -/
theorem WriteChar_glyph (p : Panel) (x y ch : Nat) (font : FontDef) (color bgcolor : Nat)
    (s : Bus) (h8 : s.is16 = false) (hc : color < 65536) (hb : bgcolor < 65536)
    (hw1 : 1 ≤ font.width) (hw : font.width ≤ 16) (hch : 32 ≤ ch)
    (htab : (ch - 32) * font.height + font.height ≤ font.data.length) :
    emitted s (ST7789_WriteChar p x y ch font color bgcolor s) =
      windowItems p x y (u16 ((x : Int) + font.width - 1)) (u16 ((y : Int) + font.height - 1)) ++
        (List.range font.height).flatMap (fun i =>
          (List.range font.width).flatMap (fun j =>
            if ((font.data[(ch - 32) * font.height + i]?).getD 0).testBit (15 - j) = true then
              [BusItem.byte (color / 256), BusItem.byte (color % 256)]
            else [BusItem.byte (bgcolor / 256), BusItem.byte (bgcolor % 256)])) ∧
    (emitted s (ST7789_WriteChar p x y ch font color bgcolor s)).length =
      11 + 2 * (font.width * font.height) ∧
    (x + font.width ≤ 65536 → u16 ((x : Int) + font.width - 1) = x + font.width - 1) ∧
    (1 ≤ font.height → y + font.height ≤ 65536 →
      u16 ((y : Int) + font.height - 1) = y + font.height - 1) ∧
    (∀ i, i < font.height → (ch - 32) * font.height + i < font.data.length) := by
  refine ⟨?_, WriteChar_emitted_length p x y ch font color bgcolor s h8, ?_, ?_, ?_⟩
  · apply emitted_of_append
    rw [WriteChar_trace p x y ch font color bgcolor s h8, List.append_assoc]
    congr 2
    apply flatMap_congr_mem
    intro i _
    apply flatMap_congr_mem
    intro j hj
    have hj2 : j ≤ 15 := by have := List.mem_range.mp hj; omega
    have e1 : color / 256 % 256 = color / 256 := by omega
    have e2 : bgcolor / 256 % 256 = bgcolor / 256 := by omega
    rw [e1, e2, fontRow_eq font ch i hch]
    by_cases hbit : ((font.data[(ch - 32) * font.height + i]?).getD 0).testBit (15 - j) = true
    · rw [if_pos hbit, if_pos ((glyph_bit _ j hj2).mpr hbit)]
    · rw [if_neg hbit, if_neg (fun h => hbit ((glyph_bit _ j hj2).mp h))]
  · intro h
    unfold u16
    omega
  · intro h1 h2
    unfold u16
    omega
  · intro i hi
    omega

set_option maxRecDepth 100000 in
/-- C14 at a concrete glyph: 'A' in the 5x7 stripe font (row word 0xA800:
columns 0, 2, 4 set) at (3,4), white on black; the first row is white,
black, white, black, white. -/
theorem WriteChar_glyph_witness :
    (emitted idleBus (ST7789_WriteChar panel240x240 3 4 65 stripeFont 0xFFFF 0 idleBus)).take 21 =
      [BusItem.cmd 0x2A, BusItem.byte 0, BusItem.byte 3, BusItem.byte 0, BusItem.byte 7,
       BusItem.cmd 0x2B, BusItem.byte 0, BusItem.byte 4, BusItem.byte 0, BusItem.byte 10,
       BusItem.cmd 0x2C,
       BusItem.byte 0xFF, BusItem.byte 0xFF, BusItem.byte 0, BusItem.byte 0,
       BusItem.byte 0xFF, BusItem.byte 0xFF, BusItem.byte 0, BusItem.byte 0,
       BusItem.byte 0xFF, BusItem.byte 0xFF] ∧
    (emitted idleBus (ST7789_WriteChar panel240x240 3 4 65 stripeFont 0xFFFF 0 idleBus)).length =
      11 + 2 * (5 * 7) := by
  obtain ⟨h1, h2, -, -, -⟩ := WriteChar_glyph panel240x240 3 4 65 stripeFont 0xFFFF 0 idleBus rfl
    (by decide) (by decide) (by decide) (by decide) (by decide)
    (by
      show (65 - 32) * 7 + 7 ≤ (List.replicate (7 * 96) 0xA800).length
      rw [List.length_replicate]
      decide)
  refine ⟨?_, h2⟩
  rw [h1]
  rfl

/-! ### C11 -/

/-- C11: for endpoints inside a panel of at most 32768 columns and rows that
differ in both coordinates, with the major axis y when `|y1-y0| > |x1-x0|`
and x otherwise, (a0,b0), (a1,b1) the endpoints in (major, minor) coordinates
ordered so that a0 < a1, dx = a1 - a0 and dy = |b1 - b0|: `ST7789_DrawLine`
returns, and what it does is exactly the dx+1 calls of `ST7789_DrawPixel` at
major coordinate a0 + k and minor coordinate
b0 + floor((k*dy + dx - 1 - floor(dx/2)) / dx) when b0 < b1 and
b0 - floor((k*dy + dx - 1 - floor(dx/2)) / dx) otherwise, for k = 0..dx in
this order; read back by the controller these are
the cells painted, in that order; the first is (a0,b0) and the last (a1,b1). -/
theorem DrawLine_bresenham (p : Panel) (hp : p.wf) (hw : p.WIDTH ≤ 32768)
    (hh : p.HEIGHT ≤ 32768) (x0 y0 x1 y1 c : Nat) (s : Bus) (h8 : s.is16 = false)
    (hc : c < 65536) (hx0 : x0 < p.WIDTH) (hx1 : x1 < p.WIDTH) (hy0 : y0 < p.HEIGHT)
    (hy1 : y1 < p.HEIGHT) (hx : x0 ≠ x1) (hy : y0 ≠ y1) :
    let steep : Bool := decide (Int.natAbs ((y1 : Int) - y0) > Int.natAbs ((x1 : Int) - x0))
    let A0 := if steep then y0 else x0
    let B0 := if steep then x0 else y0
    let A1 := if steep then y1 else x1
    let B1 := if steep then x1 else y1
    let a0 := min A0 A1
    let a1 := max A0 A1
    let b0 := if A0 < A1 then B0 else B1
    let b1 := if A0 < A1 then B1 else B0
    let dx := a1 - a0
    let dy := Int.natAbs ((b1 : Int) - b0)
    let pts := (List.range (dx + 1)).map (fun k =>
      linePoint steep (a0 + k)
        (if b0 < b1 then b0 + (k * dy + dx - 1 - dx / 2) / dx
         else b0 - (k * dy + dx - 1 - dx / 2) / dx))
    ST7789_DrawLine p x0 y0 x1 y1 c s = some (drawPixels p c pts s) ∧
    painted p (emitted s (drawPixels p c pts s)) = pts.map (fun q => (q.1, q.2, c)) ∧
    pts.length = dx + 1 ∧
    pts.head? = some (linePoint steep a0 b0) ∧
    pts.getLast? = some (linePoint steep a1 b1) := by
  intro steep A0 B0 A1 B1 a0 a1 b0 b1 dx dy pts
  have hpts : pts = bresenhamPoints steep a0 b0 b1 dx dy := rfl
  have hA : A0 ≠ A1 := by
    simp only [A0, A1, steep]
    by_cases hst : Int.natAbs ((y1 : Int) - y0) > Int.natAbs ((x1 : Int) - x0)
    · simp only [hst, decide_True, if_true]; exact hy
    · simp only [hst, decide_False, Bool.false_eq_true, if_false]; exact hx
  have h01 : a0 < a1 := by
    simp only [a0, a1]
    omega
  have hline : bresenhamLine x0 y0 x1 y1 = pts := by
    rw [hpts]
    unfold bresenhamLine bresenhamOrdered
    simp only [dy, dx, b0, b1, a0, a1, A0, A1, B0, B1, steep]
    by_cases hst : Int.natAbs ((y1 : Int) - y0) > Int.natAbs ((x1 : Int) - x0)
    · simp only [hst, decide_True, if_true]
      by_cases h : y0 < y1
      · simp only [h, if_true, min_eq_left (le_of_lt h), max_eq_right (le_of_lt h)]
      · simp only [h, if_false, min_eq_right (by omega : y1 ≤ y0), max_eq_left (by omega : y1 ≤ y0)]
    · simp only [hst, decide_False, Bool.false_eq_true, if_false]
      by_cases h : x0 < x1
      · simp only [h, if_true, min_eq_left (le_of_lt h), max_eq_right (le_of_lt h)]
      · simp only [h, if_false, min_eq_right (by omega : x1 ≤ x0), max_eq_left (by omega : x1 ≤ x0)]
  have hin : ∀ q ∈ pts, q.1 < p.WIDTH ∧ q.2 < p.HEIGHT := by
    intro q hq
    rw [← hline] at hq
    have := bresenhamLine_bounds x0 y0 x1 y1 hy q hq
    omega
  refine ⟨?_, drawPixels_painted p hp c hc pts hin s h8, ?_, ?_, ?_⟩
  · unfold ST7789_DrawLine
    rw [if_neg hx, if_neg hy, ← hline]
    exact DrawLine_general_eq p x0 y0 x1 y1 c s (by omega) (by omega) (by omega) (by omega) hx
  · rw [hpts]; exact bresenhamPoints_length steep a0 b0 b1 dx dy
  · rw [hpts]; exact bresenhamPoints_head steep a0 b0 b1 dx dy (by omega)
  · rw [hpts]; exact bresenhamPoints_last steep a0 b0 a1 b1 h01

/-- C11 at the specification's input: `drawLine(0,0,4,2,C)` is the five
calls at (0,0), (1,0), (2,1), (3,1), (4,2) in this order, and the controller
reads back these five cells. -/
theorem DrawLine_bresenham_witness :
    ST7789_DrawLine panel240x240 0 0 4 2 0xF800 idleBus =
        some (drawPixels panel240x240 0xF800 [(0, 0), (1, 0), (2, 1), (3, 1), (4, 2)] idleBus) ∧
      painted panel240x240 (emitted idleBus
          (drawPixels panel240x240 0xF800 [(0, 0), (1, 0), (2, 1), (3, 1), (4, 2)] idleBus)) =
        [(0, 0, 0xF800), (1, 0, 0xF800), (2, 1, 0xF800), (3, 1, 0xF800), (4, 2, 0xF800)] :=
  ⟨(DrawLine_bresenham panel240x240 (by decide) (by decide) (by decide) 0 0 4 2 0xF800 idleBus
      rfl (by decide) (by decide) (by decide) (by decide) (by decide) (by decide) (by decide)).1,
   (DrawLine_bresenham panel240x240 (by decide) (by decide) (by decide) 0 0 4 2 0xF800 idleBus
      rfl (by decide) (by decide) (by decide) (by decide) (by decide) (by decide) (by decide)).2.1⟩

/-! ### C17 -/

/-- C17: for vertices inside a panel of at most 16384 columns and rows, with
`dx = |x2-x1|`, `dy = |y2-y1|` and `n = max dx dy`, `ST7789_DrawFilledTriangle`
returns, and what it does is exactly the n+1 calls of `ST7789_DrawLine` from
the walking points to (x3,y3), in order: point k is k steps from (x1,y1)
towards (x2,y2) along the longer axis and `floor((den/2 + k*numadd) / den)`
steps along the other one (`den` the longer, `numadd` the shorter of dx, dy);
the first walking point is (x1,y1) and the last is (x2,y2). -/
theorem DrawFilledTriangle_edge_walk (p : Panel) (hw : p.WIDTH ≤ 16384)
    (hh : p.HEIGHT ≤ 16384) (x1 y1 x2 y2 x3 y3 c : Nat) (s : Bus) (h8 : s.is16 = false)
    (hc : c < 65536) (hx1 : x1 < p.WIDTH) (hy1 : y1 < p.HEIGHT) (hx2 : x2 < p.WIDTH)
    (hy2 : y2 < p.HEIGHT) (hx3 : x3 < p.WIDTH) (hy3 : y3 < p.HEIGHT) :
    let dx := Int.natAbs ((x2 : Int) - x1)
    let dy := Int.natAbs ((y2 : Int) - y1)
    let n := max dx dy
    let starts := (List.range (n + 1)).map (fun k =>
      (if dx ≥ dy then (if x1 ≤ x2 then x1 + k else x1 - k)
       else (if x1 ≤ x2 then x1 + (dy / 2 + k * dx) / dy else x1 - (dy / 2 + k * dx) / dy),
       if dx ≥ dy then
         (if y1 ≤ y2 then y1 + (dx / 2 + k * dy) / dx else y1 - (dx / 2 + k * dy) / dx)
       else (if y1 ≤ y2 then y1 + k else y1 - k)))
    ST7789_DrawFilledTriangle p x1 y1 x2 y2 x3 y3 c s = drawLinesTo p x3 y3 c starts s ∧
    (∃ s1, drawLinesTo p x3 y3 c starts s = some s1) ∧
    starts.length = n + 1 ∧
    starts.head? = some (x1, y1) ∧
    starts.getLast? = some (x2, y2) := by
  intro dx dy n starts
  have hst : starts = walkStarts x1 y1 x2 y2 := rfl
  have hin : ∀ q ∈ starts, q.1 < p.WIDTH ∧ q.2 < p.HEIGHT := by
    intro q hq
    rw [hst] at hq
    have := walkStarts_bounds x1 y1 x2 y2 q hq
    omega
  obtain ⟨s1, h1, -⟩ := drawLinesTo_returns p (by omega) (by omega) x3 y3 c hc hx3 hy3
    starts hin s h8
  refine ⟨?_, ⟨s1, h1⟩, ?_, ?_, ?_⟩
  · rw [hst]
    exact DrawFilledTriangle_walk p x1 y1 x2 y2 x3 y3 c s (by omega) (by omega) (by omega)
      (by omega)
  · rw [hst]; exact walkStarts_length x1 y1 x2 y2
  · rw [hst]; exact walkStarts_head x1 y1 x2 y2
  · rw [hst]; exact walkStarts_last x1 y1 x2 y2

/-- C17 at the input of `ST7789_Test`: the vertices (30,30), (30,70), (60,40)
give 41 lines to (60,40), the first from (30,30) and the last from (30,70),
and the call returns. -/
theorem DrawFilledTriangle_edge_walk_witness :
    ST7789_DrawFilledTriangle panel240x240 30 30 30 70 60 40 0xF800 idleBus =
        drawLinesTo panel240x240 60 40 0xF800 (walkStarts 30 30 30 70) idleBus ∧
      (∃ s1, drawLinesTo panel240x240 60 40 0xF800 (walkStarts 30 30 30 70) idleBus = some s1) ∧
      (walkStarts 30 30 30 70).length = 41 ∧
      (walkStarts 30 30 30 70).head? = some (30, 30) ∧
      (walkStarts 30 30 30 70).getLast? = some (30, 70) :=
  DrawFilledTriangle_edge_walk panel240x240 (by decide) (by decide) 30 30 30 70 60 40 0xF800
    idleBus rfl (by decide) (by decide) (by decide) (by decide) (by decide) (by decide)
    (by decide)

/-! ### C20 -/

/-- C20: for every radius r <= 255 (`r` is a `uint8_t`) and every centre,
`ST7789_DrawCircle` returns and what it does is the `ST7789_DrawPixel` calls
at the offsets of `circleOffsets r` from the centre (the four seed points,
then eight points per round); every such offset (dx,dy) has
`|dx*dx + dy*dy - r*r| <= r`; and every value assigned to one of the
`int16_t` variables f, ddF_x, ddF_y, x, y, before the loop and in every
round, is held without wrapping. -/
theorem DrawCircle_accuracy (p : Panel) (x0 y0 r c : Nat) (s : Bus) (hr : r ≤ 255)
    (hx0 : x0 ≤ 65535) (hy0 : y0 ≤ 65535) :
    ST7789_DrawCircle p x0 y0 r c s =
      some (drawPixels p c
        ((circleOffsets r).map (fun o => (u16 ((x0 : Int) + o.1), u16 ((y0 : Int) + o.2)))) s) ∧
    (∀ o ∈ circleOffsets r, Int.natAbs (o.1 * o.1 + o.2 * o.2 - (r : Int) * r) ≤ r) ∧
    fits16 (1 - (r : Int)) ∧ fits16 (-2 * (r : Int)) ∧ fits16 (r : Int) ∧
    (∀ v ∈ DrawCircle_init r :: DrawCircle_rounds (r + 1) (DrawCircle_init r),
      DrawCircle_step_fits v) := by
  refine ⟨DrawCircle_eq_offsets p x0 y0 r c s hr hx0 hy0, circleOffsets_error r hr, ?_, ?_, ?_,
    ?_⟩
  · unfold fits16; omega
  · unfold fits16; omega
  · unfold fits16; omega
  · intro v hv
    rcases List.mem_cons.mp hv with h | h
    · rw [h]; exact CircleInv_fits r hr _ (CircleInv_init r hr)
    · exact CircleInv_fits r hr v
        (DrawCircle_rounds_inv r hr (r + 1) (DrawCircle_init r) (CircleInv_init r hr) v h)

/-- C20 at `ST7789_DrawCircle(50, 50, 10, C)`. -/
theorem DrawCircle_accuracy_witness :
    ST7789_DrawCircle panel240x240 50 50 10 0xF800 idleBus =
      some (drawPixels panel240x240 0xF800
        ((circleOffsets 10).map
          (fun o => (u16 (((50 : Nat) : Int) + o.1), u16 (((50 : Nat) : Int) + o.2)))) idleBus) ∧
    (∀ o ∈ circleOffsets 10, Int.natAbs (o.1 * o.1 + o.2 * o.2 - ((10 : Nat) : Int) * (10 : Nat)) ≤ 10) ∧
    fits16 (1 - ((10 : Nat) : Int)) ∧ fits16 (-2 * ((10 : Nat) : Int)) ∧ fits16 ((10 : Nat) : Int) ∧
    (∀ v ∈ DrawCircle_init 10 :: DrawCircle_rounds (10 + 1) (DrawCircle_init 10),
      DrawCircle_step_fits v) :=
  DrawCircle_accuracy panel240x240 50 50 10 0xF800 idleBus (by decide) (by decide) (by decide)

/-! ### C12 -/

/-- C12: for every centre (x0,y0) and radius r <= 255 (`r` is a `uint8_t`)
with r <= x0, x0 + r < WIDTH, r <= y0 and y0 + r < HEIGHT,
`ST7789_DrawCircle` returns, and the set of cells the controller reads back
is invariant under the eight reflections about the centre: when the cell at
offset (dx,dy) from the centre is painted, so is the cell at every offset
(+-dx, +-dy) and (+-dy, +-dx). -/
theorem DrawCircle_eightfold (p : Panel) (hp : p.wf) (x0 y0 r c : Nat) (s : Bus)
    (h8 : s.is16 = false) (hc : c < 65536) (hr : r ≤ 255)
    (hxl : r ≤ x0) (hxr : x0 + r < p.WIDTH) (hyl : r ≤ y0) (hyr : y0 + r < p.HEIGHT) :
    ∃ s1, ST7789_DrawCircle p x0 y0 r c s = some s1 ∧
      ∀ dx dy : Int,
        (∃ a b : Nat, (a : Int) = x0 + dx ∧ (b : Int) = y0 + dy ∧
          (a, b, c) ∈ painted p (emitted s s1)) →
        ∀ ex ey : Int,
          (((ex = dx ∨ ex = -dx) ∧ (ey = dy ∨ ey = -dy)) ∨
            ((ex = dy ∨ ex = -dy) ∧ (ey = dx ∨ ey = -dx))) →
          ∃ a b : Nat, (a : Int) = x0 + ex ∧ (b : Int) = y0 + ey ∧
            (a, b, c) ∈ painted p (emitted s s1) := by
  obtain ⟨w1, w2, -, -, -⟩ := id hp
  have hpos : ∀ o ∈ circleOffsets r,
      ((u16 ((x0 : Int) + o.1) : Nat) : Int) = x0 + o.1 ∧
      ((u16 ((y0 : Int) + o.2) : Nat) : Int) = y0 + o.2 ∧
      u16 ((x0 : Int) + o.1) < p.WIDTH ∧ u16 ((y0 : Int) + o.2) < p.HEIGHT := by
    intro o ho
    obtain ⟨b1, b2, b3, b4⟩ := circleOffsets_bound r hr o ho
    unfold u16
    omega
  have hin : ∀ q ∈ (circleOffsets r).map
      (fun o => (u16 ((x0 : Int) + o.1), u16 ((y0 : Int) + o.2))),
      q.1 < p.WIDTH ∧ q.2 < p.HEIGHT := by
    intro q hq
    obtain ⟨o, ho, rfl⟩ := List.mem_map.mp hq
    exact ⟨(hpos o ho).2.2.1, (hpos o ho).2.2.2⟩
  refine ⟨_, DrawCircle_eq_offsets p x0 y0 r c s hr (by omega) (by omega), ?_⟩
  rw [drawPixels_painted p hp c hc _ hin s h8]
  have hmem : ∀ (a b : Nat) (ex ey : Int), (a : Int) = x0 + ex → (b : Int) = y0 + ey →
      ((a, b, c) ∈ ((circleOffsets r).map
          (fun o => (u16 ((x0 : Int) + o.1), u16 ((y0 : Int) + o.2)))).map
            (fun q => (q.1, q.2, c)) ↔ (ex, ey) ∈ circleOffsets r) := by
    intro a b ex ey ha hb
    rw [List.map_map]
    constructor
    · intro h
      obtain ⟨o, ho, e⟩ := List.mem_map.mp h
      simp only [Function.comp, Prod.mk.injEq, and_true] at e
      obtain ⟨p1, p2, -, -⟩ := hpos o ho
      have e1 : o.1 = ex := by omega
      have e2 : o.2 = ey := by omega
      rw [← e1, ← e2]
      exact ho
    · intro h
      refine List.mem_map.mpr ⟨(ex, ey), h, ?_⟩
      obtain ⟨p1, p2, -, -⟩ := hpos (ex, ey) h
      simp only [Function.comp, Prod.mk.injEq, and_true]
      dsimp only at p1 p2
      omega
  intro dx dy ⟨a, b, ha, hb, hab⟩ ex ey hrefl
  have h1 := (hmem a b dx dy ha hb).mp hab
  have h2 := circleOffsets_reflect r dx dy ex ey h1 hrefl
  obtain ⟨p1, p2, -, -⟩ := hpos (ex, ey) h2
  exact ⟨u16 ((x0 : Int) + ex), u16 ((y0 : Int) + ey), p1, p2,
    (hmem _ _ ex ey p1 p2).mpr h2⟩

/-- C12 at the two inputs named by the claim: `ST7789_DrawCircle(50, 50, 10, C)`
of the specification and `ST7789_DrawCircle(60, 60, 25, WHITE)` of
`ST7789_Test`. -/
theorem DrawCircle_eightfold_witness :
    (∃ s1, ST7789_DrawCircle panel240x240 50 50 10 0xF800 idleBus = some s1 ∧
      ∀ dx dy : Int,
        (∃ a b : Nat, (a : Int) = (50 : Nat) + dx ∧ (b : Int) = (50 : Nat) + dy ∧
          (a, b, 0xF800) ∈ painted panel240x240 (emitted idleBus s1)) →
        ∀ ex ey : Int,
          (((ex = dx ∨ ex = -dx) ∧ (ey = dy ∨ ey = -dy)) ∨
            ((ex = dy ∨ ex = -dy) ∧ (ey = dx ∨ ey = -dx))) →
          ∃ a b : Nat, (a : Int) = (50 : Nat) + ex ∧ (b : Int) = (50 : Nat) + ey ∧
            (a, b, 0xF800) ∈ painted panel240x240 (emitted idleBus s1)) ∧
    (∃ s1, ST7789_DrawCircle panel240x240 60 60 25 0xFFFF idleBus = some s1 ∧
      ∀ dx dy : Int,
        (∃ a b : Nat, (a : Int) = (60 : Nat) + dx ∧ (b : Int) = (60 : Nat) + dy ∧
          (a, b, 0xFFFF) ∈ painted panel240x240 (emitted idleBus s1)) →
        ∀ ex ey : Int,
          (((ex = dx ∨ ex = -dx) ∧ (ey = dy ∨ ey = -dy)) ∨
            ((ex = dy ∨ ex = -dy) ∧ (ey = dx ∨ ey = -dx))) →
          ∃ a b : Nat, (a : Int) = (60 : Nat) + ex ∧ (b : Int) = (60 : Nat) + ey ∧
            (a, b, 0xFFFF) ∈ painted panel240x240 (emitted idleBus s1)) :=
  ⟨DrawCircle_eightfold panel240x240 (by decide) 50 50 10 0xF800 idleBus rfl (by decide)
      (by decide) (by decide) (by decide) (by decide) (by decide),
   DrawCircle_eightfold panel240x240 (by decide) 60 60 25 0xFFFF idleBus rfl (by decide)
      (by decide) (by decide) (by decide) (by decide) (by decide)⟩

/-! ### C22 -/

/-- C22: for every centre (x0,y0) and radius r <= 255 with r <= x0,
x0 + r < WIDTH, r <= y0 and y0 + r < HEIGHT, `ST7789_DrawCircle` and
`ST7789_DrawFilledCircle` (whose `int16_t` parameters take the same three
values) both return; every cell the controller reads back from the outline
is also read back from the filled circle; and the filled circle writes every
cell (x, y0) of the centre row with x0 - r <= x <= x0 + r. -/
theorem DrawFilledCircle_covers_outline (p : Panel) (hp : p.wf) (x0 y0 r c : Nat) (s : Bus)
    (h8 : s.is16 = false) (hc : c < 65536) (hr : r ≤ 255)
    (hxl : r ≤ x0) (hxr : x0 + r < p.WIDTH) (hyl : r ≤ y0) (hyr : y0 + r < p.HEIGHT) :
    ∃ s1 s2, ST7789_DrawCircle p x0 y0 r c s = some s1 ∧
      ST7789_DrawFilledCircle p (i16 x0) (i16 y0) (i16 r) c s = some s2 ∧
      (∀ q ∈ painted p (emitted s s1), q ∈ painted p (emitted s s2)) ∧
      (∀ x : Nat, x0 - r ≤ x → x ≤ x0 + r → (x, y0, c) ∈ painted p (emitted s s2)) := by
  obtain ⟨w1, w2, -, -, -⟩ := id hp
  obtain ⟨s2, e2, P2⟩ := DrawFilledCircle_paints p hp x0 y0 r c s h8 hc hr hxl hxr hyl hyr
  have hin : ∀ q ∈ (circleOffsets r).map
      (fun o => (u16 ((x0 : Int) + o.1), u16 ((y0 : Int) + o.2))),
      q.1 < p.WIDTH ∧ q.2 < p.HEIGHT := by
    intro q hq
    obtain ⟨o, ho, rfl⟩ := List.mem_map.mp hq
    obtain ⟨b1, b2, b3, b4⟩ := circleOffsets_bound r hr o ho
    unfold u16
    dsimp only
    omega
  refine ⟨_, s2, DrawCircle_eq_offsets p x0 y0 r c s hr (by omega) (by omega), e2, ?_, ?_⟩
  · rw [drawPixels_painted p hp c hc _ hin s h8, painted_of_PaintsFrom p s s2 _ P2,
      List.map_map]
    intro q hq
    obtain ⟨o, ho, rfl⟩ := List.mem_map.mp hq
    exact circle_cell_in_filled x0 y0 r c hr hxl hyl (by omega) (by omega) o ho
  · rw [painted_of_PaintsFrom p s s2 _ P2]
    intro x h1 h2
    exact centre_row_in_filled x0 y0 r c x hxl (by omega) h1 h2

/-- C22 at the circle of `ST7789_Test`: centre (60,60), radius 25, WHITE, on
the 240x240 panel. -/
theorem DrawFilledCircle_covers_outline_witness :
    ∃ s1 s2, ST7789_DrawCircle panel240x240 60 60 25 0xFFFF idleBus = some s1 ∧
      ST7789_DrawFilledCircle panel240x240 (i16 ((60 : Nat) : Int)) (i16 ((60 : Nat) : Int))
        (i16 ((25 : Nat) : Int)) 0xFFFF idleBus = some s2 ∧
      (∀ q ∈ painted panel240x240 (emitted idleBus s1),
        q ∈ painted panel240x240 (emitted idleBus s2)) ∧
      (∀ x : Nat, 60 - 25 ≤ x → x ≤ 60 + 25 →
        (x, 60, 0xFFFF) ∈ painted panel240x240 (emitted idleBus s2)) :=
  DrawFilledCircle_covers_outline panel240x240 (by decide) 60 60 25 0xFFFF idleBus rfl
    (by decide) (by decide) (by decide) (by decide) (by decide) (by decide)

/-! ### C21 -/

/-- C21: for every string, every font no wider than the panel and every start
cursor with `y + font.height <= ST7789_HEIGHT`, `ST7789_WriteString` is the
sequence of `ST7789_WriteChar` calls of `WriteString_calls`, at most one per
character of the string; every call is at a cursor (cx,cy) with
`cx + font.width <= ST7789_WIDTH` and `cy + font.height <= ST7789_HEIGHT`;
the characters the loop consumes (`WriteString_steps`) are a prefix of the
string; and the calls are exactly these characters in order, each drawn at
its cursor or, when the wrap test `x + font.width >= ST7789_WIDTH` holds at
it, at the start of the next row, except that a space (code 32) at which the
wrap test holds is left out: no other character is left out, in particular
no space that is reached without a wrap.  The cursors of `WriteString_steps`
are those of the loop: the first is the start cursor, and after a character
the column is 0 (space left out at a wrap), `font.width` (drawn after a wrap)
or `x + font.width`, on the next row after a wrap and on the same row
otherwise. -/
theorem WriteString_stays_in_panel (p : Panel) (font : FontDef) (color bgcolor : Nat)
    (str : List Nat) (x y : Nat) (s : Bus)
    (hw : font.width ≤ p.WIDTH) (hy : y + font.height ≤ p.HEIGHT) :
    ST7789_WriteString p font color bgcolor str x y s =
      (WriteString_calls p font str x y).foldl
        (fun s q => ST7789_WriteChar p q.1 q.2.1 q.2.2 font color bgcolor s) s ∧
    (∀ q ∈ WriteString_calls p font str x y,
      q.1 + font.width ≤ p.WIDTH ∧ q.2.1 + font.height ≤ p.HEIGHT) ∧
    (WriteString_calls p font str x y).length ≤ str.length ∧
    (WriteString_steps p font str x y).map (fun e => e.1) <+: str ∧
    WriteString_calls p font str x y =
      (WriteString_steps p font str x y).filterMap (fun e =>
        if (e.2.1 : Int) + font.width ≥ p.WIDTH then
          (if e.1 = 32 then none else some (0, u16 ((e.2.2 : Int) + font.height), e.1))
        else some (e.2.1, e.2.2, e.1)) ∧
    (∀ e, (WriteString_steps p font str x y).head? = some e → e.2 = (x, y)) ∧
    List.Chain' (fun e f : Nat × Nat × Nat =>
      f.2 = (if (e.2.1 : Int) + font.width ≥ p.WIDTH then
          ((if e.1 = 32 then 0 else u16 ((0 : Int) + font.width)),
            u16 ((e.2.2 : Int) + font.height))
        else (u16 ((e.2.1 : Int) + font.width), e.2.2)))
      (WriteString_steps p font str x y) ∧
    ∃ pre rest : List Nat, str = pre ++ rest ∧
      List.Sublist ((WriteString_calls p font str x y).map (fun q => q.2.2)) pre ∧
      ((WriteString_calls p font str x y).map (fun q => q.2.2)).filter (fun ch => ch != 32) =
        pre.filter (fun ch => ch != 32) :=
  ⟨WriteString_eq_calls p font color bgcolor str x y s,
   WriteString_calls_in_panel p font hw str x y hy,
   (WriteString_calls_initial p font str x y).1,
   WriteString_steps_initial p font str x y,
   WriteString_calls_of_steps p font str x y,
   fun e h => WriteString_steps_head p font str x y e h,
   WriteString_steps_chain p font str x y,
   (WriteString_calls_initial p font str x y).2⟩

/-- C21 at "A B" on the 240x240 panel with the 10x18 font.  Written from
(225, 0): 'A' at (225,0), the space left out at the wrap, 'B' at (0,18).
Written from (0, 0): no wrap, and the space is drawn, at (10,0). -/
theorem WriteString_stays_in_panel_witness :
    WriteString_calls panel240x240 font10x18 [65, 32, 66] 225 0 = [(225, 0, 65), (0, 18, 66)] ∧
    WriteString_steps panel240x240 font10x18 [65, 32, 66] 225 0 =
      [(65, 225, 0), (32, 235, 0), (66, 0, 18)] ∧
    WriteString_calls panel240x240 font10x18 [65, 32, 66] 0 0 =
      [(0, 0, 65), (10, 0, 32), (20, 0, 66)] ∧
    (∀ q ∈ WriteString_calls panel240x240 font10x18 [65, 32, 66] 225 0,
      q.1 + font10x18.width ≤ panel240x240.WIDTH ∧
      q.2.1 + font10x18.height ≤ panel240x240.HEIGHT) ∧
    WriteString_calls panel240x240 font10x18 [65, 32, 66] 0 0 =
      (WriteString_steps panel240x240 font10x18 [65, 32, 66] 0 0).filterMap (fun e =>
        if (e.2.1 : Int) + font10x18.width ≥ panel240x240.WIDTH then
          (if e.1 = 32 then none else some (0, u16 ((e.2.2 : Int) + font10x18.height), e.1))
        else some (e.2.1, e.2.2, e.1)) :=
  ⟨by decide, by decide, by decide,
   (WriteString_stays_in_panel panel240x240 font10x18 0xFFFF 0 [65, 32, 66] 225 0 idleBus
      (by decide) (by decide)).2.1,
   (WriteString_stays_in_panel panel240x240 font10x18 0xFFFF 0 [65, 32, 66] 0 0 idleBus
      (by decide) (by decide)).2.2.2.2.1⟩

end ST7789
